import Mathlib

/-!
# XMODEM engine of picoprom (`src/xmodem.c`)

A shallow embedding of `xmodem_receive` and `xmodem_send` and of the integrity
arithmetic they inline, followed by theorems about them.

Conventions of the embedding.

* A C `int` is 32 bits wide.  A value of type `int` is held as its two's
  complement bit pattern, a natural number below `2 ^ 32`; arithmetic that can
  leave that range is reduced `% 2 ^ 32`.  The counters `sizeReceived`,
  `packetNumber`, `block`, `bufpos` and `tries` stay far below `2 ^ 31` and are
  plain naturals (`sizeReceived + 128` is compared with the size of an object,
  which is at most `PTRDIFF_MAX`).
* A `char` is held as its bit pattern `0 .. 255`.  Whether `char` is signed is a
  parameter `charSigned` of every function that converts a `char` to `int`.
* The serial link is a list of results of successive `getchar_timeout_us(1000)`
  calls: `some b` is a byte, `none` is `PICO_ERROR_TIMEOUT`; when the list is
  used up the link stays silent (every further call times out).
* The clock is a function giving the result of the `k`-th reading of
  `get_absolute_time()` in microseconds.
* Everything written to `stdout` is recorded in order as a list of `Out`.
  The text of the diagnostic log is not part of the two protocol functions:
  `xmodem_log` only changes `gLogBuffer`, and `xmodem_dumplog()` is recorded as
  the event `Out.dumplog`.  The log itself is modelled on its own
  (`xmodem_log`, `xmodem_clearlog`).
* Each loop of the source is a phase of a state machine; one `step` is one
  iteration of the loop of the current phase.
-/

namespace Xmodem

/-! ## Constants (xmodem.c, lines 17-26) -/

def XMODEM_SOH : Nat := 1
def XMODEM_EOT : Nat := 4
def XMODEM_ACK : Nat := 6
def XMODEM_BS : Nat := 8
def XMODEM_DLE : Nat := 0x10
def XMODEM_NAK : Nat := 0x15
def XMODEM_CAN : Nat := 0x18
def XMODEM_SUB : Nat := 0x1a

def XMODEM_BLOCKSIZE : Nat := 128

/-- A byte on the wire or in memory (the bit pattern of a `char`). -/
abbrev Byte := Fin 256

/-- Modelled from the spec: `xmodem_config_t` is declared in `xmodem.h`, which is
not among the sources; the fields are the three that `xmodem.c` initialises and
reads (`logLevel`, `useCrc`, `useEscape`). -/
structure xmodem_config_t where
  logLevel : Int
  useCrc : Bool
  useEscape : Bool
deriving DecidableEq, Repr

/-! ## Machine integers -/

/-- Reduction of a natural number to the bit pattern of a 32-bit `int`. -/
def wrap32 (x : Nat) : Nat := x % 2 ^ 32

/-- Integer promotion of a `char` with bit pattern `p`: the bit pattern of the
resulting `int` (sign extension when `char` is signed). -/
def charToInt (charSigned : Bool) (p : Byte) : Nat :=
  if charSigned && decide (128 ≤ p.val) then p.val + (2 ^ 32 - 256) else p.val

/-- Conversion `(char)x` of an `int` with bit pattern `x`: the bit pattern of the `char`. -/
def toChar (x : Nat) : Byte := ⟨x % 256, Nat.mod_lt x (by decide)⟩

/-- The byte `putchar(x)` writes for an `int` with bit pattern `x`: `(unsigned char)x`. -/
def toUChar (x : Nat) : Byte := ⟨x % 256, Nat.mod_lt x (by decide)⟩

/-- Subtraction `x - y` of two `int`s, on bit patterns. -/
def sub32 (x y : Nat) : Nat := (x + (2 ^ 32 - y % 2 ^ 32)) % 2 ^ 32

/-- Arithmetic right shift `x >> n` of a (signed) `int` with bit pattern `x`. -/
def sar32 (x n : Nat) : Nat :=
  if x % 2 ^ 32 < 2 ^ 31 then (x % 2 ^ 32) >>> n
  else 2 ^ 32 - 1 - ((2 ^ 32 - 1 - x % 2 ^ 32) >>> n)

/-- Comparison `a != b` of two `char` values with bit patterns `a` and `b`
(both are promoted to `int` first). -/
def charNe (charSigned : Bool) (a b : Byte) : Bool :=
  charToInt charSigned a != charToInt charSigned b

/-! ## Integrity arithmetic, as inlined in both functions -/

/-- One round of the inner loop (lines 226-229 and 342-345):
`if (checksum & 0x8000) checksum = checksum << 1 ^ 0x1021; else checksum = checksum << 1;` -/
def crcShift (checksum : Nat) : Nat :=
  if checksum &&& 0x8000 != 0 then wrap32 (checksum <<< 1) ^^^ 0x1021
  else wrap32 (checksum <<< 1)

/-- The per-byte CRC update (lines 224-229 and 340-345) on an `int` accumulator:
`checksum = checksum ^ c << 8;` followed by eight rounds of `crcShift`.
`c` is the bit pattern of the `int` holding the byte. -/
def crcUpdate (checksum c : Nat) : Nat :=
  crcShift (crcShift (crcShift (crcShift (crcShift (crcShift (crcShift (crcShift
    (checksum ^^^ wrap32 (c <<< 8)))))))))

/-- The additive update of the receiver (line 233): `checksum += c;`. -/
def sumUpdate (checksum c : Nat) : Nat := wrap32 (checksum + c)

/-- The integrity update of `xmodem_receive` for one payload byte `c` (lines 222-234). -/
def recvUpdate (useCrc : Bool) (checksum c : Nat) : Nat :=
  if useCrc then crcUpdate checksum c else sumUpdate checksum c

/-- The integrity update of `xmodem_send` for one payload `int` `c` (lines 338-350):
the CRC update on `c` itself, or `checksum += (char)c;`. -/
def sendUpdate (charSigned useCrc : Bool) (checksum c : Nat) : Nat :=
  if useCrc then crcUpdate checksum c
  else wrap32 (checksum + charToInt charSigned (toChar c))

/-! ## Reference definitions of the two integrity values (from the specification) -/

/-- One bit of CRC-16/XMODEM on a 16-bit register: shift left, and XOR the
polynomial 0x1021 when the bit shifted out was set. -/
def crc16Bit (crc : Nat) : Nat :=
  if crc / 0x8000 % 2 = 1 then (crc * 2 % 0x10000) ^^^ 0x1021 else crc * 2 % 0x10000

/-- CRC-16/XMODEM of one more byte: the byte is XORed into the high half of the
register, then eight bits are shifted out. -/
def crc16Byte (crc : Nat) (b : Byte) : Nat :=
  crc16Bit^[8] (crc ^^^ (b.val * 256))

/-- CRC-16/XMODEM of a byte sequence: polynomial 0x1021, initial value 0, no
reflection, no final XOR. -/
def crc16_xmodem (data : List Byte) : Nat := data.foldl crc16Byte 0

/-- Additive checksum of a byte sequence: the sum of the bytes modulo 256. -/
def checksum8 (data : List Byte) : Nat := (data.map Fin.val).sum % 256

/-! ## Input and output -/

/-- One call that writes to `stdout`. -/
inductive Out where
  /-- The byte written by `putchar(c)`, that is `(unsigned char)c`. -/
  | putchar (b : Byte)
  /-- The text given to `puts`, which adds a newline. -/
  | puts (s : List Nat)
  /-- A call of `xmodem_dumplog()`, which `puts` the diagnostic log when it is not empty. -/
  | dumplog
deriving DecidableEq, Repr

/-- The bytes written with `putchar`, in order. -/
def wireBytes : List Out → List Byte
  | [] => []
  | Out.putchar b :: rest => b :: wireBytes rest
  | _ :: rest => wireBytes rest

/-- Result of `memcpy(mem + dest, src, n)` on a memory seen as a function from
offsets to bytes. -/
def memcpy (mem : Nat → Byte) (dest : Nat) (src : List Byte) (n : Nat) : Nat → Byte :=
  fun i => if dest ≤ i ∧ i < dest + n then src.getD (i - dest) 0 else mem i

/-! ## `xmodem_receive` (lines 89-270) -/

/-- The arguments of one call of `xmodem_receive`, with the configuration and
the environment it runs in. -/
structure RecvCall where
  /-- Result of the `k`-th reading of `get_absolute_time()`, in microseconds. -/
  clock : Nat → Nat
  charSigned : Bool
  config : xmodem_config_t
  bufferSize : Nat
  /-- The banner `message`, `none` for a null pointer. -/
  message : Option (List Nat)
  /-- The callback `inputhandler`, `none` for a null pointer. -/
  inputhandler : Option (Nat → Bool)

/-- Where `xmodem_receive` is in its control flow, with the locals of that loop. -/
inductive RecvPhase where
  /-- The loop "Receive next packet" (lines 107-146). -/
  | waiting (nextPrintTime : Nat)
  /-- The loop reading a frame (lines 188-236); `buffer` holds the `bufpos`
  bytes stored so far. -/
  | reading (timeoutTime : Nat) (checksum : Nat) (escape : Bool) (buffer : List Byte)
  /-- The loop of line 175, after the eight CAN bytes. -/
  | draining
  /-- The function has returned `value`. -/
  | returned (value : Int)
deriving DecidableEq, Repr

/-- State of a running `xmodem_receive`. -/
structure RecvState where
  /-- Results of the `getchar_timeout_us(1000)` calls still to come. -/
  input : List (Option Byte)
  /-- Number of readings of the clock made so far. -/
  ticks : Nat
  output : List Out
  outputBuffer : Nat → Byte
  sizeReceived : Nat
  packetNumber : Nat
  phase : RecvPhase

/-- Number of bytes read after SOH: `2+XMODEM_BLOCKSIZE + (useCrc ? 2 : 1)`. -/
def frameLength (useCrc : Bool) : Nat := 2 + XMODEM_BLOCKSIZE + (if useCrc then 2 else 1)

/-- Lines 263-267 followed by `return value`: `puts("")`, `xmodem_dumplog()`. -/
def recvFinish (s : RecvState) (value : Int) : RecvState :=
  { s with output := s.output ++ [Out.puts [], Out.dumplog], phase := RecvPhase.returned value }

/-- The solicitation at the head of the waiting loop (lines 109-126).  Returns
the state and the new `nextPrintTime`. -/
def recvSolicit (a : RecvCall) (s : RecvState) (nextPrintTime : Nat) : RecvState × Nat :=
  if s.sizeReceived = 0 then
    let now := a.clock s.ticks
    let s1 := { s with ticks := s.ticks + 1 }
    if now > nextPrintTime then
      let banner := match a.message with
        | some m => [Out.puts m]
        | none => []
      let request :=
        if a.config.useCrc then [Out.putchar (toUChar 8), Out.putchar (toUChar 67)]
        else [Out.putchar (toUChar XMODEM_NAK)]
      ({ s1 with output := s1.output ++ [Out.dumplog] ++ banner ++ request,
                 ticks := s1.ticks + 1 },
       a.clock s1.ticks + 3000 * 1000)
    else (s1, nextPrintTime)
  else (s, nextPrintTime)

/-- Lines 238-247: the flags `wrongPacket`, `badPacketInv` and `badChecksum`, and
the condition `timeout || wrongPacket || badPacketInv || badChecksum`.  Bytes of
`buffer` that were not stored are read as 0; the source reads them
uninitialised, which happens only when `timeout` is set. -/
def recvRejects (a : RecvCall) (packetNumber : Nat) (timeout : Bool) (checksum : Nat)
    (buffer : List Byte) : Bool :=
  let wrongPacket := charNe a.charSigned (buffer.getD 0 0) (toChar packetNumber)
  let badPacketInv := charNe a.charSigned (buffer.getD 1 0)
    (toChar (sub32 255 (charToInt a.charSigned (buffer.getD 0 0))))
  let badChecksum :=
    if a.config.useCrc then
      charNe a.charSigned (buffer.getD (2 + XMODEM_BLOCKSIZE) 0) (toChar (sar32 checksum 8))
        || charNe a.charSigned (buffer.getD (2 + XMODEM_BLOCKSIZE + 1) 0) (toChar checksum)
    else charNe a.charSigned (buffer.getD (2 + XMODEM_BLOCKSIZE) 0) (toChar checksum)
  timeout || wrongPacket || badPacketInv || badChecksum

/-- Lines 247-260: NAK, or ACK and the copy into the output buffer; the outer
loop then starts again at line 104. -/
def recvValidate (a : RecvCall) (s : RecvState) (timeout : Bool) (checksum : Nat)
    (buffer : List Byte) : RecvState :=
  if recvRejects a s.packetNumber timeout checksum buffer then
    { s with output := s.output ++ [Out.putchar (toUChar XMODEM_NAK)],
             ticks := s.ticks + 1,
             phase := RecvPhase.waiting (a.clock s.ticks) }
  else
    { s with output := s.output ++ [Out.putchar (toUChar XMODEM_ACK)],
             outputBuffer := memcpy s.outputBuffer s.sizeReceived (buffer.drop 2) XMODEM_BLOCKSIZE,
             sizeReceived := s.sizeReceived + XMODEM_BLOCKSIZE,
             packetNumber := s.packetNumber + 1,
             ticks := s.ticks + 1,
             phase := RecvPhase.waiting (a.clock s.ticks) }

/-- One iteration of the waiting loop (lines 107-146) and, when it is left, the
code up to the next loop (lines 148-187). -/
def recvWaitStep (a : RecvCall) (s : RecvState) (nextPrintTime : Nat) : RecvState :=
  let s1 := (recvSolicit a s nextPrintTime).1
  let next := (recvSolicit a s nextPrintTime).2
  match s1.input with
  | [] => { s1 with phase := RecvPhase.waiting next }
  | none :: rest => { s1 with input := rest, phase := RecvPhase.waiting next }
  | some b :: rest =>
    let s2 := { s1 with input := rest }
    let c := b.val
    if c = XMODEM_EOT then
      recvFinish { s2 with output := s2.output ++ [Out.putchar (toUChar XMODEM_ACK)] } (s2.sizeReceived : Int)
    else if c = XMODEM_CAN then
      recvFinish { s2 with output := s2.output ++ [Out.putchar (toUChar XMODEM_ACK)] } (-1)
    else if c = XMODEM_SOH then
      if s2.sizeReceived + XMODEM_BLOCKSIZE > a.bufferSize then
        { s2 with output := s2.output ++ List.replicate 8 (Out.putchar (toUChar XMODEM_CAN)),
                  phase := RecvPhase.draining }
      else
        { s2 with ticks := s2.ticks + 1,
                  phase := RecvPhase.reading (a.clock s2.ticks + 1000 * 1000) 0 false [] }
    else if (match a.inputhandler with
             | some handler => handler c
             | none => false) then
      { s2 with phase := RecvPhase.returned 0 }
    else { s2 with phase := RecvPhase.waiting next }

/-- One iteration of the loop reading a frame (lines 188-236), its condition
included; when the loop is left the frame is validated. -/
def recvReadStep (a : RecvCall) (s : RecvState) (timeoutTime checksum : Nat) (escape : Bool)
    (buffer : List Byte) : RecvState :=
  if buffer.length < frameLength a.config.useCrc then
    let now := a.clock s.ticks
    let s1 := { s with ticks := s.ticks + 1 }
    if now > timeoutTime then recvValidate a s1 true checksum buffer
    else
      match s1.input with
      | [] => s1
      | none :: rest => { s1 with input := rest }
      | some b :: rest =>
        let s2 := { s1 with input := rest }
        let isData := decide (2 ≤ buffer.length) && decide (buffer.length < 2 + XMODEM_BLOCKSIZE)
        if a.config.useEscape && isData && decide (b.val = XMODEM_DLE) then
          { s2 with phase := RecvPhase.reading timeoutTime checksum true buffer }
        else
          let c := if escape then b.val ^^^ 0x40 else b.val
          let checksum1 := if isData then recvUpdate a.config.useCrc checksum c else checksum
          { s2 with phase := RecvPhase.reading timeoutTime checksum1 false (buffer ++ [toChar c]) }
  else recvValidate a s false checksum buffer

/-- One iteration of the loop of line 175; a timeout ends it and the function
returns -1 (`error` is set). -/
def recvDrainStep (s : RecvState) : RecvState :=
  match s.input with
  | [] => recvFinish s (-1)
  | none :: rest => recvFinish { s with input := rest } (-1)
  | some _ :: rest => { s with input := rest }

/-- One step of `xmodem_receive`. -/
def recvStep (a : RecvCall) (s : RecvState) : RecvState :=
  match s.phase with
  | RecvPhase.waiting nextPrintTime => recvWaitStep a s nextPrintTime
  | RecvPhase.reading timeoutTime checksum escape buffer =>
    recvReadStep a s timeoutTime checksum escape buffer
  | RecvPhase.draining => recvDrainStep s
  | RecvPhase.returned _ => s

/-- The state after `fuel` steps. -/
def recvRun (a : RecvCall) : Nat → RecvState → RecvState
  | 0, s => s
  | fuel + 1, s => recvRun a fuel (recvStep a s)

/-- The state on entry to the waiting loop for the first time (lines 92-104). -/
def recvInit (a : RecvCall) (outputBuffer : Nat → Byte) (input : List (Option Byte)) : RecvState :=
  { input := input, ticks := 1, output := [], outputBuffer := outputBuffer,
    sizeReceived := 0, packetNumber := 1, phase := RecvPhase.waiting (a.clock 0) }

/-- The function `xmodem_receive`, run for `fuel` steps. -/
def xmodem_receive (a : RecvCall) (outputBuffer : Nat → Byte) (input : List (Option Byte))
    (fuel : Nat) : RecvState :=
  recvRun a fuel (recvInit a outputBuffer input)

/-- The value returned, when the function has returned. -/
def RecvState.returnValue (s : RecvState) : Option Int :=
  match s.phase with
  | RecvPhase.returned v => some v
  | _ => none

/-! ## `xmodem_send` (lines 272-439) -/

/-- The arguments of one call of `xmodem_send`, with the configuration. -/
structure SendCall where
  charSigned : Bool
  config : xmodem_config_t
  /-- The memory `inputBuffer` points to, by offset. -/
  inputBuffer : Nat → Byte
  bufferSize : Nat

/-- Where `xmodem_send` is in its control flow, with the locals that are live there. -/
inductive SendPhase where
  /-- The loop waiting for the receiver (lines 286-317). -/
  | handshake (tries : Nat)
  /-- The loop sending the blocks (lines 320-398), `result` being true. -/
  | sending (useCrc : Bool) (block : Nat) (bufpos : Nat) (tries : Nat)
  /-- The loop after EOT (lines 405-418), `result` being true. -/
  | eot (tries : Nat)
  /-- The loop of line 430, after the eight CAN bytes. -/
  | cancelling
  /-- The function has returned `result`. -/
  | returned (result : Bool)
deriving DecidableEq, Repr

/-- State of a running `xmodem_send`. -/
structure SendState where
  /-- Results of the `getchar_timeout_us(1000)` calls still to come. -/
  input : List (Option Byte)
  output : List Out
  phase : SendPhase
deriving DecidableEq, Repr

/-- The `int` assigned to `c` at line 335 for the offset `bufpos`. -/
def sendByte (a : SendCall) (bufpos : Nat) : Nat :=
  if bufpos < a.bufferSize then charToInt a.charSigned (a.inputBuffer bufpos)
  else XMODEM_SUB

/-- The `for` loop of lines 333-351 with `n` iterations left: returns the
accumulator and the bytes written. -/
def sendPayload (a : SendCall) (useCrc : Bool) :
    Nat → Nat → Nat → List Byte → Nat × List Byte
  | 0, _, checksum, written => (checksum, written)
  | n + 1, bufpos, checksum, written =>
    sendPayload a useCrc n (bufpos + 1)
      (sendUpdate a.charSigned useCrc checksum (sendByte a bufpos))
      (written ++ [toUChar (sendByte a bufpos)])

/-- The bytes written for one block (lines 328-360): header, payload, trailer. -/
def sendFrame (a : SendCall) (useCrc : Bool) (block : Nat) : List Byte :=
  let header := [toUChar XMODEM_SOH,
                 toUChar (charToInt a.charSigned (toChar block)),
                 toUChar (sub32 255 (charToInt a.charSigned (toChar block)))]
  let body := sendPayload a useCrc XMODEM_BLOCKSIZE (block * XMODEM_BLOCKSIZE) 0 []
  let checksum := body.1
  let trailer :=
    if useCrc then
      [toUChar (charToInt a.charSigned (toChar (sar32 checksum 8))),
       toUChar (charToInt a.charSigned (toChar checksum))]
    else [toUChar (charToInt a.charSigned (toChar checksum))]
  header ++ body.2 ++ trailer

/-- Lines 434-438: `puts("")`, `xmodem_dumplog()`, `return result`. -/
def sendFinish (s : SendState) (result : Bool) : SendState :=
  { s with output := s.output ++ [Out.puts [], Out.dumplog], phase := SendPhase.returned result }

/-- Entry of the `else` branch of line 425 (`result` is false): eight CAN bytes,
then the loop of line 430. -/
def sendCancel (s : SendState) : SendState :=
  { s with output := s.output ++ List.replicate 8 (Out.putchar (toUChar XMODEM_CAN)),
           phase := SendPhase.cancelling }

/-- The condition of the loop of line 320 once `result` is true, and what
follows when it fails: `tries = 0; putchar(XMODEM_EOT);`. -/
def sendNext (a : SendCall) (s : SendState) (useCrc : Bool) (block bufpos tries : Nat) :
    SendState :=
  if bufpos < a.bufferSize then { s with phase := SendPhase.sending useCrc block bufpos tries }
  else { s with output := s.output ++ [Out.putchar (toUChar XMODEM_EOT)], phase := SendPhase.eot 0 }

/-- The end of an iteration of the handshake loop that did not `break`:
`while (tries++ < 30000)`, and after the loop the `else` branch of line 425. -/
def sendHandshakeAgain (s : SendState) (tries : Nat) : SendState :=
  if tries < 30000 then { s with phase := SendPhase.handshake (tries + 1) }
  else sendCancel s

/-- One iteration of the handshake loop (lines 286-317). -/
def sendHandshakeStep (a : SendCall) (s : SendState) (tries : Nat) : SendState :=
  match s.input with
  | [] => sendHandshakeAgain s tries
  | none :: rest => sendHandshakeAgain { s with input := rest } tries
  | some b :: rest =>
    let s1 := { s with input := rest }
    if b.val = 67 then sendNext a s1 true 1 0 tries
    else if b.val = XMODEM_NAK then sendNext a s1 false 1 0 tries
    else if b.val = XMODEM_BS then sendHandshakeAgain s1 tries
    else if a.config.logLevel ≥ 1 then
      sendHandshakeAgain { s1 with output := s1.output ++ [Out.dumplog] } tries
    else sendHandshakeAgain s1 tries

/-- Lines 387-397: `tries++; if (tries > 10) { result = false; break; }`, then
the condition of the loop again. -/
def sendRetry (a : SendCall) (s : SendState) (useCrc : Bool) (block bufpos tries : Nat) :
    SendState :=
  if tries + 1 > 10 then sendCancel s
  else sendNext a s useCrc block bufpos (tries + 1)

/-- One iteration of the loop sending the blocks (lines 320-398): the frame,
then the reaction to the answer. -/
def sendBlockStep (a : SendCall) (s : SendState) (useCrc : Bool) (block tries : Nat) :
    SendState :=
  let s1 := { s with output := s.output ++ (sendFrame a useCrc block).map Out.putchar }
  let bufpos := (block + 1) * XMODEM_BLOCKSIZE
  match s1.input with
  | [] => sendRetry a s1 useCrc block bufpos tries
  | none :: rest => sendRetry a { s1 with input := rest } useCrc block bufpos tries
  | some b :: rest =>
    let s2 := { s1 with input := rest }
    if b.val = XMODEM_ACK then sendRetry a s2 useCrc (block + 1) bufpos 0
    else if b.val = XMODEM_CAN then
      match rest with
      | [] => sendRetry a s2 useCrc block bufpos tries
      | none :: rest2 => sendRetry a { s2 with input := rest2 } useCrc block bufpos tries
      | some b2 :: rest2 =>
        if b2.val = XMODEM_CAN then sendCancel { s2 with input := rest2 }
        else sendRetry a { s2 with input := rest2 } useCrc block bufpos tries
    else sendRetry a s2 useCrc block bufpos tries

/-- The end of an iteration of the loop after EOT that did not `break`:
`while (result && ++tries < 2000)`, then lines 419-423. -/
def sendEotAgain (s : SendState) (tries : Nat) : SendState :=
  if tries + 1 < 2000 then { s with phase := SendPhase.eot (tries + 1) }
  else sendFinish s false

/-- One iteration of the loop after EOT (lines 405-418). -/
def sendEotStep (s : SendState) (tries : Nat) : SendState :=
  match s.input with
  | [] => sendEotAgain s tries
  | none :: rest => sendEotAgain { s with input := rest } tries
  | some b :: rest =>
    let s1 := { s with input := rest }
    if b.val = XMODEM_ACK then sendFinish s1 true
    else if b.val = XMODEM_CAN then
      match rest with
      | [] => sendEotAgain { s1 with output := s1.output ++ [Out.putchar (toUChar XMODEM_EOT)] } tries
      | none :: rest2 =>
        sendEotAgain { s1 with input := rest2,
                               output := s1.output ++ [Out.putchar (toUChar XMODEM_EOT)] } tries
      | some b2 :: rest2 =>
        if b2.val = XMODEM_CAN then sendFinish { s1 with input := rest2 } false
        else sendEotAgain { s1 with input := rest2,
                                    output := s1.output ++ [Out.putchar (toUChar XMODEM_EOT)] } tries
    else sendEotAgain { s1 with output := s1.output ++ [Out.putchar (toUChar XMODEM_EOT)] } tries

/-- One iteration of the loop of line 430; a timeout ends it and the function
returns false. -/
def sendCancelStep (s : SendState) : SendState :=
  match s.input with
  | [] => sendFinish s false
  | none :: rest => sendFinish { s with input := rest } false
  | some _ :: rest => { s with input := rest }

/-- One step of `xmodem_send`. -/
def sendStep (a : SendCall) (s : SendState) : SendState :=
  match s.phase with
  | SendPhase.handshake tries => sendHandshakeStep a s tries
  | SendPhase.sending useCrc block _ tries => sendBlockStep a s useCrc block tries
  | SendPhase.eot tries => sendEotStep s tries
  | SendPhase.cancelling => sendCancelStep s
  | SendPhase.returned _ => s

/-- The state after `fuel` steps. -/
def sendRun (a : SendCall) : Nat → SendState → SendState
  | 0, s => s
  | fuel + 1, s => sendRun a fuel (sendStep a s)

/-- The state on entry to the handshake loop (lines 275-283): `tries = 1`. -/
def sendInit (input : List (Option Byte)) : SendState :=
  { input := input, output := [], phase := SendPhase.handshake 1 }

/-- The function `xmodem_send`, run for `fuel` steps. -/
def xmodem_send (a : SendCall) (input : List (Option Byte)) (fuel : Nat) : SendState :=
  sendRun a fuel (sendInit input)

/-- The value returned, when the function has returned. -/
def SendState.returnValue (s : SendState) : Option Bool :=
  match s.phase with
  | SendPhase.returned r => some r
  | _ => none

/-! ## Vocabulary of the theorems -/

/-- The integrity value of a payload as it travels in a trailer: one byte of
additive checksum, or the two bytes of the CRC, high then low. -/
def trailerOf (useCrc : Bool) (payload : List Byte) : List Byte :=
  if useCrc then [toChar (crc16_xmodem payload / 256), toChar (crc16_xmodem payload)]
  else [toChar (checksum8 payload)]

/-- The payload region of a frame buffer: `buffer[2] .. buffer[2+XMODEM_BLOCKSIZE-1]`. -/
def framePayload (buffer : List Byte) : List Byte := (buffer.drop 2).take XMODEM_BLOCKSIZE

/-- The trailer region of a frame buffer: from `buffer[2+XMODEM_BLOCKSIZE]` on. -/
def frameTrailer (buffer : List Byte) : List Byte := buffer.drop (2 + XMODEM_BLOCKSIZE)

/-- The 128 bytes that `length` bytes of `mem` hold from offset `start` on,
with SUB at every offset from `length` on. -/
def paddedChunk (mem : Nat → Byte) (length start : Nat) : List Byte :=
  (List.range XMODEM_BLOCKSIZE).map fun i =>
    if start + i < length then mem (start + i) else toUChar XMODEM_SUB

/-- Number of blocks of a buffer of `length` bytes: the ceiling of `length / 128`. -/
def blockCount (length : Nat) : Nat := (length + (XMODEM_BLOCKSIZE - 1)) / XMODEM_BLOCKSIZE

/-- Number of ACK bytes among what was written. -/
def ackCount (out : List Out) : Nat := (wireBytes out).count (toUChar XMODEM_ACK)

/-- A byte list as a memory (zero beyond its end). -/
def memOf (data : List Byte) : Nat → Byte := fun i => data.getD i 0

/-- What holds of every state `xmodem_receive` reaches: the byte count is 128
times the number of frames accepted and fits the buffer; while a frame is read
there is room for it, and the accumulator is the fold of the integrity update
over the payload bytes stored so far; an escape is pending only inside the
payload region. -/
def RecvInv (a : RecvCall) (s : RecvState) : Prop :=
  s.sizeReceived ≤ a.bufferSize ∧ 1 ≤ s.packetNumber ∧
  s.sizeReceived = XMODEM_BLOCKSIZE * (s.packetNumber - 1) ∧
  match s.phase with
  | RecvPhase.reading _ checksum escape buffer =>
    s.sizeReceived + XMODEM_BLOCKSIZE ≤ a.bufferSize ∧
    buffer.length ≤ frameLength a.config.useCrc ∧
    checksum = (framePayload buffer).foldl
      (fun x b => recvUpdate a.config.useCrc x b.val) 0 ∧
    (escape = true →
      a.config.useEscape = true ∧ 2 ≤ buffer.length ∧ buffer.length < 2 + XMODEM_BLOCKSIZE)
  | _ => True

/-- Until `xmodem_receive` returns, the number of ACK bytes written is the
number of frames accepted, `packetNumber - 1`. -/
def AckInv (s : RecvState) : Prop :=
  s.returnValue = none → ackCount s.output + 1 = s.packetNumber


/-- Once the handshake is over, every block is sent in the mode `useCrc`. -/
def ModeInv (useCrc : Bool) (s : SendState) : Prop :=
  match s.phase with
  | SendPhase.handshake _ => False
  | SendPhase.sending u _ _ _ => u = useCrc
  | _ => True

/-- What one poll of the handshake loop that returns neither 'C' nor NAK writes
(lines 304-314): nothing after a timeout or BS, and after any other byte one
dump of the log when `logLevel ≥ 1`. -/
def strayDump (a : SendCall) (e : Option Byte) : List Out :=
  match e with
  | none => []
  | some b =>
    if b.val = XMODEM_BS then []
    else if a.config.logLevel ≥ 1 then [Out.dumplog]
    else []

/-- What the handshake loop writes over a sequence of such polls. -/
def handshakeDumps (a : SendCall) (polls : List (Option Byte)) : List Out :=
  (polls.map (strayDump a)).flatten

/-! ## The diagnostic log (lines 37-67) -/

/-- Size of `gLogBuffer`: `sizeof gLogBuffer`. -/
def LOG_SIZE : Nat := 65536

/-- The two globals of the log: the memory at `gLogBuffer`, by offset (offsets from
`LOG_SIZE` on are the memory behind the array), and `gLogPos`. -/
structure LogState where
  gLogBuffer : Nat → Byte
  gLogPos : Nat

/-- The characters of the C string that starts with the bytes `s`: those before the
first NUL. -/
def cstr (s : List Byte) : List Byte := s.takeWhile fun c => c != 0

/-- Result of `strlen(s)`. -/
def strlen (s : List Byte) : Nat := (cstr s).length

/-- Result of `mem[i] = v`. -/
def poke (mem : Nat → Byte) (i : Nat) (v : Byte) : Nat → Byte :=
  fun j => if j = i then v else mem j

/-- Result of `strcpy(mem + dest, s)`: the characters of `s`, then NUL. -/
def strcpy (mem : Nat → Byte) (dest : Nat) (s : List Byte) : Nat → Byte :=
  poke (memcpy mem dest (cstr s) (strlen s)) (dest + strlen s) 0

/-- The function `xmodem_log` (lines 41-53).  The sum `gLogPos + strlen(s) + 3` is
taken without wrap-around: a string and the 64 KiB buffer are distinct objects
of a 32-bit address space. -/
def xmodem_log (st : LogState) (s : List Byte) : LogState :=
  if st.gLogPos + strlen s + 3 ≥ LOG_SIZE then { st with gLogPos := LOG_SIZE }
  else
    { gLogBuffer :=
        poke (poke (poke (strcpy st.gLogBuffer st.gLogPos s)
          (st.gLogPos + strlen s) 13) (st.gLogPos + strlen s + 1) 10)
          (st.gLogPos + strlen s + 2) 0,
      gLogPos := st.gLogPos + strlen s + 2 }

/-- The function `xmodem_clearlog` (lines 63-67). -/
def xmodem_clearlog (st : LogState) : LogState :=
  { gLogBuffer := poke st.gLogBuffer 0 0, gLogPos := 0 }

/-- A sequence of `xmodem_log` calls. -/
def logCalls (st : LogState) (calls : List (List Byte)) : LogState :=
  calls.foldl xmodem_log st

/-- The lines a log that holds `pos` characters keeps out of a sequence of appends:
every line up to the first one that would overflow, none after it. -/
def keptLines (pos : Nat) : List (List Byte) → List (List Byte)
  | [] => []
  | s :: rest =>
    if pos + strlen s + 3 ≥ LOG_SIZE then []
    else s :: keptLines (pos + strlen s + 2) rest

/-- The text of a list of lines, each followed by CR LF. -/
def logText (lines : List (List Byte)) : List Byte :=
  (lines.map fun s => cstr s ++ [13, 10]).flatten

/-- The log buffer holds the NUL-terminated text `txt`, and `gLogPos` is the end of
the text or the latch value. -/
def LogInv (st : LogState) (txt : List Byte) : Prop :=
  txt.length < LOG_SIZE
  ∧ (st.gLogPos = txt.length ∨ st.gLogPos = LOG_SIZE)
  ∧ (∀ i, i < txt.length → st.gLogBuffer i = txt.getD i 0)
  ∧ st.gLogBuffer txt.length = 0
  ∧ ∀ c ∈ txt, c ≠ 0

/-! ## Concrete calls and inputs of the examples -/

def wCfgSum : xmodem_config_t := { logLevel := 1, useCrc := false, useEscape := false }
def wRecvSum : RecvCall :=
  { clock := fun _ => 0, charSigned := true, config := wCfgSum, bufferSize := 256,
    message := none, inputhandler := none }
def wBadFrame : List (Option Byte) :=
  [some 1, some 1, some 254] ++ List.replicate 128 (some 0) ++ [some 1]

def wGoodFrame : List (Option Byte) :=
  [some 1, some 1, some 254] ++ List.replicate 128 (some 0) ++ [some 0]
def wRecvSum200 : RecvCall :=
  { clock := fun _ => 0, charSigned := true, config := wCfgSum, bufferSize := 200,
    message := none, inputhandler := none }
def wTwoBlocks : List (Option Byte) :=
  wGoodFrame ++ [some 1, some 2, some 253, none, some 7]
def wFrameThenEot : List (Option Byte) := wGoodFrame ++ [some 4]
def wCfgCrc : xmodem_config_t := { logLevel := 1, useCrc := true, useEscape := false }
def wRecvCrc : RecvCall :=
  { clock := fun _ => 0, charSigned := false, config := wCfgCrc, bufferSize := 256,
    message := none, inputhandler := none }
def wSend200 : SendCall :=
  { charSigned := true, config := wCfgCrc, inputBuffer := fun i => Fin.ofNat i, bufferSize := 200 }
def wCfgSumOff : xmodem_config_t := { logLevel := 0, useCrc := false, useEscape := false }
def wSendSum : SendCall :=
  { charSigned := false, config := wCfgSumOff, inputBuffer := fun _ => 0x41, bufferSize := 300 }
def wSendOne : SendCall :=
  { charSigned := false, config := wCfgCrc, inputBuffer := fun _ => 0x41, bufferSize := 1 }
def wRecvSumTick : RecvCall :=
  { clock := fun k => k, charSigned := false, config := wCfgSum, bufferSize := 128,
    message := none, inputhandler := none }
def wPeerReplies : List (Option Byte) := [some 0x15, some 6, some 6]
def wSend400 : SendCall :=
  { charSigned := false, config := wCfgSumOff, inputBuffer := fun _ => 0x41, bufferSize := 400 }
def wTenNaksThenAck : List (Option Byte) :=
  [some 0x15, some 6] ++ List.replicate 10 (some 0x15) ++ [some 6]
def wNineNaksThenAck : List (Option Byte) :=
  [some 0x15, some 6] ++ List.replicate 9 (some 0x15) ++ [some 6]

/-- The input of the scenario "CRC receive, single block": SOH, 0x01, 0xFE, 128
bytes 0x41, the two trailer bytes `hi` and `lo`, then EOT. -/
def scenarioInput (hi lo : Byte) : List (Option Byte) :=
  some 1 :: ((1 :: 0xFE :: (List.replicate 128 0x41 ++ [hi, lo])).map some ++ [some 4])
def wSend300 : SendCall :=
  { charSigned := false, config := wCfgSumOff, inputBuffer := fun _ => 0x41, bufferSize := 300 }
def wNakOnFirstBlock : List (Option Byte) := [some 0x15, some 0x15, some 6, some 6, some 6]
def wCfgEsc : xmodem_config_t := { logLevel := 0, useCrc := false, useEscape := true }
def wRecvEsc : RecvCall :=
  { clock := fun _ => 0, charSigned := false, config := wCfgEsc, bufferSize := 128,
    message := none, inputhandler := none }
def wRecvCrcTick : RecvCall :=
  { clock := fun k => k, charSigned := false, config := wCfgCrc, bufferSize := 128,
    message := some [0x3E], inputhandler := none }
def wWrongBlockFrame : List (Option Byte) :=
  [some 1, some 2, some 0xFD] ++ List.replicate 128 (some 0) ++ [some 0, some 0]
def wSendFF : SendCall :=
  { charSigned := true, config := wCfgSumOff, inputBuffer := fun _ => 0xFF, bufferSize := 256 }
def wFrameFF : List (Option Byte) :=
  [some 1, some 1, some 254] ++ List.replicate 128 (some 0xFF) ++ [some 0x80]

/-! ## Lemmas -/

set_option maxRecDepth 100000
theorem charToInt_mod (cs : Bool) (p : Byte) : charToInt cs p % 256 = p.val := by
  have hp := p.isLt
  unfold charToInt
  split <;> omega

theorem charToInt_lt (cs : Bool) (p : Byte) : charToInt cs p < 2 ^ 32 := by
  have hp := p.isLt
  unfold charToInt
  split <;> omega

theorem toChar_val (x : Nat) : (toChar x).val = x % 256 := rfl
theorem toUChar_val (x : Nat) : (toUChar x).val = x % 256 := rfl

theorem toChar_charToInt (cs : Bool) (p : Byte) : toChar (charToInt cs p) = p := by
  apply Fin.ext
  rw [toChar_val, charToInt_mod]

theorem toUChar_charToInt (cs : Bool) (p : Byte) : toUChar (charToInt cs p) = p := by
  apply Fin.ext
  rw [toUChar_val, charToInt_mod]

theorem charNe_iff (cs : Bool) (a b : Byte) : charNe cs a b = true ↔ a ≠ b := by
  unfold charNe
  rw [bne_iff_ne]
  constructor
  · intro h hab
    exact h (by rw [hab])
  · intro h hab
    apply h
    apply Fin.ext
    rw [← charToInt_mod cs a, ← charToInt_mod cs b, hab]

theorem sub32_255_val (cs : Bool) (p : Byte) :
    (toChar (sub32 255 (charToInt cs p))).val = 255 - p.val := by
  have hp := p.isLt
  rw [toChar_val]
  unfold sub32 charToInt
  split <;> omega

theorem sar32_8_mod (x : Nat) : sar32 x 8 % 256 = x % 2 ^ 32 / 256 % 256 := by
  unfold sar32
  simp only [Nat.shiftRight_eq_div_pow]
  split <;> omega
theorem xor_mod_pow (a b n : Nat) : (a ^^^ b) % 2 ^ n = (a % 2 ^ n) ^^^ (b % 2 ^ n) := by
  apply Nat.eq_of_testBit_eq
  intro i
  simp only [Nat.testBit_mod_two_pow, Nat.testBit_xor]
  by_cases h : i < n <;> simp [h]

theorem and_two_pow_eq (x k : Nat) : x &&& 2 ^ k = if x.testBit k then 2 ^ k else 0 := by
  apply Nat.eq_of_testBit_eq
  intro i
  rw [Nat.testBit_and, Nat.testBit_two_pow]
  by_cases hi : k = i
  · subst hi
    by_cases hx : x.testBit k <;> simp [hx, Nat.testBit_two_pow_self]
  · by_cases hx : x.testBit k <;> simp [hx, hi, Nat.testBit_two_pow]

theorem and_8000 (x : Nat) : (x &&& 0x8000 != 0) = decide (x / 0x8000 % 2 = 1) := by
  have h2 := and_two_pow_eq x 15
  rw [Nat.testBit_to_div_mod] at h2
  have e : (2 : Nat) ^ 15 = 0x8000 := by norm_num
  rw [e] at h2
  rw [h2]
  by_cases h : x / 0x8000 % 2 = 1 <;> simp [h]

theorem crcShift_low (x : Nat) : crcShift x % 0x10000 = crc16Bit (x % 0x10000) := by
  unfold crcShift crc16Bit wrap32
  rw [and_8000]
  have e : x % 0x10000 / 0x8000 % 2 = x / 0x8000 % 2 := by omega
  rw [e, Nat.shiftLeft_eq]
  have hx := xor_mod_pow (x * 2 ^ 1 % 2 ^ 32) 0x1021 16
  have e16 : (2 : Nat) ^ 16 = 0x10000 := by norm_num
  rw [e16] at hx
  by_cases h : x / 0x8000 % 2 = 1
  · simp only [h, decide_True, if_true]
    rw [hx]
    congr 1
    omega
  · simp only [h, decide_False, Bool.false_eq_true, if_false]
    omega

theorem crcUpdate_low (acc c : Nat) (b : Byte) (hc : wrap32 (c <<< 8) % 0x10000 = b.val * 256) :
    crcUpdate acc c % 0x10000 = crc16Byte (acc % 0x10000) b := by
  unfold crcUpdate crc16Byte
  simp only [Function.iterate_succ, Function.iterate_zero, Function.comp, id]
  simp only [crcShift_low]
  have hx := xor_mod_pow acc (wrap32 (c <<< 8)) 16
  have e16 : (2 : Nat) ^ 16 = 0x10000 := by norm_num
  rw [e16] at hx
  rw [hx, hc]

theorem shl8_low (c : Nat) : wrap32 (c <<< 8) % 0x10000 = c % 256 * 256 := by
  unfold wrap32
  rw [Nat.shiftLeft_eq]
  omega

theorem crc_fold_low {ι : Type} (f : ι → Nat) (g : ι → Byte)
    (hfg : ∀ i, f i % 256 = (g i).val) (l : List ι) (acc : Nat) :
    (l.foldl (fun x i => crcUpdate x (f i)) acc) % 0x10000
      = (l.map g).foldl crc16Byte (acc % 0x10000) := by
  induction l generalizing acc with
  | nil => rfl
  | cons i l ih =>
    simp only [List.foldl_cons, List.map_cons]
    rw [ih, crcUpdate_low acc (f i) (g i) (by rw [shl8_low, hfg])]

theorem sum_fold_low {ι : Type} (f : ι → Nat) (g : ι → Byte)
    (hfg : ∀ i, f i % 256 = (g i).val) (l : List ι) (acc : Nat) :
    (l.foldl (fun x i => wrap32 (x + f i)) acc) % 256
      = (acc + ((l.map g).map Fin.val).sum) % 256 := by
  induction l generalizing acc with
  | nil => simp
  | cons i l ih =>
    simp only [List.foldl_cons, List.map_cons, List.sum_cons]
    rw [ih]
    have := hfg i
    unfold wrap32
    omega

theorem sendPayload_eq (a : SendCall) (useCrc : Bool) (n bufpos checksum : Nat)
    (written : List Byte) :
    sendPayload a useCrc n bufpos checksum written
      = ((List.range n).foldl
            (fun x i => sendUpdate a.charSigned useCrc x (sendByte a (bufpos + i))) checksum,
         written ++ (List.range n).map fun i => toUChar (sendByte a (bufpos + i))) := by
  induction n generalizing bufpos checksum written with
  | zero => simp [sendPayload]
  | succ n ih =>
    rw [sendPayload, ih, List.range_succ_eq_map]
    simp only [List.foldl_cons, List.foldl_map, List.map_cons, List.map_map, Nat.add_zero,
      List.append_assoc, List.singleton_append]
    congr 2
    · funext x i
      congr 2
      omega
    · congr 1
      apply List.map_congr_left
      intro i _
      simp only [Function.comp]
      congr 2
      omega

theorem toUChar_sendByte (a : SendCall) (bufpos : Nat) :
    toUChar (sendByte a bufpos)
      = if bufpos < a.bufferSize then a.inputBuffer bufpos else toUChar XMODEM_SUB := by
  unfold sendByte
  split
  · exact toUChar_charToInt _ _
  · rfl

theorem sendFrame_eq (a : SendCall) (useCrc : Bool) (block : Nat) :
    sendFrame a useCrc block
      = [toUChar XMODEM_SOH, toChar block, toChar (255 - block % 256)]
        ++ paddedChunk a.inputBuffer a.bufferSize (block * XMODEM_BLOCKSIZE)
        ++ trailerOf useCrc (paddedChunk a.inputBuffer a.bufferSize (block * XMODEM_BLOCKSIZE)) := by
  have hpay : (List.range XMODEM_BLOCKSIZE).map
        (fun i => toUChar (sendByte a (block * XMODEM_BLOCKSIZE + i)))
      = paddedChunk a.inputBuffer a.bufferSize (block * XMODEM_BLOCKSIZE) := by
    unfold paddedChunk
    apply List.map_congr_left
    intro i _
    exact toUChar_sendByte a _
  have hcompl : toUChar (sub32 255 (charToInt a.charSigned (toChar block)))
      = toChar (255 - block % 256) := by
    apply Fin.ext
    have h := sub32_255_val a.charSigned (toChar block)
    rw [toChar_val] at h
    rw [toUChar_val, toChar_val, h, toChar_val]
    omega
  unfold sendFrame
  simp only [sendPayload_eq, List.nil_append, toUChar_charToInt, hcompl, hpay]
  refine congrArg (fun t : List Byte =>
    [toUChar XMODEM_SOH, toChar block, toChar (255 - block % 256)]
      ++ paddedChunk a.inputBuffer a.bufferSize (block * XMODEM_BLOCKSIZE) ++ t) ?_
  cases useCrc with
  | true =>
    have hcrc := crc_fold_low (fun i => sendByte a (block * XMODEM_BLOCKSIZE + i))
      (fun i => toUChar (sendByte a (block * XMODEM_BLOCKSIZE + i))) (fun _ => rfl)
      (List.range XMODEM_BLOCKSIZE) 0
    rw [hpay] at hcrc
    simp only [sendUpdate, trailerOf, if_true, crc16_xmodem]
    simp only [Nat.zero_mod] at hcrc
    rw [← hcrc]
    congr 1
    · apply Fin.ext
      rw [toChar_val, toChar_val, sar32_8_mod]
      omega
    · congr 1
      apply Fin.ext
      rw [toChar_val, toChar_val]
      omega
  | false =>
    have hsum := sum_fold_low
      (fun i => charToInt a.charSigned (toChar (sendByte a (block * XMODEM_BLOCKSIZE + i))))
      (fun i => toUChar (sendByte a (block * XMODEM_BLOCKSIZE + i)))
      (fun i => by rw [charToInt_mod]; rfl)
      (List.range XMODEM_BLOCKSIZE) 0
    rw [hpay] at hsum
    simp only [sendUpdate, trailerOf, checksum8, Bool.false_eq_true, if_false]
    refine congrArg (fun b : Byte => [b]) ?_
    apply Fin.ext
    rw [toChar_val, toChar_val, hsum]
    omega

theorem recvSolicit_fields (a : RecvCall) (s : RecvState) (t : Nat) :
    (recvSolicit a s t).1.sizeReceived = s.sizeReceived ∧
    (recvSolicit a s t).1.packetNumber = s.packetNumber ∧
    (recvSolicit a s t).1.outputBuffer = s.outputBuffer ∧
    (recvSolicit a s t).1.input = s.input ∧
    (recvSolicit a s t).1.phase = s.phase := by
  unfold recvSolicit
  by_cases h0 : s.sizeReceived = 0
  · by_cases ht : a.clock s.ticks > t
    · simp [h0, ht]
    · simp [h0, ht]
  · simp [h0]

theorem framePayload_snoc (buffer : List Byte) (x : Byte) :
    framePayload (buffer ++ [x])
      = if 2 ≤ buffer.length ∧ buffer.length < 2 + XMODEM_BLOCKSIZE then framePayload buffer ++ [x]
        else framePayload buffer := by
  unfold framePayload XMODEM_BLOCKSIZE
  by_cases h2 : 2 ≤ buffer.length
  · rw [List.drop_append_of_le_length h2]
    by_cases h130 : buffer.length < 2 + 128
    · rw [if_pos ⟨h2, h130⟩]
      rw [List.take_of_length_le (by simp; omega), List.take_of_length_le (by simp; omega)]
    · rw [if_neg (by omega)]
      rw [List.take_append_of_le_length (by simp; omega)]
  · rw [if_neg (by omega)]
    rw [List.drop_eq_nil_of_le (by simp; omega), List.drop_eq_nil_of_le (by omega)]

theorem xor40_lt (b : Byte) : b.val ^^^ 0x40 < 256 := by
  have h : b.val ^^^ 0x40 < 2 ^ 8 := Nat.xor_lt_two_pow b.isLt (by norm_num)
  simpa using h

theorem recvValidate_inv (a : RecvCall) (s : RecvState) (timeout : Bool) (checksum : Nat)
    (buffer : List Byte)
    (h : s.sizeReceived ≤ a.bufferSize ∧ 1 ≤ s.packetNumber ∧
      s.sizeReceived = XMODEM_BLOCKSIZE * (s.packetNumber - 1))
    (hroom : timeout = false → s.sizeReceived + XMODEM_BLOCKSIZE ≤ a.bufferSize) :
    RecvInv a (recvValidate a s timeout checksum buffer) := by
  obtain ⟨h1, h2, h3⟩ := h
  unfold recvValidate
  split
  · exact ⟨h1, h2, h3, trivial⟩
  · rename_i hacc
    have ht : timeout = false := by
      cases timeout
      · rfl
      · simp [recvRejects] at hacc
    refine ⟨hroom ht, ?_, ?_, trivial⟩
    · show 1 ≤ s.packetNumber + 1
      omega
    · show s.sizeReceived + XMODEM_BLOCKSIZE = XMODEM_BLOCKSIZE * (s.packetNumber + 1 - 1)
      unfold XMODEM_BLOCKSIZE at *
      omega

theorem recvStep_inv (a : RecvCall) (s : RecvState) (h : RecvInv a s) :
    RecvInv a (recvStep a s) := by
  obtain ⟨h1, h2, h3, h4⟩ := h
  unfold recvStep
  split
  · -- waiting
    rename_i t hph
    obtain ⟨e1, e2, _, _, _⟩ := recvSolicit_fields a s t
    unfold recvWaitStep
    simp only
    split
    · exact ⟨by simpa [e1] using h1, by simpa [e2] using h2, by simpa [e1, e2] using h3, trivial⟩
    · exact ⟨by simpa [e1] using h1, by simpa [e2] using h2, by simpa [e1, e2] using h3, trivial⟩
    · split
      · exact ⟨by simpa [recvFinish, e1] using h1, by simpa [recvFinish, e2] using h2,
          by simpa [recvFinish, e1, e2] using h3, trivial⟩
      · split
        · exact ⟨by simpa [recvFinish, e1] using h1, by simpa [recvFinish, e2] using h2,
            by simpa [recvFinish, e1, e2] using h3, trivial⟩
        · split
          · split
            · exact ⟨by simpa [e1] using h1, by simpa [e2] using h2,
                by simpa [e1, e2] using h3, trivial⟩
            · rename_i hroom
              refine ⟨by simpa [e1] using h1, by simpa [e2] using h2,
                by simpa [e1, e2] using h3, ?_⟩
              simp only [e1] at hroom ⊢
              refine ⟨by omega, by simp, by simp [framePayload], by simp⟩
          · split
            · exact ⟨by simpa [e1] using h1, by simpa [e2] using h2,
                by simpa [e1, e2] using h3, trivial⟩
            · exact ⟨by simpa [e1] using h1, by simpa [e2] using h2,
                by simpa [e1, e2] using h3, trivial⟩
  · -- reading
    rename_i t cks esc buf hph
    rw [hph] at h4
    obtain ⟨hroom, hlen, hcks, hesc⟩ := h4
    unfold recvReadStep
    split
    · rename_i hlt
      simp only
      split
      · exact recvValidate_inv a _ true cks buf ⟨h1, h2, h3⟩ (by simp)
      · split
        · refine ⟨h1, h2, h3, ?_⟩
          simp only [hph]
          exact ⟨hroom, hlen, hcks, hesc⟩
        · refine ⟨h1, h2, h3, ?_⟩
          simp only [hph]
          exact ⟨hroom, hlen, hcks, hesc⟩
        · rename_i b rest hin
          split
          · rename_i hdle
            refine ⟨h1, h2, h3, ?_⟩
            simp only [Bool.and_eq_true, decide_eq_true_eq] at hdle
            exact ⟨hroom, hlen, hcks, fun _ => ⟨hdle.1.1, hdle.1.2.1, hdle.1.2.2⟩⟩
          · refine ⟨h1, h2, h3, ?_⟩
            simp only
            refine ⟨hroom, by simp; omega, ?_, by simp⟩
            have hc : ((toChar (if esc = true then b.val ^^^ 0x40 else b.val)).val)
                = (if esc = true then b.val ^^^ 0x40 else b.val) := by
              rw [toChar_val]
              apply Nat.mod_eq_of_lt
              split
              · exact xor40_lt b
              · exact b.isLt
            rw [framePayload_snoc]
            by_cases hd : 2 ≤ buf.length ∧ buf.length < 2 + XMODEM_BLOCKSIZE
            · rw [if_pos hd, List.foldl_append, ← hcks]
              simp only [List.foldl_cons, List.foldl_nil, hc]
              simp [hd.1, hd.2]
            · rw [if_neg hd, ← hcks]
              have : (decide (2 ≤ buf.length) && decide (buf.length < 2 + XMODEM_BLOCKSIZE)) = false := by
                simpa using hd
              simp [this]
    · exact recvValidate_inv a s false cks buf ⟨h1, h2, h3⟩ (fun _ => hroom)
  · -- draining
    rename_i hph
    unfold recvDrainStep
    split
    · exact ⟨h1, h2, h3, trivial⟩
    · exact ⟨h1, h2, h3, trivial⟩
    · refine ⟨h1, h2, h3, ?_⟩
      simp only [hph]
  · rename_i hph
    refine ⟨h1, h2, h3, ?_⟩
    simp only [hph]

theorem recvRun_succ (a : RecvCall) (n : Nat) (s : RecvState) :
    recvRun a (n + 1) s = recvStep a (recvRun a n s) := by
  induction n generalizing s with
  | zero => rfl
  | succ n ih =>
    show recvRun a (n + 1) (recvStep a s) = _
    rw [ih]
    rfl

theorem recvRun_add (a : RecvCall) (m n : Nat) (s : RecvState) :
    recvRun a (m + n) s = recvRun a n (recvRun a m s) := by
  induction m generalizing s with
  | zero => simp [recvRun]
  | succ m ih =>
    rw [Nat.add_right_comm]
    show recvRun a (m + n) (recvStep a s) = recvRun a n (recvRun a m (recvStep a s))
    exact ih _

theorem recvRun_inv (a : RecvCall) (n : Nat) (s : RecvState) (h : RecvInv a s) :
    RecvInv a (recvRun a n s) := by
  induction n generalizing s with
  | zero => exact h
  | succ n ih => exact ih _ (recvStep_inv a s h)

theorem recvInit_inv (a : RecvCall) (mem : Nat → Byte) (input : List (Option Byte)) :
    RecvInv a (recvInit a mem input) :=
  ⟨Nat.zero_le _, Nat.le_refl _, rfl, trivial⟩

theorem xmodem_receive_inv (a : RecvCall) (mem : Nat → Byte) (input : List (Option Byte))
    (fuel : Nat) : RecvInv a (xmodem_receive a mem input fuel) :=
  recvRun_inv a fuel _ (recvInit_inv a mem input)

theorem toChar_byte (b : Byte) : toChar b.val = b := by
  apply Fin.ext
  rw [toChar_val]
  exact Nat.mod_eq_of_lt b.isLt

theorem recvStep_read (a : RecvCall) (s : RecvState) (t cks : Nat) (buf : List Byte) (b : Byte)
    (rest : List (Option Byte))
    (hph : s.phase = RecvPhase.reading t cks false buf)
    (hesc : a.config.useEscape = false)
    (hin : s.input = some b :: rest)
    (hlen : buf.length < frameLength a.config.useCrc)
    (hclk : a.clock s.ticks ≤ t) :
    ∃ cks', recvStep a s = { s with input := rest, ticks := s.ticks + 1,
                                    phase := RecvPhase.reading t cks' false (buf ++ [b]) } := by
  unfold recvStep
  rw [hph]
  simp only
  unfold recvReadStep
  rw [if_pos hlen]
  simp only [hin, hesc, Bool.false_and, Bool.false_eq_true, if_false, toChar_byte,
    if_neg (Nat.not_lt.mpr hclk)]
  exact ⟨_, rfl⟩

theorem recvRun_read (a : RecvCall) (bytes : List Byte) (s : RecvState) (t cks : Nat)
    (buf : List Byte) (rest : List (Option Byte))
    (hph : s.phase = RecvPhase.reading t cks false buf)
    (hesc : a.config.useEscape = false)
    (hin : s.input = bytes.map some ++ rest)
    (hlen : buf.length + bytes.length ≤ frameLength a.config.useCrc)
    (hclk : ∀ k, k < bytes.length → a.clock (s.ticks + k) ≤ t) :
    ∃ cks', recvRun a bytes.length s
      = { s with input := rest, ticks := s.ticks + bytes.length,
                 phase := RecvPhase.reading t cks' false (buf ++ bytes) } := by
  induction bytes generalizing s cks buf with
  | nil =>
    refine ⟨cks, ?_⟩
    simp only [List.length_nil, recvRun, Nat.add_zero, List.append_nil]
    simp only [List.map_nil, List.nil_append] at hin
    rw [← hin, ← hph]
  | cons b bytes ih =>
    simp only [List.length_cons] at hlen hclk ⊢
    obtain ⟨c1, h1⟩ := recvStep_read a s t cks buf b (bytes.map some ++ rest) hph hesc
      (by simpa using hin) (by omega) (by simpa using hclk 0 (by omega))
    obtain ⟨c2, h2⟩ := ih (recvStep a s) c1 (buf ++ [b]) (by rw [h1]) (by rw [h1])
      (by simp; omega)
      (by
        intro k hk
        rw [h1]
        simpa [Nat.add_assoc, Nat.add_comm 1 k] using hclk (k + 1) (by omega))
    refine ⟨c2, ?_⟩
    show recvRun a bytes.length (recvStep a s) = _
    rw [h2, h1]
    simp [Nat.add_assoc, Nat.add_comm 1]

theorem drop_last_one (l : List Byte) (n : Nat) (h : l.length = n + 1) :
    l.drop n = [l.getD n 0] := by
  induction n generalizing l with
  | zero =>
    match l, h with
    | [x], _ => rfl
  | succ n ih =>
    match l, h with
    | x :: l, h =>
      simp only [List.length_cons, Nat.add_right_cancel_iff] at h
      simpa using ih l h

theorem drop_last_two (l : List Byte) (n : Nat) (h : l.length = n + 2) :
    l.drop n = [l.getD n 0, l.getD (n + 1) 0] := by
  induction n generalizing l with
  | zero =>
    match l, h with
    | [x, y], _ => rfl
  | succ n ih =>
    match l, h with
    | x :: l, h =>
      simp only [List.length_cons, Nat.add_right_cancel_iff] at h
      simpa using ih l h

theorem recv_trailer (useCrc : Bool) (payload : List Byte) :
    (if useCrc then
        [toChar (sar32 (payload.foldl (fun x b => recvUpdate useCrc x b.val) 0) 8),
         toChar (payload.foldl (fun x b => recvUpdate useCrc x b.val) 0)]
      else [toChar (payload.foldl (fun x b => recvUpdate useCrc x b.val) 0)])
      = trailerOf useCrc payload := by
  cases useCrc with
  | true =>
    have h := crc_fold_low (fun b : Byte => b.val) id
      (fun b => Nat.mod_eq_of_lt b.isLt) payload 0
    simp only [List.map_id, Nat.zero_mod] at h
    simp only [recvUpdate, trailerOf, if_true, crc16_xmodem]
    rw [← h]
    have e1 : toChar (sar32 (payload.foldl (fun x b => crcUpdate x b.val) 0) 8)
        = toChar (payload.foldl (fun x b => crcUpdate x b.val) 0 % 0x10000 / 256) := by
      apply Fin.ext
      rw [toChar_val, toChar_val, sar32_8_mod]
      omega
    have e2 : toChar (payload.foldl (fun x b => crcUpdate x b.val) 0)
        = toChar (payload.foldl (fun x b => crcUpdate x b.val) 0 % 0x10000) := by
      apply Fin.ext
      rw [toChar_val, toChar_val]
      omega
    rw [e1, e2]
  | false =>
    have h := sum_fold_low (fun b : Byte => b.val) id
      (fun b => Nat.mod_eq_of_lt b.isLt) payload 0
    simp only [List.map_id, Nat.zero_add] at h
    simp only [recvUpdate, sumUpdate, trailerOf, checksum8, Bool.false_eq_true, if_false]
    refine congrArg (fun b : Byte => [b]) ?_
    apply Fin.ext
    rw [toChar_val, toChar_val, h]
    omega

theorem recvRejects_iff (a : RecvCall) (packetNumber : Nat) (buffer : List Byte)
    (hlen : buffer.length = frameLength a.config.useCrc) :
    recvRejects a packetNumber false
        ((framePayload buffer).foldl (fun x b => recvUpdate a.config.useCrc x b.val) 0) buffer
      = true
    ↔ (buffer.getD 0 0 ≠ toChar packetNumber
        ∨ (buffer.getD 1 0).val ≠ 255 - (buffer.getD 0 0).val
        ∨ frameTrailer buffer ≠ trailerOf a.config.useCrc (framePayload buffer)) := by
  have htr := recv_trailer a.config.useCrc (framePayload buffer)
  have hinv : (buffer.getD 1 0 ≠ toChar (sub32 255 (charToInt a.charSigned (buffer.getD 0 0))))
      ↔ (buffer.getD 1 0).val ≠ 255 - (buffer.getD 0 0).val := by
    rw [← sub32_255_val a.charSigned (buffer.getD 0 0)]
    exact not_congr Fin.ext_iff
  unfold recvRejects
  simp only [Bool.false_or, Bool.or_eq_true, charNe_iff, hinv]
  unfold frameLength XMODEM_BLOCKSIZE at hlen
  unfold frameTrailer XMODEM_BLOCKSIZE
  rw [← htr]
  cases huse : a.config.useCrc with
  | true =>
    rw [huse] at hlen
    rw [drop_last_two buffer (2 + 128) (by simpa using hlen)]
    simp only [if_true, Bool.or_eq_true, charNe_iff, or_assoc]
    constructor
    · rintro (h | h | h | h)
      · exact Or.inl h
      · exact Or.inr (Or.inl h)
      · exact Or.inr (Or.inr (fun e => h (by injection e)))
      · refine Or.inr (Or.inr (fun e => h ?_))
        injection e with _ e2
        injection e2
    · rintro (h | h | h)
      · exact Or.inl h
      · exact Or.inr (Or.inl h)
      · by_cases h1 : buffer.getD (2 + 128) 0
            = toChar (sar32 ((framePayload buffer).foldl (fun x b => recvUpdate true x b.val) 0) 8)
        · refine Or.inr (Or.inr (Or.inr (fun h2 => h ?_)))
          rw [h1, h2]
        · exact Or.inr (Or.inr (Or.inl h1))
  | false =>
    rw [huse] at hlen
    rw [drop_last_one buffer (2 + 128) (by simpa using hlen)]
    simp only [Bool.false_eq_true, if_false, charNe_iff, or_assoc]
    constructor
    · rintro (h | h | h)
      · exact Or.inl h
      · exact Or.inr (Or.inl h)
      · exact Or.inr (Or.inr (fun e => h (by injection e)))
    · rintro (h | h | h)
      · exact Or.inl h
      · exact Or.inr (Or.inl h)
      · refine Or.inr (Or.inr (fun e => h ?_))
        rw [e]

theorem getD_take_lt (l : List Byte) (n i : Nat) (h : i < n) :
    (l.take n).getD i 0 = l.getD i 0 := by
  simp [List.getD_eq_getElem?_getD, List.getElem?_take, h]


theorem recvValidate_cases (a : RecvCall) (s : RecvState) (timeout : Bool) (cks : Nat)
    (buf : List Byte) :
    ((recvValidate a s timeout cks buf).outputBuffer = s.outputBuffer
      ∧ (recvValidate a s timeout cks buf).sizeReceived = s.sizeReceived
      ∧ (recvValidate a s timeout cks buf).packetNumber = s.packetNumber)
    ∨ ((recvValidate a s timeout cks buf).outputBuffer
          = memcpy s.outputBuffer s.sizeReceived (buf.drop 2) XMODEM_BLOCKSIZE
      ∧ (recvValidate a s timeout cks buf).sizeReceived = s.sizeReceived + XMODEM_BLOCKSIZE
      ∧ (recvValidate a s timeout cks buf).packetNumber = s.packetNumber + 1) := by
  unfold recvValidate
  split
  · exact Or.inl ⟨rfl, rfl, rfl⟩
  · exact Or.inr ⟨rfl, rfl, rfl⟩

theorem recvStep_cases (a : RecvCall) (s : RecvState) :
    ((recvStep a s).outputBuffer = s.outputBuffer
      ∧ (recvStep a s).sizeReceived = s.sizeReceived
      ∧ (recvStep a s).packetNumber = s.packetNumber)
    ∨ (∃ t cks esc buf, s.phase = RecvPhase.reading t cks esc buf
      ∧ (recvStep a s).outputBuffer
          = memcpy s.outputBuffer s.sizeReceived (buf.drop 2) XMODEM_BLOCKSIZE
      ∧ (recvStep a s).sizeReceived = s.sizeReceived + XMODEM_BLOCKSIZE
      ∧ (recvStep a s).packetNumber = s.packetNumber + 1) := by
  unfold recvStep
  split
  · rename_i t hph
    obtain ⟨e1, e2, e3, _, _⟩ := recvSolicit_fields a s t
    left
    unfold recvWaitStep
    simp only
    split
    · exact ⟨e3, e1, e2⟩
    · exact ⟨e3, e1, e2⟩
    · split
      · exact ⟨e3, e1, e2⟩
      · split
        · exact ⟨e3, e1, e2⟩
        · split
          · split
            · exact ⟨e3, e1, e2⟩
            · exact ⟨e3, e1, e2⟩
          · split
            · exact ⟨e3, e1, e2⟩
            · exact ⟨e3, e1, e2⟩
  · rename_i t cks esc buf hph
    unfold recvReadStep
    split
    · simp only
      split
      · rcases recvValidate_cases a { s with ticks := s.ticks + 1 } true cks buf with h | h
        · exact Or.inl h
        · exact Or.inr ⟨t, cks, esc, buf, hph, h⟩
      · split
        · exact Or.inl ⟨rfl, rfl, rfl⟩
        · exact Or.inl ⟨rfl, rfl, rfl⟩
        · split
          · exact Or.inl ⟨rfl, rfl, rfl⟩
          · exact Or.inl ⟨rfl, rfl, rfl⟩
    · rcases recvValidate_cases a s false cks buf with h | h
      · exact Or.inl h
      · exact Or.inr ⟨t, cks, esc, buf, hph, h⟩
  · left
    unfold recvDrainStep
    split
    · exact ⟨rfl, rfl, rfl⟩
    · exact ⟨rfl, rfl, rfl⟩
    · exact ⟨rfl, rfl, rfl⟩
  · exact Or.inl ⟨rfl, rfl, rfl⟩

theorem recvStep_buffer (a : RecvCall) (s : RecvState) :
    s.sizeReceived ≤ (recvStep a s).sizeReceived
    ∧ ∀ i, (i < s.sizeReceived ∨ (recvStep a s).sizeReceived ≤ i) →
        (recvStep a s).outputBuffer i = s.outputBuffer i := by
  rcases recvStep_cases a s with ⟨h1, h2, _⟩ | ⟨_, _, _, buf, _, h1, h2, _⟩
  · rw [h1, h2]
    exact ⟨Nat.le_refl _, fun _ _ => rfl⟩
  · rw [h1, h2]
    refine ⟨by omega, ?_⟩
    intro i hi
    unfold memcpy
    rw [if_neg (by omega)]

theorem recvRun_buffer (a : RecvCall) (n : Nat) (s : RecvState) :
    s.sizeReceived ≤ (recvRun a n s).sizeReceived
    ∧ ∀ i, (i < s.sizeReceived ∨ (recvRun a n s).sizeReceived ≤ i) →
        (recvRun a n s).outputBuffer i = s.outputBuffer i := by
  induction n generalizing s with
  | zero => exact ⟨Nat.le_refl _, fun _ _ => rfl⟩
  | succ n ih =>
    obtain ⟨h1, h2⟩ := recvStep_buffer a s
    obtain ⟨h3, h4⟩ := ih (recvStep a s)
    show s.sizeReceived ≤ (recvRun a n (recvStep a s)).sizeReceived ∧ _
    refine ⟨by omega, ?_⟩
    intro i hi
    have hi' : i < s.sizeReceived ∨ (recvRun a n (recvStep a s)).sizeReceived ≤ i := hi
    show (recvRun a n (recvStep a s)).outputBuffer i = _
    rw [h4 i (by omega), h2 i (by omega)]

theorem recvStep_drain_byte (a : RecvCall) (s : RecvState) (b : Byte)
    (rest : List (Option Byte)) (hph : s.phase = RecvPhase.draining)
    (hin : s.input = some b :: rest) :
    recvStep a s = { s with input := rest } := by
  obtain ⟨inp, ticks, out, ob, sr, pn, ph⟩ := s
  simp only at hph hin
  subst hph hin
  rfl

theorem recvStep_drain_quiet (a : RecvCall) (s : RecvState)
    (hph : s.phase = RecvPhase.draining) (hquiet : ∀ b, s.input.head? ≠ some (some b)) :
    recvStep a s = recvFinish { s with input := s.input.tail } (-1) := by
  obtain ⟨inp, ticks, out, ob, sr, pn, ph⟩ := s
  simp only at hph hquiet
  subst hph
  match inp, hquiet with
  | [], _ => rfl
  | none :: rest, _ => rfl
  | some b :: rest, hq => exact absurd rfl (hq b)

theorem recvRun_drain (a : RecvCall) (residue : List Byte) (tail : List (Option Byte))
    (s : RecvState) (hph : s.phase = RecvPhase.draining)
    (hin : s.input = residue.map some ++ tail)
    (hquiet : ∀ b, tail.head? ≠ some (some b)) :
    recvRun a (residue.length + 1) s = recvFinish { s with input := tail.tail } (-1) := by
  induction residue generalizing s with
  | nil =>
    simp only [List.map_nil, List.nil_append] at hin
    show recvStep a s = _
    rw [recvStep_drain_quiet a s hph (by rw [hin]; exact hquiet), hin]
  | cons b residue ih =>
    show recvRun a (residue.length + 1) (recvStep a s) = _
    rw [recvStep_drain_byte a s b (residue.map some ++ tail) hph (by simpa using hin)]
    exact ih _ hph rfl

theorem recvStep_soh_full (a : RecvCall) (s : RecvState) (t : Nat) (rest : List (Option Byte))
    (hph : s.phase = RecvPhase.waiting t) (hin : s.input = some 1 :: rest)
    (hfull : a.bufferSize < s.sizeReceived + 128) :
    recvStep a s
      = { (recvSolicit a s t).1 with
            input := rest,
            output := (recvSolicit a s t).1.output
              ++ List.replicate 8 (Out.putchar (toUChar XMODEM_CAN)),
            phase := RecvPhase.draining } := by
  obtain ⟨e1, _, _, e4, _⟩ := recvSolicit_fields a s t
  unfold recvStep
  rw [hph]
  simp only
  unfold recvWaitStep
  simp only
  rw [e4, hin]
  simp only [e1]
  have h1 : ((1 : Byte).val = XMODEM_EOT) = False := by decide
  have h2 : ((1 : Byte).val = XMODEM_CAN) = False := by decide
  have h3 : ((1 : Byte).val = XMODEM_SOH) = True := by decide
  have h4 : (s.sizeReceived + XMODEM_BLOCKSIZE > a.bufferSize) = True := by
    simpa [XMODEM_BLOCKSIZE] using hfull
  simp only [h1, h2, h3, h4, if_true, if_false]


theorem wireBytes_append (x y : List Out) : wireBytes (x ++ y) = wireBytes x ++ wireBytes y := by
  induction x with
  | nil => rfl
  | cons o x ih =>
    cases o <;> simp [wireBytes, ih]

theorem ackCount_append (x y : List Out) : ackCount (x ++ y) = ackCount x + ackCount y := by
  unfold ackCount
  rw [wireBytes_append, List.count_append]

theorem recvSolicit_ackCount (a : RecvCall) (s : RecvState) (t : Nat) :
    ackCount (recvSolicit a s t).1.output = ackCount s.output := by
  unfold recvSolicit
  by_cases h0 : s.sizeReceived = 0
  · by_cases ht : a.clock s.ticks > t
    · simp only [h0, ht, if_true]
      rw [ackCount_append, ackCount_append, ackCount_append]
      have e1 : ackCount [Out.dumplog] = 0 := rfl
      have e2 : ackCount (match a.message with
          | some m => [Out.puts m]
          | none => []) = 0 := by
        cases a.message <;> rfl
      have e3 : ackCount (if a.config.useCrc = true
          then [Out.putchar (toUChar 8), Out.putchar (toUChar 67)]
          else [Out.putchar (toUChar XMODEM_NAK)]) = 0 := by
        cases a.config.useCrc <;> decide
      rw [e1, e2, e3]
      rfl
    · simp [h0, ht]
  · simp [h0]

theorem recvValidate_ack (a : RecvCall) (s : RecvState) (timeout : Bool) (cks : Nat)
    (buf : List Byte) (h : ackCount s.output + 1 = s.packetNumber) :
    AckInv (recvValidate a s timeout cks buf) := by
  intro _
  unfold recvValidate
  split
  · show ackCount (s.output ++ [Out.putchar (toUChar XMODEM_NAK)]) + 1 = s.packetNumber
    rw [ackCount_append, ← h]
    rfl
  · show ackCount (s.output ++ [Out.putchar (toUChar XMODEM_ACK)]) + 1 = s.packetNumber + 1
    rw [ackCount_append, ← h]
    rfl

theorem recvStep_ack (a : RecvCall) (s : RecvState) (h : AckInv s) : AckInv (recvStep a s) := by
  unfold recvStep
  split
  · rename_i t hph
    have h0 : ackCount s.output + 1 = s.packetNumber := h (by simp [RecvState.returnValue, hph])
    obtain ⟨_, e2, _, _, _⟩ := recvSolicit_fields a s t
    have e5 := recvSolicit_ackCount a s t
    unfold recvWaitStep
    simp only
    split
    · intro _
      simpa [e2, e5] using h0
    · intro _
      simpa [e2, e5] using h0
    · split
      · intro hr
        simp [recvFinish, RecvState.returnValue] at hr
      · split
        · intro hr
          simp [recvFinish, RecvState.returnValue] at hr
        · split
          · split
            · intro _
              show ackCount (_ ++ List.replicate 8 (Out.putchar (toUChar XMODEM_CAN))) + 1 = _
              rw [ackCount_append, e5, e2, ← h0]
              rfl
            · intro _
              simpa [e2, e5] using h0
          · split
            · intro hr
              simp [RecvState.returnValue] at hr
            · intro _
              simpa [e2, e5] using h0
  · rename_i t cks esc buf hph
    have h0 : ackCount s.output + 1 = s.packetNumber := h (by simp [RecvState.returnValue, hph])
    unfold recvReadStep
    split
    · simp only
      split
      · exact recvValidate_ack a _ true cks buf h0
      · split
        · intro _
          exact h0
        · intro _
          exact h0
        · split
          · intro _
            exact h0
          · intro _
            exact h0
    · exact recvValidate_ack a s false cks buf h0
  · rename_i hph
    have h0 : ackCount s.output + 1 = s.packetNumber := h (by simp [RecvState.returnValue, hph])
    unfold recvDrainStep
    split
    · intro hr
      simp [recvFinish, RecvState.returnValue] at hr
    · intro hr
      simp [recvFinish, RecvState.returnValue] at hr
    · intro _
      exact h0
  · exact h

theorem xmodem_receive_ack (a : RecvCall) (mem : Nat → Byte) (input : List (Option Byte))
    (fuel : Nat) : AckInv (xmodem_receive a mem input fuel) := by
  unfold xmodem_receive
  generalize hs : recvInit a mem input = s
  have h : AckInv s := by
    rw [← hs]
    intro _
    rfl
  clear hs
  induction fuel generalizing s with
  | zero => exact h
  | succ n ih => exact ih _ (recvStep_ack a s h)

theorem recvStep_accept (a : RecvCall) (s : RecvState) (t cks : Nat) (esc : Bool)
    (buf : List Byte) (hinv : RecvInv a s)
    (hphase : s.phase = RecvPhase.reading t cks esc buf)
    (hlen : buf.length = frameLength a.config.useCrc)
    (hblock : (buf.getD 0 0).val = s.packetNumber % 256)
    (hcompl : (buf.getD 1 0).val = 255 - (buf.getD 0 0).val)
    (htrailer : frameTrailer buf = trailerOf a.config.useCrc (framePayload buf)) :
    recvStep a s
      = { s with output := s.output ++ [Out.putchar (toUChar XMODEM_ACK)],
                 outputBuffer := memcpy s.outputBuffer s.sizeReceived (buf.drop 2) XMODEM_BLOCKSIZE,
                 sizeReceived := s.sizeReceived + XMODEM_BLOCKSIZE,
                 packetNumber := s.packetNumber + 1,
                 ticks := s.ticks + 1,
                 phase := RecvPhase.waiting (a.clock s.ticks) } := by
  obtain ⟨_, _, _, h4⟩ := hinv
  rw [hphase] at h4
  obtain ⟨_, _, hcks, _⟩ := h4
  have hrej : recvRejects a s.packetNumber false cks buf = false := by
    rw [hcks]
    apply Bool.eq_false_iff.mpr
    intro h
    rcases (recvRejects_iff a s.packetNumber buf hlen).mp h with h | h | h
    · apply h
      apply Fin.ext
      rw [hblock, toChar_val]
    · exact h hcompl
    · exact h htrailer
  unfold recvStep
  rw [hphase]
  simp only
  unfold recvReadStep
  rw [if_neg (by omega)]
  unfold recvValidate
  rw [hrej]
  simp

theorem memcpy_inside (mem : Nat → Byte) (dest : Nat) (src : List Byte) (i : Nat)
    (hi : i < 128) :
    memcpy mem dest src XMODEM_BLOCKSIZE (dest + i) = (src.take XMODEM_BLOCKSIZE).getD i 0 := by
  unfold memcpy XMODEM_BLOCKSIZE
  rw [if_pos ⟨by omega, by omega⟩, getD_take_lt _ _ _ hi]
  congr 1
  omega

theorem memcpy_outside (mem : Nat → Byte) (dest : Nat) (src : List Byte) (j : Nat)
    (hj : j < dest ∨ dest + 128 ≤ j) :
    memcpy mem dest src XMODEM_BLOCKSIZE j = mem j := by
  unfold memcpy XMODEM_BLOCKSIZE
  rw [if_neg (by omega)]

theorem recvStep_soh_room (a : RecvCall) (s : RecvState) (t : Nat) (rest : List (Option Byte))
    (hph : s.phase = RecvPhase.waiting t) (hin : s.input = some 1 :: rest)
    (hroom : s.sizeReceived + 128 ≤ a.bufferSize) :
    recvStep a s
      = { (recvSolicit a s t).1 with
            input := rest,
            ticks := (recvSolicit a s t).1.ticks + 1,
            phase := RecvPhase.reading (a.clock (recvSolicit a s t).1.ticks + 1000 * 1000)
              0 false [] } := by
  obtain ⟨e1, _, _, e4, _⟩ := recvSolicit_fields a s t
  unfold recvStep
  rw [hph]
  simp only
  unfold recvWaitStep
  simp only
  rw [e4, hin]
  simp only [e1]
  have h1 : ((1 : Byte).val = XMODEM_EOT) = False := by decide
  have h2 : ((1 : Byte).val = XMODEM_CAN) = False := by decide
  have h3 : ((1 : Byte).val = XMODEM_SOH) = True := by decide
  have h4 : (s.sizeReceived + XMODEM_BLOCKSIZE > a.bufferSize) = False := by
    simp only [XMODEM_BLOCKSIZE, gt_iff_lt, eq_iff_iff, iff_false, not_lt]
    exact hroom
  simp only [h1, h2, h3, h4, if_true, if_false]

theorem trailerOf_length (useCrc : Bool) (payload : List Byte) :
    (trailerOf useCrc payload).length = if useCrc then 2 else 1 := by
  cases useCrc <;> rfl

theorem frame_regions (blk cmp : Byte) (payload trailer : List Byte)
    (hlen : payload.length = 128) :
    framePayload (blk :: cmp :: (payload ++ trailer)) = payload
    ∧ frameTrailer (blk :: cmp :: (payload ++ trailer)) = trailer := by
  unfold framePayload frameTrailer XMODEM_BLOCKSIZE
  constructor
  · simp only [List.drop_succ_cons, List.drop_zero]
    rw [List.take_append_of_le_length (by omega), List.take_of_length_le (by omega)]
  · show List.drop 128 (payload ++ trailer) = trailer
    rw [List.drop_append_of_le_length (by omega), List.drop_of_length_le (by omega)]
    rfl

theorem recvRun_good_frame (a : RecvCall) (s : RecvState) (t : Nat) (blk cmp : Byte)
    (payload : List Byte) (rest : List (Option Byte))
    (hinv : RecvInv a s)
    (hph : s.phase = RecvPhase.waiting t)
    (hin : s.input = some 1
      :: ((blk :: cmp :: (payload ++ trailerOf a.config.useCrc payload)).map some ++ rest))
    (hlen : payload.length = 128)
    (hblock : blk.val = s.packetNumber % 256)
    (hcompl : cmp.val = 255 - blk.val)
    (hesc : a.config.useEscape = false)
    (hroom : s.sizeReceived + 128 ≤ a.bufferSize)
    (hclk : ∀ j k, a.clock k ≤ a.clock j + 1000000) :
    (recvRun a (1 + (frameLength a.config.useCrc + 1)) s).output
        = (recvSolicit a s t).1.output ++ [Out.putchar 0x06]
    ∧ (recvRun a (1 + (frameLength a.config.useCrc + 1)) s).input = rest
    ∧ (∀ i, i < 128 →
        (recvRun a (1 + (frameLength a.config.useCrc + 1)) s).outputBuffer (s.sizeReceived + i)
          = payload.getD i 0)
    ∧ (∀ j, (j < s.sizeReceived ∨ s.sizeReceived + 128 ≤ j) →
        (recvRun a (1 + (frameLength a.config.useCrc + 1)) s).outputBuffer j = s.outputBuffer j)
    ∧ (recvRun a (1 + (frameLength a.config.useCrc + 1)) s).sizeReceived = s.sizeReceived + 128
    ∧ (recvRun a (1 + (frameLength a.config.useCrc + 1)) s).packetNumber = s.packetNumber + 1
    ∧ ∃ t', (recvRun a (1 + (frameLength a.config.useCrc + 1)) s).phase
        = RecvPhase.waiting t' := by
  obtain ⟨e1, e2, e3, _, _⟩ := recvSolicit_fields a s t
  have hbody : (blk :: cmp :: (payload ++ trailerOf a.config.useCrc payload)).length
      = frameLength a.config.useCrc := by
    simp only [List.length_cons, List.length_append, trailerOf_length, hlen, frameLength,
      XMODEM_BLOCKSIZE]
    omega
  obtain ⟨hpay, htr⟩ := frame_regions blk cmp payload (trailerOf a.config.useCrc payload) hlen
  have h1 := recvStep_soh_room a s t _ hph hin hroom
  have hinv1 : RecvInv a (recvStep a s) := recvStep_inv a s hinv
  obtain ⟨c, h2⟩ := recvRun_read a (blk :: cmp :: (payload ++ trailerOf a.config.useCrc payload))
    (recvStep a s) _ 0 [] rest (by rw [h1]) hesc (by rw [h1])
    (by rw [hbody]; exact Nat.le_of_eq (Nat.zero_add _))
    (fun k _ => by rw [h1]; exact hclk _ _)
  have hinv2 := recvRun_inv a (blk :: cmp :: (payload ++ trailerOf a.config.useCrc payload)).length
    _ hinv1
  rw [hbody] at h2 hinv2
  have hrun : recvRun a (1 + (frameLength a.config.useCrc + 1)) s
      = recvStep a (recvRun a (frameLength a.config.useCrc) (recvStep a s)) := by
    rw [recvRun_add, recvRun_succ]
    rfl
  rw [hrun]
  have h3 := recvStep_accept a _ _ c false
    (blk :: cmp :: (payload ++ trailerOf a.config.useCrc payload)) hinv2
    (by rw [h2]; rfl) hbody
    (by rw [h2, h1]; simpa [e2] using hblock)
    (by simpa using hcompl)
    (by rw [hpay, htr])
  rw [h3, h2, h1]
  refine ⟨rfl, rfl, ?_, ?_, ?_, ?_, _, rfl⟩
  · intro i hi
    show memcpy _ _ _ XMODEM_BLOCKSIZE _ = _
    simp only [e1, e3]
    rw [memcpy_inside _ _ _ _ hi]
    show (framePayload (blk :: cmp :: (payload ++ trailerOf a.config.useCrc payload))).getD i 0 = _
    rw [hpay]
  · intro j hj
    show memcpy _ _ _ XMODEM_BLOCKSIZE _ = _
    simp only [e1, e3]
    rw [memcpy_outside _ _ _ _ hj]
  · show (recvSolicit a s t).1.sizeReceived + XMODEM_BLOCKSIZE = _
    rw [e1]
    rfl
  · show (recvSolicit a s t).1.packetNumber + 1 = _
    rw [e2]

theorem paddedChunk_length (mem : Nat → Byte) (length start : Nat) :
    (paddedChunk mem length start).length = 128 := by
  simp [paddedChunk, XMODEM_BLOCKSIZE]


theorem sendRun_succ (a : SendCall) (n : Nat) (s : SendState) :
    sendRun a (n + 1) s = sendStep a (sendRun a n s) := by
  induction n generalizing s with
  | zero => rfl
  | succ n ih =>
    show sendRun a (n + 1) (sendStep a s) = _
    rw [ih]
    rfl

theorem sendRun_add (a : SendCall) (m n : Nat) (s : SendState) :
    sendRun a (m + n) s = sendRun a n (sendRun a m s) := by
  induction m generalizing s with
  | zero => simp [sendRun]
  | succ m ih =>
    rw [Nat.add_right_comm]
    show sendRun a (m + n) (sendStep a s) = sendRun a n (sendRun a m (sendStep a s))
    exact ih _

theorem sendStep_skip (a : SendCall) (s : SendState) (tries : Nat) (e : Option Byte)
    (rest : List (Option Byte))
    (hph : s.phase = SendPhase.handshake tries) (hin : s.input = e :: rest)
    (he : e ≠ some 67 ∧ e ≠ some 0x15) (htries : tries < 30000) :
    ∃ out, wireBytes out = wireBytes s.output
      ∧ sendStep a s = { input := rest, output := out, phase := SendPhase.handshake (tries + 1) } := by
  obtain ⟨inp, out, ph⟩ := s
  simp only at hph hin
  subst hph hin
  unfold sendStep
  simp only
  unfold sendHandshakeStep
  cases e with
  | none =>
    refine ⟨out, rfl, ?_⟩
    simp [sendHandshakeAgain, htries]
  | some b =>
    have h1 : ¬ b.val = 67 := fun h => he.1 (by rw [show b = 67 from Fin.ext h])
    have h2 : ¬ b.val = XMODEM_NAK := fun h => he.2 (by rw [show b = 0x15 from Fin.ext h])
    simp only [h1, h2, if_false]
    by_cases h3 : b.val = XMODEM_BS
    · refine ⟨out, rfl, ?_⟩
      simp [h3, sendHandshakeAgain, htries]
    · by_cases h4 : a.config.logLevel ≥ 1
      · refine ⟨out ++ [Out.dumplog], ?_, ?_⟩
        · rw [wireBytes_append]
          simp [wireBytes]
        · simp [h3, h4, sendHandshakeAgain, htries]
      · refine ⟨out, rfl, ?_⟩
        simp [h3, h4, sendHandshakeAgain, htries]

theorem sendRun_skip (a : SendCall) (skipped : List (Option Byte)) (tail : List (Option Byte))
    (s : SendState) (tries : Nat)
    (hph : s.phase = SendPhase.handshake tries) (hin : s.input = skipped ++ tail)
    (hskip : ∀ e ∈ skipped, e ≠ some 67 ∧ e ≠ some 0x15)
    (htries : tries + skipped.length ≤ 30000) :
    ∃ out, wireBytes out = wireBytes s.output
      ∧ sendRun a skipped.length s
          = { input := tail, output := out,
              phase := SendPhase.handshake (tries + skipped.length) } := by
  induction skipped generalizing s tries with
  | nil =>
    refine ⟨s.output, rfl, ?_⟩
    obtain ⟨inp, out, ph⟩ := s
    simp only [List.nil_append] at hph hin
    subst hph hin
    rfl
  | cons e skipped ih =>
    simp only [List.length_cons] at htries
    obtain ⟨o1, ho1, h1⟩ := sendStep_skip a s tries e (skipped ++ tail) hph
      (by simpa using hin) (hskip e (List.mem_cons_self _ _)) (by omega)
    obtain ⟨o2, ho2, h2⟩ := ih (sendStep a s) (tries + 1) (by rw [h1]) (by rw [h1])
      (fun e he => hskip e (List.mem_cons_of_mem _ he)) (by omega)
    refine ⟨o2, ?_, ?_⟩
    · rw [ho2, h1]
      exact ho1
    · show sendRun a skipped.length (sendStep a s) = _
      rw [h2]
      simp only [List.length_cons]
      congr 2
      omega

theorem sendNext_mode (a : SendCall) (s : SendState) (u : Bool) (block bufpos tries : Nat) :
    ModeInv u (sendNext a s u block bufpos tries) := by
  unfold sendNext
  split
  · rfl
  · trivial

theorem sendRetry_mode (a : SendCall) (s : SendState) (u : Bool) (block bufpos tries : Nat) :
    ModeInv u (sendRetry a s u block bufpos tries) := by
  unfold sendRetry
  split
  · trivial
  · exact sendNext_mode _ _ _ _ _ _

theorem sendEotAgain_mode (s : SendState) (u : Bool) (tries : Nat) :
    ModeInv u (sendEotAgain s tries) := by
  unfold sendEotAgain
  split <;> trivial

theorem sendStep_mode (a : SendCall) (u : Bool) (s : SendState) (h : ModeInv u s) :
    ModeInv u (sendStep a s) := by
  unfold sendStep
  split
  · rename_i hph
    unfold ModeInv at h
    rw [hph] at h
    exact h.elim
  · rename_i u' block bufpos tries hph
    have hu : u' = u := by
      unfold ModeInv at h
      rw [hph] at h
      exact h
    subst hu
    unfold sendBlockStep
    simp only
    split
    · exact sendRetry_mode _ _ _ _ _ _
    · exact sendRetry_mode _ _ _ _ _ _
    · split
      · exact sendRetry_mode _ _ _ _ _ _
      · split
        · split
          · exact sendRetry_mode _ _ _ _ _ _
          · exact sendRetry_mode _ _ _ _ _ _
          · split
            · trivial
            · exact sendRetry_mode _ _ _ _ _ _
        · exact sendRetry_mode _ _ _ _ _ _
  · unfold sendEotStep
    split
    · exact sendEotAgain_mode _ _ _
    · exact sendEotAgain_mode _ _ _
    · split
      · trivial
      · split
        · split
          · exact sendEotAgain_mode _ _ _
          · exact sendEotAgain_mode _ _ _
          · split
            · trivial
            · exact sendEotAgain_mode _ _ _
        · exact sendEotAgain_mode _ _ _
  · rename_i hph
    unfold sendCancelStep
    split
    · trivial
    · trivial
    · unfold ModeInv
      simp only [hph]
  · exact h

theorem sendRun_mode (a : SendCall) (u : Bool) (n : Nat) (s : SendState) (h : ModeInv u s) :
    ModeInv u (sendRun a n s) := by
  induction n generalizing s with
  | zero => exact h
  | succ n ih => exact ih _ (sendStep_mode a u s h)

theorem sendStep_handshake (a : SendCall) (s : SendState) (tries : Nat) (h : Byte)
    (rest : List (Option Byte))
    (hph : s.phase = SendPhase.handshake tries) (hin : s.input = some h :: rest)
    (hh : h = 67 ∨ h = 0x15) :
    sendStep a s = sendNext a { s with input := rest } (decide (h = 67)) 1 0 tries := by
  unfold sendStep
  rw [hph]
  simp only
  unfold sendHandshakeStep
  rw [hin]
  rcases hh with rfl | rfl
  · rfl
  · rfl


theorem sendStep_nonack (a : SendCall) (s : SendState) (u : Bool) (block bufpos tries : Nat)
    (e : Option Byte) (rest : List (Option Byte))
    (hph : s.phase = SendPhase.sending u block bufpos tries)
    (hin : s.input = e :: rest)
    (he : e ≠ some 6 ∧ e ≠ some 0x18) :
    sendStep a s
      = sendRetry a
          { s with input := rest,
                   output := s.output ++ (sendFrame a u block).map Out.putchar }
          u block ((block + 1) * XMODEM_BLOCKSIZE) tries := by
  obtain ⟨inp, out, ph⟩ := s
  simp only at hph hin
  subst hph hin
  unfold sendStep
  simp only
  unfold sendBlockStep
  cases e with
  | none => rfl
  | some b =>
    have h1 : ¬ b.val = XMODEM_ACK := fun h => he.1 (by rw [show b = 6 from Fin.ext h])
    have h2 : ¬ b.val = XMODEM_CAN := fun h => he.2 (by rw [show b = 0x18 from Fin.ext h])
    simp only [h1, h2, if_false]

theorem sendStep_ack (a : SendCall) (s : SendState) (u : Bool) (block bufpos tries : Nat)
    (rest : List (Option Byte))
    (hph : s.phase = SendPhase.sending u block bufpos tries)
    (hin : s.input = some 6 :: rest) :
    sendStep a s
      = sendNext a
          { s with input := rest,
                   output := s.output ++ (sendFrame a u block).map Out.putchar }
          u (block + 1) ((block + 1) * XMODEM_BLOCKSIZE) 1 := by
  obtain ⟨inp, out, ph⟩ := s
  simp only at hph hin
  subst hph hin
  rfl

theorem sendRun_nonacks (a : SendCall) (naks : List (Option Byte)) (rest : List (Option Byte))
    (s : SendState) (u : Bool) (block bufpos tries : Nat)
    (hph : s.phase = SendPhase.sending u block bufpos tries)
    (hmore : (block + 1) * 128 < a.bufferSize)
    (hin : s.input = naks ++ rest)
    (hnak : ∀ e ∈ naks, e ≠ some 6 ∧ e ≠ some 0x18)
    (htries : tries + naks.length ≤ 10) :
    ∃ bp, sendRun a naks.length s
      = { input := rest,
          output := s.output
            ++ (List.replicate naks.length ((sendFrame a u block).map Out.putchar)).flatten,
          phase := SendPhase.sending u block bp (tries + naks.length) } := by
  induction naks generalizing s bufpos tries with
  | nil =>
    refine ⟨bufpos, ?_⟩
    obtain ⟨inp, out, ph⟩ := s
    simp only [List.nil_append] at hph hin
    subst hph hin
    simp [sendRun]
  | cons e naks ih =>
    simp only [List.length_cons] at htries
    have h1 := sendStep_nonack a s u block bufpos tries e (naks ++ rest) hph
      (by simpa using hin) (hnak e (List.mem_cons_self _ _))
    have h2 : sendStep a s
        = { input := naks ++ rest,
            output := s.output ++ (sendFrame a u block).map Out.putchar,
            phase := SendPhase.sending u block ((block + 1) * XMODEM_BLOCKSIZE) (tries + 1) } := by
      rw [h1]
      unfold sendRetry
      rw [if_neg (by omega)]
      unfold sendNext
      rw [if_pos (by simpa [XMODEM_BLOCKSIZE] using hmore)]
    obtain ⟨bp, h3⟩ := ih (sendStep a s) ((block + 1) * XMODEM_BLOCKSIZE) (tries + 1)
      (by rw [h2]) (by rw [h2]) (fun e he => hnak e (List.mem_cons_of_mem _ he)) (by omega)
    refine ⟨bp, ?_⟩
    show sendRun a naks.length (sendStep a s) = _
    rw [h3, h2]
    simp only [List.length_cons, List.replicate_succ, List.flatten_cons, List.append_assoc]
    congr 2
    omega

theorem sendStep_cancel_byte (a : SendCall) (s : SendState) (b : Byte)
    (rest : List (Option Byte)) (hph : s.phase = SendPhase.cancelling)
    (hin : s.input = some b :: rest) :
    sendStep a s = { s with input := rest } := by
  obtain ⟨inp, out, ph⟩ := s
  simp only at hph hin
  subst hph hin
  rfl

theorem sendStep_cancel_quiet (a : SendCall) (s : SendState)
    (hph : s.phase = SendPhase.cancelling) (hquiet : ∀ b, s.input.head? ≠ some (some b)) :
    sendStep a s = sendFinish { s with input := s.input.tail } false := by
  obtain ⟨inp, out, ph⟩ := s
  simp only at hph hquiet
  subst hph
  match inp, hquiet with
  | [], _ => rfl
  | none :: rest, _ => rfl
  | some b :: rest, hq => exact absurd rfl (hq b)

theorem sendRun_cancel (a : SendCall) (residue : List Byte) (tail : List (Option Byte))
    (s : SendState) (hph : s.phase = SendPhase.cancelling)
    (hin : s.input = residue.map some ++ tail)
    (hquiet : ∀ b, tail.head? ≠ some (some b)) :
    sendRun a (residue.length + 1) s = sendFinish { s with input := tail.tail } false := by
  induction residue generalizing s with
  | nil =>
    simp only [List.map_nil, List.nil_append] at hin
    show sendStep a s = _
    rw [sendStep_cancel_quiet a s hph (by rw [hin]; exact hquiet), hin]
  | cons b residue ih =>
    show sendRun a (residue.length + 1) (sendStep a s) = _
    rw [sendStep_cancel_byte a s b (residue.map some ++ tail) hph (by simpa using hin)]
    exact ih _ hph rfl

theorem flatten_replicate_succ {α : Type} (n : Nat) (l : List α) :
    (List.replicate (n + 1) l).flatten = (List.replicate n l).flatten ++ l := by
  rw [List.replicate_succ', List.flatten_append]
  simp

theorem sendRun_nonacks_fail (a : SendCall) (naks : List (Option Byte)) (e : Option Byte)
    (rest : List (Option Byte)) (s : SendState) (u : Bool) (block bufpos tries : Nat)
    (hph : s.phase = SendPhase.sending u block bufpos tries)
    (hmore : (block + 1) * 128 < a.bufferSize)
    (hin : s.input = naks ++ e :: rest)
    (hnak : ∀ x ∈ naks, x ≠ some 6 ∧ x ≠ some 0x18)
    (he : e ≠ some 6 ∧ e ≠ some 0x18)
    (htries : tries + naks.length = 10) :
    sendRun a (naks.length + 1) s
      = { input := rest,
          output := s.output
            ++ (List.replicate (naks.length + 1) ((sendFrame a u block).map Out.putchar)).flatten
            ++ List.replicate 8 (Out.putchar (toUChar XMODEM_CAN)),
          phase := SendPhase.cancelling } := by
  obtain ⟨bp, h1⟩ := sendRun_nonacks a naks (e :: rest) s u block bufpos tries hph hmore hin hnak
    (Nat.le_of_eq htries)
  rw [sendRun_succ, sendStep_nonack a _ u block bp (tries + naks.length) e rest (by rw [h1])
    (by rw [h1]) he, h1]
  unfold sendRetry
  rw [if_pos (by omega)]
  unfold sendCancel
  simp only [flatten_replicate_succ, List.append_assoc]

theorem sendStep_skip_last (a : SendCall) (s : SendState) (tries : Nat) (e : Option Byte)
    (rest : List (Option Byte))
    (hph : s.phase = SendPhase.handshake tries) (hin : s.input = e :: rest)
    (he : e ≠ some 67 ∧ e ≠ some 0x15) (htries : 30000 ≤ tries) :
    ∃ out, wireBytes out = wireBytes s.output
      ∧ sendStep a s
          = { input := rest,
              output := out ++ List.replicate 8 (Out.putchar (toUChar XMODEM_CAN)),
              phase := SendPhase.cancelling } := by
  obtain ⟨inp, out, ph⟩ := s
  simp only at hph hin
  subst hph hin
  have hnot : ¬ tries < 30000 := by omega
  unfold sendStep
  simp only
  unfold sendHandshakeStep
  cases e with
  | none =>
    refine ⟨out, rfl, ?_⟩
    simp [sendHandshakeAgain, hnot, sendCancel]
  | some b =>
    have h1 : ¬ b.val = 67 := fun h => he.1 (by rw [show b = 67 from Fin.ext h])
    have h2 : ¬ b.val = XMODEM_NAK := fun h => he.2 (by rw [show b = 0x15 from Fin.ext h])
    simp only [h1, h2, if_false]
    by_cases h3 : b.val = XMODEM_BS
    · refine ⟨out, rfl, ?_⟩
      simp [h3, sendHandshakeAgain, hnot, sendCancel]
    · by_cases h4 : a.config.logLevel ≥ 1
      · refine ⟨out ++ [Out.dumplog], ?_, ?_⟩
        · rw [wireBytes_append]
          simp [wireBytes]
        · simp [h3, h4, sendHandshakeAgain, hnot, sendCancel]
      · refine ⟨out, rfl, ?_⟩
        simp [h3, h4, sendHandshakeAgain, hnot, sendCancel]

theorem sendRun_handshake_timeout (a : SendCall) (skipped rest : List (Option Byte))
    (hlen : skipped.length = 30000)
    (hskip : ∀ e ∈ skipped, e ≠ some 67 ∧ e ≠ some 0x15) :
    ∃ out, wireBytes out = []
      ∧ sendRun a 30000 (sendInit (skipped ++ rest))
          = { input := rest,
              output := out ++ List.replicate 8 (Out.putchar (toUChar XMODEM_CAN)),
              phase := SendPhase.cancelling } := by
  have hne : skipped ≠ [] := by
    intro h
    rw [h] at hlen
    cases hlen
  have hlast := List.dropLast_concat_getLast hne
  have hl : skipped.dropLast.length = 29999 := by
    rw [List.length_dropLast]
    omega
  have hinput : skipped ++ rest = skipped.dropLast ++ (skipped.getLast hne :: rest) := by
    have e1 : skipped.dropLast ++ skipped.getLast hne :: rest
        = (skipped.dropLast ++ [skipped.getLast hne]) ++ rest := by simp
    rw [e1, hlast]
  obtain ⟨o1, ho1, h1⟩ := sendRun_skip a skipped.dropLast (skipped.getLast hne :: rest)
    (sendInit (skipped ++ rest)) 1 rfl hinput
    (fun e he => hskip e (List.mem_of_mem_dropLast he)) (by omega)
  rw [hl] at h1
  obtain ⟨o2, ho2, h2⟩ := sendStep_skip_last a
    (sendRun a 29999 (sendInit (skipped ++ rest))) (1 + 29999) (skipped.getLast hne) rest
    (by rw [h1]) (by rw [h1]) (hskip _ (List.getLast_mem hne)) (by omega)
  refine ⟨o2, ?_, ?_⟩
  · rw [ho2, h1, ho1]
    rfl
  · have h3 : sendRun a 30000 (sendInit (skipped ++ rest))
        = sendStep a (sendRun a 29999 (sendInit (skipped ++ rest))) := sendRun_succ a 29999 _
    rw [h3, h2]

theorem crc_chunk_0 : (List.replicate 16 (0x41 : Byte)).foldl crc16Byte 0 = 4146 := by
  decide

theorem crc_chunk_1 : (List.replicate 16 (0x41 : Byte)).foldl crc16Byte 4146 = 44415 := by
  decide

theorem crc_chunk_2 : (List.replicate 16 (0x41 : Byte)).foldl crc16Byte 44415 = 49505 := by
  decide

theorem crc_chunk_3 : (List.replicate 16 (0x41 : Byte)).foldl crc16Byte 49505 = 9646 := by
  decide

theorem crc_chunk_4 : (List.replicate 16 (0x41 : Byte)).foldl crc16Byte 9646 = 18168 := by
  decide

theorem crc_chunk_5 : (List.replicate 16 (0x41 : Byte)).foldl crc16Byte 18168 = 54881 := by
  decide

theorem crc_chunk_6 : (List.replicate 16 (0x41 : Byte)).foldl crc16Byte 54881 = 28219 := by
  decide

theorem crc_chunk_7 : (List.replicate 16 (0x41 : Byte)).foldl crc16Byte 28219 = 7374 := by
  decide

theorem crc16_xmodem_128_A : crc16_xmodem (List.replicate 128 (0x41 : Byte)) = 0x1CCE := by
  have e : List.replicate 128 (0x41 : Byte)
      = List.replicate 16 0x41 ++ (List.replicate 16 0x41 ++ (List.replicate 16 0x41
        ++ (List.replicate 16 0x41 ++ (List.replicate 16 0x41 ++ (List.replicate 16 0x41
        ++ (List.replicate 16 0x41 ++ List.replicate 16 0x41)))))) := by
    decide
  unfold crc16_xmodem
  rw [e]
  simp only [List.foldl_append]
  rw [crc_chunk_0, crc_chunk_1, crc_chunk_2, crc_chunk_3, crc_chunk_4, crc_chunk_5,
    crc_chunk_6, crc_chunk_7]

theorem recvSolicit_nonzero (a : RecvCall) (s : RecvState) (t : Nat) (h : s.sizeReceived ≠ 0) :
    recvSolicit a s t = (s, t) := by
  unfold recvSolicit
  rw [if_neg h]

theorem recvStep_eot (a : RecvCall) (s : RecvState) (t : Nat) (rest : List (Option Byte))
    (hph : s.phase = RecvPhase.waiting t) (hin : s.input = some 4 :: rest) :
    recvStep a s
      = recvFinish
          { (recvSolicit a s t).1 with
              input := rest,
              output := (recvSolicit a s t).1.output ++ [Out.putchar (toUChar XMODEM_ACK)] }
          (s.sizeReceived : Int) := by
  obtain ⟨e1, _, _, e4, _⟩ := recvSolicit_fields a s t
  unfold recvStep
  rw [hph]
  simp only
  unfold recvWaitStep
  simp only
  rw [e4, hin]
  simp only [e1]
  have h1 : ((4 : Byte).val = XMODEM_EOT) = True := by decide
  simp only [h1, if_true]

theorem recvStep_reject (a : RecvCall) (s : RecvState) (t cks : Nat) (esc : Bool)
    (buf : List Byte) (hinv : RecvInv a s)
    (hphase : s.phase = RecvPhase.reading t cks esc buf)
    (hlen : buf.length = frameLength a.config.useCrc)
    (hbad : (buf.getD 0 0).val ≠ s.packetNumber % 256
      ∨ (buf.getD 1 0).val ≠ 255 - (buf.getD 0 0).val
      ∨ frameTrailer buf ≠ trailerOf a.config.useCrc (framePayload buf)) :
    recvStep a s
      = { s with output := s.output ++ [Out.putchar (toUChar XMODEM_NAK)],
                 ticks := s.ticks + 1,
                 phase := RecvPhase.waiting (a.clock s.ticks) } := by
  obtain ⟨_, _, _, h4⟩ := hinv
  rw [hphase] at h4
  obtain ⟨_, _, hcks, _⟩ := h4
  have hrej : recvRejects a s.packetNumber false cks buf = true := by
    rw [hcks]
    apply (recvRejects_iff a s.packetNumber buf hlen).mpr
    rcases hbad with h | h | h
    · left
      intro e
      apply h
      rw [e, toChar_val]
    · exact Or.inr (Or.inl h)
    · exact Or.inr (Or.inr h)
  unfold recvStep
  rw [hphase]
  simp only
  unfold recvReadStep
  rw [if_neg (by omega)]
  unfold recvValidate
  rw [if_pos hrej]

theorem recvRun_frame_read (a : RecvCall) (s : RecvState) (t : Nat) (body : List Byte)
    (rest : List (Option Byte))
    (hph : s.phase = RecvPhase.waiting t)
    (hin : s.input = some 1 :: (body.map some ++ rest))
    (hlen : body.length = frameLength a.config.useCrc)
    (hesc : a.config.useEscape = false)
    (hroom : s.sizeReceived + 128 ≤ a.bufferSize)
    (hclk : ∀ j k, a.clock k ≤ a.clock j + 1000000) :
    ∃ T c tk, recvRun a (1 + frameLength a.config.useCrc) s
      = { input := rest, ticks := tk, output := (recvSolicit a s t).1.output,
          outputBuffer := s.outputBuffer, sizeReceived := s.sizeReceived,
          packetNumber := s.packetNumber, phase := RecvPhase.reading T c false body } := by
  obtain ⟨e1, e2, e3, _, _⟩ := recvSolicit_fields a s t
  have h1 := recvStep_soh_room a s t _ hph hin hroom
  obtain ⟨c, h2⟩ := recvRun_read a body (recvStep a s) _ 0 [] rest (by rw [h1]) hesc
    (by rw [h1]) (by rw [hlen]; exact Nat.le_of_eq (Nat.zero_add _))
    (fun k _ => by rw [h1]; exact hclk _ _)
  rw [hlen] at h2
  have hrun : recvRun a (1 + frameLength a.config.useCrc) s
      = recvRun a (frameLength a.config.useCrc) (recvStep a s) := by
    rw [recvRun_add]
    rfl
  refine ⟨a.clock (recvSolicit a s t).1.ticks + 1000 * 1000, c,
    (recvStep a s).ticks + frameLength a.config.useCrc, ?_⟩
  rw [hrun, h2]
  simp only [List.nil_append, h1, e1, e2, e3]

theorem recvStep_eot_fields (a : RecvCall) (s : RecvState) (t : Nat)
    (rest : List (Option Byte))
    (hph : s.phase = RecvPhase.waiting t) (hin : s.input = some 4 :: rest) :
    (recvStep a s).output
        = (recvSolicit a s t).1.output ++ [Out.putchar 0x06, Out.puts [], Out.dumplog]
    ∧ (recvStep a s).returnValue = some (s.sizeReceived : Int)
    ∧ (recvStep a s).outputBuffer = s.outputBuffer
    ∧ (recvStep a s).input = rest := by
  obtain ⟨_, _, e3, _, _⟩ := recvSolicit_fields a s t
  rw [recvStep_eot a s t rest hph hin]
  refine ⟨?_, rfl, e3, rfl⟩
  simp [recvFinish]
  rfl

theorem recvSolicit_quiet (a : RecvCall) (s : RecvState) (t : Nat)
    (h : ∀ k, a.clock k ≤ t) : (recvSolicit a s t).1.output = s.output := by
  unfold recvSolicit
  split
  · rw [if_neg (Nat.not_lt.mpr (h _))]
  · rfl

theorem recvRun_bad_frame (a : RecvCall) (s : RecvState) (t : Nat) (body : List Byte)
    (rest : List (Option Byte))
    (hinv : RecvInv a s)
    (hph : s.phase = RecvPhase.waiting t)
    (hin : s.input = some 1 :: (body.map some ++ rest))
    (hlen : body.length = frameLength a.config.useCrc)
    (hbad : (body.getD 0 0).val ≠ s.packetNumber % 256
      ∨ (body.getD 1 0).val ≠ 255 - (body.getD 0 0).val
      ∨ frameTrailer body ≠ trailerOf a.config.useCrc (framePayload body))
    (hesc : a.config.useEscape = false)
    (hroom : s.sizeReceived + 128 ≤ a.bufferSize)
    (hclk : ∀ j k, a.clock k ≤ a.clock j + 1000000) :
    (recvRun a (1 + frameLength a.config.useCrc + 1) s).output
        = (recvSolicit a s t).1.output ++ [Out.putchar 0x15]
    ∧ (recvRun a (1 + frameLength a.config.useCrc + 1) s).input = rest
    ∧ (recvRun a (1 + frameLength a.config.useCrc + 1) s).outputBuffer = s.outputBuffer
    ∧ (recvRun a (1 + frameLength a.config.useCrc + 1) s).sizeReceived = s.sizeReceived
    ∧ (recvRun a (1 + frameLength a.config.useCrc + 1) s).packetNumber = s.packetNumber
    ∧ ∃ k, (recvRun a (1 + frameLength a.config.useCrc + 1) s).phase
        = RecvPhase.waiting (a.clock k) := by
  obtain ⟨T, c, tk, h1⟩ := recvRun_frame_read a s t body rest hph hin hlen hesc hroom hclk
  have hinv1 := recvRun_inv a (1 + frameLength a.config.useCrc) s hinv
  have h2 := recvStep_reject a (recvRun a (1 + frameLength a.config.useCrc) s) T c false body
    hinv1 (by rw [h1]) hlen (by rw [h1]; exact hbad)
  rw [recvRun_succ, h2, h1]
  exact ⟨rfl, rfl, rfl, rfl, rfl, _, rfl⟩


theorem sendRun_eot_timeouts (a : SendCall) (n : Nat) (rest : List (Option Byte))
    (s : SendState) (tries : Nat)
    (hph : s.phase = SendPhase.eot tries) (hin : s.input = List.replicate n none ++ rest)
    (htries : tries + n < 2000) :
    sendRun a n s = { s with input := rest, phase := SendPhase.eot (tries + n) } := by
  induction n generalizing s tries with
  | zero =>
    obtain ⟨inp, out, ph⟩ := s
    simp only [List.replicate_zero, List.nil_append] at hph hin
    subst hph hin
    rfl
  | succ n ih =>
    obtain ⟨inp, out, ph⟩ := s
    simp only [List.replicate_succ, List.cons_append] at hph hin
    subst hph hin
    have h1 : sendStep a
          { input := none :: (List.replicate n none ++ rest), output := out,
            phase := SendPhase.eot tries }
        = { input := List.replicate n none ++ rest, output := out,
            phase := SendPhase.eot (tries + 1) } := by
      show sendEotAgain _ tries = _
      unfold sendEotAgain
      rw [if_pos (by omega)]
    show sendRun a n (sendStep a _) = _
    rw [h1, ih _ (tries + 1) rfl rfl (by omega)]
    simp only [SendState.mk.injEq, true_and]
    congr 1
    omega


theorem recvStep_output_nonzero (a : RecvCall) (s : RecvState) (h : s.sizeReceived ≠ 0) :
    ∃ more, (recvStep a s).output = s.output ++ more
      ∧ (match s.phase with
        | RecvPhase.waiting _ =>
          more = [] ∨ more = [Out.putchar 0x06, Out.puts [], Out.dumplog]
            ∨ more = List.replicate 8 (Out.putchar 0x18)
        | RecvPhase.reading _ _ _ _ =>
          more = [] ∨ more = [Out.putchar 0x06] ∨ more = [Out.putchar 0x15]
        | RecvPhase.draining => more = [] ∨ more = [Out.puts [], Out.dumplog]
        | RecvPhase.returned _ => more = []) := by
  unfold recvStep
  split
  · rename_i t hph
    have hs := recvSolicit_nonzero a s t h
    unfold recvWaitStep
    simp only [hs]
    split
    · exact ⟨[], by simp, Or.inl rfl⟩
    · exact ⟨[], by simp, Or.inl rfl⟩
    · split
      · exact ⟨_, by simp [recvFinish]; rfl, Or.inr (Or.inl rfl)⟩
      · split
        · exact ⟨_, by simp [recvFinish]; rfl, Or.inr (Or.inl rfl)⟩
        · split
          · split
            · exact ⟨_, rfl, Or.inr (Or.inr rfl)⟩
            · exact ⟨[], by simp, Or.inl rfl⟩
          · split
            · exact ⟨[], by simp, Or.inl rfl⟩
            · exact ⟨[], by simp, Or.inl rfl⟩
  · rename_i t cks esc buf hph
    have hval : ∀ (s1 : RecvState) (timeout : Bool), s1.output = s.output →
        ∃ more, (recvValidate a s1 timeout cks buf).output = s.output ++ more
          ∧ (more = [] ∨ more = [Out.putchar 0x06] ∨ more = [Out.putchar 0x15]) := by
      intro s1 timeout ho
      unfold recvValidate
      split
      · exact ⟨_, by rw [← ho]; rfl, Or.inr (Or.inr rfl)⟩
      · exact ⟨_, by rw [← ho]; rfl, Or.inr (Or.inl rfl)⟩
    unfold recvReadStep
    split
    · simp only
      split
      · exact hval _ true rfl
      · split
        · exact ⟨[], by simp, Or.inl rfl⟩
        · exact ⟨[], by simp, Or.inl rfl⟩
        · split
          · exact ⟨[], by simp, Or.inl rfl⟩
          · exact ⟨[], by simp, Or.inl rfl⟩
    · exact hval s false rfl
  · unfold recvDrainStep
    split
    · exact ⟨_, rfl, Or.inr rfl⟩
    · exact ⟨_, rfl, Or.inr rfl⟩
    · exact ⟨[], by simp, Or.inl rfl⟩
  · exact ⟨[], by simp, rfl⟩

theorem poke_same (mem : Nat → Byte) (i : Nat) (v : Byte) : poke mem i v i = v := by
  unfold poke
  rw [if_pos rfl]

theorem poke_other (mem : Nat → Byte) (i j : Nat) (v : Byte) (h : j ≠ i) :
    poke mem i v j = mem j := by
  unfold poke
  rw [if_neg h]

theorem cstr_ne_zero (s : List Byte) : ∀ c ∈ cstr s, c ≠ 0 := by
  intro c hc
  have h := List.mem_takeWhile_imp hc
  simpa using h

theorem xmodem_log_drop (st : LogState) (s : List Byte)
    (h : st.gLogPos + strlen s + 3 ≥ LOG_SIZE) :
    xmodem_log st s = { st with gLogPos := LOG_SIZE } := by
  unfold xmodem_log
  rw [if_pos h]

theorem xmodem_log_beyond (st : LogState) (s : List Byte) (i : Nat) (hi : LOG_SIZE ≤ i) :
    (xmodem_log st s).gLogBuffer i = st.gLogBuffer i := by
  unfold xmodem_log
  split
  · rfl
  · rename_i h
    show poke (poke (poke (strcpy st.gLogBuffer st.gLogPos s) _ 13) _ 10) _ 0 i = _
    rw [poke_other _ _ _ _ (by omega), poke_other _ _ _ _ (by omega),
      poke_other _ _ _ _ (by omega)]
    unfold strcpy
    rw [poke_other _ _ _ _ (by omega)]
    unfold memcpy
    rw [if_neg (by omega)]

theorem logCalls_latched (st : LogState) (calls : List (List Byte))
    (h : st.gLogPos = LOG_SIZE) : logCalls st calls = st := by
  induction calls with
  | nil => rfl
  | cons s rest ih =>
    show logCalls (xmodem_log st s) rest = st
    rw [xmodem_log_drop st s (by rw [h]; omega)]
    have e : ({ st with gLogPos := LOG_SIZE } : LogState) = st := by
      obtain ⟨b, p⟩ := st
      simp only at h
      rw [h]
    rw [e, ih]

theorem logCalls_beyond (st : LogState) (calls : List (List Byte)) (i : Nat)
    (hi : LOG_SIZE ≤ i) : (logCalls st calls).gLogBuffer i = st.gLogBuffer i := by
  induction calls generalizing st with
  | nil => rfl
  | cons s rest ih =>
    show (logCalls (xmodem_log st s) rest).gLogBuffer i = _
    rw [ih, xmodem_log_beyond st s i hi]

theorem getD_append_left (l1 l2 : List Byte) (i : Nat) (h : i < l1.length) :
    (l1 ++ l2).getD i 0 = l1.getD i 0 := by
  simp [List.getD_eq_getElem?_getD, List.getElem?_append_left h]

theorem getD_append_right (l1 l2 : List Byte) (i : Nat) (h : l1.length ≤ i) :
    (l1 ++ l2).getD i 0 = l2.getD (i - l1.length) 0 := by
  simp [List.getD_eq_getElem?_getD, List.getElem?_append_right h]

theorem xmodem_log_append (st : LogState) (txt s : List Byte)
    (hinv : LogInv st txt) (hpos : st.gLogPos = txt.length)
    (hfit : ¬ txt.length + strlen s + 3 ≥ LOG_SIZE) :
    LogInv (xmodem_log st s) (txt ++ (cstr s ++ [13, 10]))
    ∧ (xmodem_log st s).gLogPos = (txt ++ (cstr s ++ [13, 10])).length := by
  obtain ⟨_, _, hbuf, _, hnz⟩ := hinv
  have hlen : (txt ++ (cstr s ++ [13, 10])).length = txt.length + strlen s + 2 := by
    simp [strlen]
    omega
  have hlog : xmodem_log st s
      = { gLogBuffer :=
            poke (poke (poke (strcpy st.gLogBuffer txt.length s)
              (txt.length + strlen s) 13) (txt.length + strlen s + 1) 10)
              (txt.length + strlen s + 2) 0,
          gLogPos := txt.length + strlen s + 2 } := by
    unfold xmodem_log
    rw [hpos, if_neg hfit]
  rw [hlog]
  refine ⟨⟨by rw [hlen]; omega, Or.inl hlen.symm, ?_, ?_, ?_⟩, hlen.symm⟩
  · intro i hi
    rw [hlen] at hi
    show poke (poke (poke (strcpy st.gLogBuffer txt.length s) _ 13) _ 10) _ 0 i = _
    rw [poke_other _ _ _ _ (by omega)]
    by_cases h1 : i = txt.length + strlen s + 1
    · rw [h1, poke_same, getD_append_right _ _ _ (by omega),
        getD_append_right _ _ _ (by unfold strlen; omega)]
      have e : txt.length + strlen s + 1 - txt.length - (cstr s).length = 1 := by
        unfold strlen
        omega
      rw [e]
      rfl
    · rw [poke_other _ _ _ _ h1]
      by_cases h2 : i = txt.length + strlen s
      · rw [h2, poke_same, getD_append_right _ _ _ (by omega),
          getD_append_right _ _ _ (by unfold strlen; omega)]
        have e : txt.length + strlen s - txt.length - (cstr s).length = 0 := by
          unfold strlen
          omega
        rw [e]
        rfl
      · rw [poke_other _ _ _ _ h2]
        unfold strcpy
        rw [poke_other _ _ _ _ h2]
        unfold memcpy
        by_cases h3 : i < txt.length
        · rw [if_neg (by omega), hbuf i h3, getD_append_left _ _ _ h3]
        · rw [if_pos ⟨by omega, by omega⟩, getD_append_right _ _ _ (by omega),
            getD_append_left _ _ _ (by unfold strlen at *; omega)]
  · rw [hlen]
    show poke _ _ 0 _ = 0
    exact poke_same _ _ _
  · intro c hc
    rcases List.mem_append.mp hc with h | h
    · exact hnz c h
    · rcases List.mem_append.mp h with h | h
      · exact cstr_ne_zero s c h
      · simp only [List.mem_cons, List.mem_singleton, List.not_mem_nil, or_false] at h
        rcases h with h | h <;> rw [h] <;> decide

theorem logText_cons (s : List Byte) (lines : List (List Byte)) :
    logText (s :: lines) = (cstr s ++ [13, 10]) ++ logText lines := by
  simp [logText]

theorem logCalls_inv (calls : List (List Byte)) (st : LogState) (txt : List Byte)
    (hinv : LogInv st txt) (hpos : st.gLogPos = txt.length) :
    LogInv (logCalls st calls) (txt ++ logText (keptLines txt.length calls)) := by
  induction calls generalizing st txt with
  | nil =>
    simpa [logCalls, keptLines, logText] using hinv
  | cons s rest ih =>
    show LogInv (logCalls (xmodem_log st s) rest) _
    by_cases hfit : txt.length + strlen s + 3 ≥ LOG_SIZE
    · have hk : keptLines txt.length (s :: rest) = [] := by
        unfold keptLines
        rw [if_pos hfit]
      rw [hk, xmodem_log_drop st s (by rw [hpos]; exact hfit),
        logCalls_latched _ rest rfl]
      obtain ⟨h1, _, h3, h4, h5⟩ := hinv
      have e : txt ++ logText [] = txt := by simp [logText]
      rw [e]
      exact ⟨h1, Or.inr rfl, h3, h4, h5⟩
    · have hk : keptLines txt.length (s :: rest)
          = s :: keptLines (txt.length + strlen s + 2) rest := by
        conv_lhs => unfold keptLines
        rw [if_neg hfit]
      obtain ⟨h1, h2⟩ := xmodem_log_append st txt s hinv hpos hfit
      have h3 := ih (xmodem_log st s) (txt ++ (cstr s ++ [13, 10])) h1 h2
      have hlen : (txt ++ (cstr s ++ [13, 10])).length = txt.length + strlen s + 2 := by
        simp [strlen]
        omega
      rw [hlen] at h3
      rw [hk, logText_cons, ← List.append_assoc]
      exact h3

theorem wireBytes_strayDump (a : SendCall) (e : Option Byte) : wireBytes (strayDump a e) = [] := by
  unfold strayDump
  split
  · rfl
  · split
    · rfl
    · split <;> rfl

theorem wireBytes_handshakeDumps (a : SendCall) (polls : List (Option Byte)) :
    wireBytes (handshakeDumps a polls) = [] := by
  induction polls with
  | nil => rfl
  | cons e polls ih =>
    show wireBytes (strayDump a e ++ handshakeDumps a polls) = []
    rw [wireBytes_append, wireBytes_strayDump, ih]
    rfl

theorem handshakeDumps_cons (a : SendCall) (e : Option Byte) (polls : List (Option Byte)) :
    handshakeDumps a (e :: polls) = strayDump a e ++ handshakeDumps a polls := rfl

theorem handshakeDumps_append (a : SendCall) (p q : List (Option Byte)) :
    handshakeDumps a (p ++ q) = handshakeDumps a p ++ handshakeDumps a q := by
  unfold handshakeDumps
  rw [List.map_append, List.flatten_append]

theorem sendStep_skip_exact (a : SendCall) (s : SendState) (tries : Nat) (e : Option Byte)
    (rest : List (Option Byte))
    (hph : s.phase = SendPhase.handshake tries) (hin : s.input = e :: rest)
    (he : e ≠ some 67 ∧ e ≠ some 0x15) (htries : tries < 30000) :
    sendStep a s
      = { input := rest, output := s.output ++ strayDump a e,
          phase := SendPhase.handshake (tries + 1) } := by
  obtain ⟨inp, out, ph⟩ := s
  simp only at hph hin
  subst hph hin
  unfold sendStep
  simp only
  unfold sendHandshakeStep strayDump
  cases e with
  | none =>
    simp [sendHandshakeAgain, htries]
  | some b =>
    have h1 : ¬ b.val = 67 := fun h => he.1 (by rw [show b = 67 from Fin.ext h])
    have h2 : ¬ b.val = XMODEM_NAK := fun h => he.2 (by rw [show b = 0x15 from Fin.ext h])
    simp only [h1, h2, if_false]
    by_cases h3 : b.val = XMODEM_BS
    · simp [h3, sendHandshakeAgain, htries]
    · by_cases h4 : a.config.logLevel ≥ 1
      · simp [h3, h4, sendHandshakeAgain, htries]
      · simp [h3, h4, sendHandshakeAgain, htries]

theorem sendStep_skip_last_exact (a : SendCall) (s : SendState) (tries : Nat) (e : Option Byte)
    (rest : List (Option Byte))
    (hph : s.phase = SendPhase.handshake tries) (hin : s.input = e :: rest)
    (he : e ≠ some 67 ∧ e ≠ some 0x15) (htries : 30000 ≤ tries) :
    sendStep a s
      = { input := rest,
          output := s.output ++ strayDump a e
            ++ List.replicate 8 (Out.putchar (toUChar XMODEM_CAN)),
          phase := SendPhase.cancelling } := by
  obtain ⟨inp, out, ph⟩ := s
  simp only at hph hin
  subst hph hin
  have hnot : ¬ tries < 30000 := by omega
  unfold sendStep
  simp only
  unfold sendHandshakeStep strayDump
  cases e with
  | none =>
    simp [sendHandshakeAgain, hnot, sendCancel]
  | some b =>
    have h1 : ¬ b.val = 67 := fun h => he.1 (by rw [show b = 67 from Fin.ext h])
    have h2 : ¬ b.val = XMODEM_NAK := fun h => he.2 (by rw [show b = 0x15 from Fin.ext h])
    simp only [h1, h2, if_false]
    by_cases h3 : b.val = XMODEM_BS
    · simp [h3, sendHandshakeAgain, hnot, sendCancel]
    · by_cases h4 : a.config.logLevel ≥ 1
      · simp [h3, h4, sendHandshakeAgain, hnot, sendCancel]
      · simp [h3, h4, sendHandshakeAgain, hnot, sendCancel]

theorem sendRun_skip_exact (a : SendCall) (skipped : List (Option Byte))
    (tail : List (Option Byte)) (s : SendState) (tries : Nat)
    (hph : s.phase = SendPhase.handshake tries) (hin : s.input = skipped ++ tail)
    (hskip : ∀ e ∈ skipped, e ≠ some 67 ∧ e ≠ some 0x15)
    (htries : tries + skipped.length ≤ 30000) :
    sendRun a skipped.length s
      = { input := tail, output := s.output ++ handshakeDumps a skipped,
          phase := SendPhase.handshake (tries + skipped.length) } := by
  induction skipped generalizing s tries with
  | nil =>
    obtain ⟨inp, out, ph⟩ := s
    simp only [List.nil_append] at hph hin
    subst hph hin
    simp [sendRun, handshakeDumps]
  | cons e skipped ih =>
    simp only [List.length_cons] at htries
    have h1 := sendStep_skip_exact a s tries e (skipped ++ tail) hph
      (by simpa using hin) (hskip e (List.mem_cons_self _ _)) (by omega)
    have h2 := ih (sendStep a s) (tries + 1) (by rw [h1]) (by rw [h1])
      (fun e he => hskip e (List.mem_cons_of_mem _ he)) (by omega)
    show sendRun a skipped.length (sendStep a s) = _
    rw [h2, h1, handshakeDumps_cons]
    simp only [List.length_cons, List.append_assoc]
    congr 2
    omega

theorem sendRun_handshake_timeout_exact (a : SendCall) (skipped rest : List (Option Byte))
    (hlen : skipped.length = 30000)
    (hskip : ∀ e ∈ skipped, e ≠ some 67 ∧ e ≠ some 0x15) :
    sendRun a 30000 (sendInit (skipped ++ rest))
      = { input := rest,
          output := handshakeDumps a skipped
            ++ List.replicate 8 (Out.putchar (toUChar XMODEM_CAN)),
          phase := SendPhase.cancelling } := by
  have hne : skipped ≠ [] := by
    intro h
    rw [h] at hlen
    cases hlen
  have hlast := List.dropLast_concat_getLast hne
  have hl : skipped.dropLast.length = 29999 := by
    rw [List.length_dropLast]
    omega
  have hinput : skipped ++ rest = skipped.dropLast ++ (skipped.getLast hne :: rest) := by
    have e1 : skipped.dropLast ++ skipped.getLast hne :: rest
        = (skipped.dropLast ++ [skipped.getLast hne]) ++ rest := by simp
    rw [e1, hlast]
  have h1 := sendRun_skip_exact a skipped.dropLast (skipped.getLast hne :: rest)
    (sendInit (skipped ++ rest)) 1 rfl hinput
    (fun e he => hskip e (List.mem_of_mem_dropLast he)) (by omega)
  rw [hl] at h1
  have h2 := sendStep_skip_last_exact a
    (sendRun a 29999 (sendInit (skipped ++ rest))) (1 + 29999) (skipped.getLast hne) rest
    (by rw [h1]) (by rw [h1]) (hskip _ (List.getLast_mem hne)) (by omega)
  have h3 : sendRun a 30000 (sendInit (skipped ++ rest))
      = sendStep a (sendRun a 29999 (sendInit (skipped ++ rest))) := sendRun_succ a 29999 _
  rw [h3, h2, h1]
  have hd : handshakeDumps a skipped
      = handshakeDumps a skipped.dropLast ++ strayDump a (skipped.getLast hne) := by
    conv_lhs => rw [← hlast]
    rw [handshakeDumps_append, handshakeDumps_cons]
    simp [handshakeDumps]
  rw [hd]
  rfl

/-- The shapes of what a step writes after a frame: nothing, EOT, or the eight
CAN bytes. -/
theorem sendRetry_output (a : SendCall) (s : SendState) (u : Bool) (block bufpos tries : Nat) :
    ∃ more, (sendRetry a s u block bufpos tries).output = s.output ++ more
      ∧ (more = [] ∨ more = [Out.putchar 0x04] ∨ more = List.replicate 8 (Out.putchar 0x18)) := by
  unfold sendRetry
  split
  · exact ⟨_, rfl, Or.inr (Or.inr rfl)⟩
  · unfold sendNext
    split
    · exact ⟨[], by simp, Or.inl rfl⟩
    · exact ⟨_, rfl, Or.inr (Or.inl rfl)⟩

theorem sendBlockStep_frame (a : SendCall) (s : SendState) (u : Bool) (block tries : Nat) :
    ∃ more, (sendBlockStep a s u block tries).output
        = s.output ++ (sendFrame a u block).map Out.putchar ++ more
      ∧ (more = [] ∨ more = [Out.putchar 0x04] ∨ more = List.replicate 8 (Out.putchar 0x18)) := by
  unfold sendBlockStep
  simp only
  split
  · exact sendRetry_output _ _ _ _ _ _
  · exact sendRetry_output _ _ _ _ _ _
  · split
    · exact sendRetry_output _ _ _ _ _ _
    · split
      · split
        · exact sendRetry_output _ _ _ _ _ _
        · exact sendRetry_output _ _ _ _ _ _
        · split
          · exact ⟨_, rfl, Or.inr (Or.inr rfl)⟩
          · exact sendRetry_output _ _ _ _ _ _
      · exact sendRetry_output _ _ _ _ _ _

theorem sendStep_frame (a : SendCall) (s : SendState) (u : Bool) (block bufpos tries : Nat)
    (hph : s.phase = SendPhase.sending u block bufpos tries) :
    ∃ more, (sendStep a s).output
        = s.output
          ++ ([0x01, toChar block, toChar (255 - block % 256)]
                ++ paddedChunk a.inputBuffer a.bufferSize (block * XMODEM_BLOCKSIZE)
                ++ trailerOf u (paddedChunk a.inputBuffer a.bufferSize (block * XMODEM_BLOCKSIZE))).map
              Out.putchar
          ++ more
      ∧ (more = [] ∨ more = [Out.putchar 0x04] ∨ more = List.replicate 8 (Out.putchar 0x18)) := by
  have hblock : sendStep a s = sendBlockStep a s u block tries := by
    unfold sendStep
    rw [hph]
  obtain ⟨more, hmore, hshape⟩ := sendBlockStep_frame a s u block tries
  rw [hblock, hmore, sendFrame_eq]
  exact ⟨more, rfl, hshape⟩

theorem sendEotAgain_output (s : SendState) (tries : Nat) :
    ∃ ctl, (sendEotAgain s tries).output = s.output ++ ctl ∧ wireBytes ctl = [] := by
  unfold sendEotAgain
  split
  · exact ⟨[], by simp, rfl⟩
  · exact ⟨_, rfl, rfl⟩

theorem sendHandshakeAgain_output (s : SendState) (tries : Nat) :
    ∃ ctl, (sendHandshakeAgain s tries).output = s.output ++ ctl
      ∧ ∀ b ∈ wireBytes ctl, b = 0x04 ∨ b = 0x18 := by
  unfold sendHandshakeAgain
  split
  · exact ⟨[], by simp, by simp [wireBytes]⟩
  · refine ⟨_, rfl, ?_⟩
    intro b hb
    right
    have : wireBytes (List.replicate 8 (Out.putchar (toUChar XMODEM_CAN)))
        = List.replicate 8 0x18 := rfl
    rw [this] at hb
    exact List.eq_of_mem_replicate hb

/-- Outside the loop that sends the blocks, a step writes no other byte than
EOT and CAN: a frame is written only by a step of that loop. -/
theorem sendStep_control (a : SendCall) (s : SendState)
    (hph : ∀ u block bufpos tries, s.phase ≠ SendPhase.sending u block bufpos tries) :
    ∃ ctl, (sendStep a s).output = s.output ++ ctl
      ∧ ∀ b ∈ wireBytes ctl, b = 0x04 ∨ b = 0x18 := by
  have happ : ∀ (s1 : SendState) (pre ctl : List Out),
      s1.output = s.output ++ pre → (∀ b ∈ wireBytes pre, b = 0x04 ∨ b = 0x18) →
      ∀ s2 : SendState, (∃ c2, s2.output = s1.output ++ c2
          ∧ ∀ b ∈ wireBytes c2, b = 0x04 ∨ b = 0x18) →
      ∃ ctl, s2.output = s.output ++ ctl ∧ ∀ b ∈ wireBytes ctl, b = 0x04 ∨ b = 0x18 := by
    intro s1 pre _ h1 hpre s2 ⟨c2, h2, hc2⟩
    refine ⟨pre ++ c2, by rw [h2, h1, List.append_assoc], ?_⟩
    intro b hb
    rw [wireBytes_append, List.mem_append] at hb
    rcases hb with hb | hb
    · exact hpre b hb
    · exact hc2 b hb
  have heot : ∀ (s1 : SendState) (tries : Nat), ∃ c2, (sendEotAgain s1 tries).output = s1.output ++ c2
      ∧ ∀ b ∈ wireBytes c2, b = 0x04 ∨ b = 0x18 := by
    intro s1 tries
    obtain ⟨c, h1, h2⟩ := sendEotAgain_output s1 tries
    exact ⟨c, h1, by rw [h2]; simp⟩
  have hfin : ∀ (s1 : SendState) (r : Bool), ∃ c2, (sendFinish s1 r).output = s1.output ++ c2
      ∧ ∀ b ∈ wireBytes c2, b = 0x04 ∨ b = 0x18 :=
    fun s1 r => ⟨_, rfl, by simp [wireBytes]⟩
  have hnone : ∀ b ∈ wireBytes ([] : List Out), b = 0x04 ∨ b = (0x18 : Byte) := by simp [wireBytes]
  have hdump : ∀ b ∈ wireBytes [Out.dumplog], b = 0x04 ∨ b = (0x18 : Byte) := by simp [wireBytes]
  have hEot : ∀ b ∈ wireBytes [Out.putchar (toUChar XMODEM_EOT)], b = 0x04 ∨ b = (0x18 : Byte) := by
    intro b hb
    left
    simpa [wireBytes] using hb
  unfold sendStep
  split
  · unfold sendHandshakeStep
    split
    · exact sendHandshakeAgain_output _ _
    · exact happ _ [] [] (by simp) hnone _ (sendHandshakeAgain_output _ _)
    · split
      · unfold sendNext
        split
        · exact ⟨[], by simp, hnone⟩
        · exact ⟨_, rfl, hEot⟩
      · split
        · unfold sendNext
          split
          · exact ⟨[], by simp, hnone⟩
          · exact ⟨_, rfl, hEot⟩
        · split
          · exact happ _ [] [] (by simp) hnone _ (sendHandshakeAgain_output _ _)
          · split
            · exact happ _ [Out.dumplog] [] rfl hdump _ (sendHandshakeAgain_output _ _)
            · exact happ _ [] [] (by simp) hnone _ (sendHandshakeAgain_output _ _)
  · rename_i u block bufpos tries h
    exact absurd h (hph u block bufpos tries)
  · unfold sendEotStep
    split
    · exact heot _ _
    · exact happ _ [] [] (by simp) hnone _ (heot _ _)
    · split
      · exact hfin _ _
      · split
        · split
          · exact happ _ [Out.putchar (toUChar XMODEM_EOT)] [] rfl hEot _ (heot _ _)
          · exact happ _ [Out.putchar (toUChar XMODEM_EOT)] [] rfl hEot _ (heot _ _)
          · split
            · exact hfin _ _
            · exact happ _ [Out.putchar (toUChar XMODEM_EOT)] [] rfl hEot _ (heot _ _)
        · exact happ _ [Out.putchar (toUChar XMODEM_EOT)] [] rfl hEot _ (heot _ _)
  · unfold sendCancelStep
    split
    · exact hfin _ _
    · exact hfin _ _
    · exact ⟨[], by simp, hnone⟩
  · exact ⟨[], by simp, hnone⟩

theorem sendStep_cancelled (a : SendCall) (s : SendState)
    (h : s.phase = SendPhase.cancelling ∨ ∃ r, s.phase = SendPhase.returned r) :
    ((sendStep a s).phase = SendPhase.cancelling ∨ ∃ r, (sendStep a s).phase = SendPhase.returned r)
    ∧ wireBytes (sendStep a s).output = wireBytes s.output := by
  obtain ⟨inp, out, ph⟩ := s
  simp only at h
  rcases h with h | ⟨r, h⟩
  · subst h
    unfold sendStep
    simp only
    unfold sendCancelStep
    match inp with
    | [] => exact ⟨Or.inr ⟨_, rfl⟩, by simp [sendFinish, wireBytes_append, wireBytes]⟩
    | none :: rest => exact ⟨Or.inr ⟨_, rfl⟩, by simp [sendFinish, wireBytes_append, wireBytes]⟩
    | some b :: rest => exact ⟨Or.inl rfl, rfl⟩
  · subst h
    exact ⟨Or.inr ⟨r, rfl⟩, rfl⟩

theorem sendRun_cancelled (a : SendCall) (n : Nat) (s : SendState)
    (h : s.phase = SendPhase.cancelling ∨ ∃ r, s.phase = SendPhase.returned r) :
    ((sendRun a n s).phase = SendPhase.cancelling ∨ ∃ r, (sendRun a n s).phase = SendPhase.returned r)
    ∧ wireBytes (sendRun a n s).output = wireBytes s.output := by
  induction n generalizing s with
  | zero => exact ⟨h, rfl⟩
  | succ n ih =>
    obtain ⟨h1, h2⟩ := sendStep_cancelled a s h
    obtain ⟨h3, h4⟩ := ih (sendStep a s) h1
    exact ⟨h3, h4.trans h2⟩

theorem paddedChunk_getD (mem : Nat → Byte) (length start i : Nat) (hi : i < 128) :
    (paddedChunk mem length start).getD i 0
      = if start + i < length then mem (start + i) else 0x1A := by
  unfold paddedChunk XMODEM_BLOCKSIZE
  rw [List.getD_eq_getElem?_getD, List.getElem?_map, List.getElem?_range hi]
  rfl

theorem checksum8_lt (p : List Byte) : checksum8 p < 256 := Nat.mod_lt _ (by decide)

theorem recvStep_sum_decision (a : RecvCall) (s : RecvState) (t cks : Nat) (esc : Bool)
    (buf : List Byte) (hinv : RecvInv a s) (hmode : a.config.useCrc = false)
    (hphase : s.phase = RecvPhase.reading t cks esc buf)
    (hlen : buf.length = 131)
    (hblock : (buf.getD 0 0).val = s.packetNumber % 256)
    (hcompl : (buf.getD 1 0).val = 255 - (buf.getD 0 0).val) :
    (recvStep a s).output
      = s.output
        ++ [Out.putchar
              (if (buf.getD 130 0).val = checksum8 (framePayload buf) then 0x06 else 0x15)] := by
  have hlen2 : buf.length = frameLength a.config.useCrc := by
    rw [hmode, hlen]
    rfl
  have htr : frameTrailer buf = [buf.getD 130 0] := drop_last_one buf 130 hlen
  have htof : trailerOf a.config.useCrc (framePayload buf)
      = [toChar (checksum8 (framePayload buf))] := by
    rw [hmode]
    rfl
  by_cases h : (buf.getD 130 0).val = checksum8 (framePayload buf)
  · rw [if_pos h, recvStep_accept a s t cks esc buf hinv hphase hlen2 hblock hcompl
      (by
        rw [htr, htof]
        refine congrArg (fun b : Byte => [b]) (Fin.ext ?_)
        rw [h, toChar_val, Nat.mod_eq_of_lt (checksum8_lt _)])]
    rfl
  · rw [if_neg h, recvStep_reject a s t cks esc buf hinv hphase hlen2
      (Or.inr (Or.inr (by
        rw [htr, htof]
        intro e
        apply h
        have e2 : buf.getD 130 0 = toChar (checksum8 (framePayload buf)) := by
          injection e
        rw [e2, toChar_val, Nat.mod_eq_of_lt (checksum8_lt _)])))]
    rfl

theorem sendRun_handshake_prefix (a : SendCall) (skipped tail : List (Option Byte)) (k : Nat)
    (hskip : ∀ e ∈ skipped, e ≠ some 67 ∧ e ≠ some 0x15)
    (hk : k ≤ skipped.length) (hk2 : k < 30000) :
    sendRun a k (sendInit (skipped ++ tail))
      = { input := skipped.drop k ++ tail, output := handshakeDumps a (skipped.take k),
          phase := SendPhase.handshake (1 + k) } := by
  have h := sendRun_skip_exact a (skipped.take k) (skipped.drop k ++ tail)
    (sendInit (skipped ++ tail)) 1 rfl
    (by
      show skipped ++ tail = _
      rw [← List.append_assoc (skipped.take k), List.take_append_drop])
    (fun e he => hskip e (List.mem_of_mem_take he))
    (by rw [List.length_take]; omega)
  rw [List.length_take, Nat.min_eq_left hk] at h
  rw [h]
  simp [sendInit]

theorem sendRun_handshake_expired (a : SendCall) (skipped tail : List (Option Byte)) (m : Nat)
    (hskip : ∀ e ∈ skipped, e ≠ some 67 ∧ e ≠ some 0x15)
    (hlen : 30000 ≤ skipped.length) (hm : 30000 ≤ m) :
    ((sendRun a m (sendInit (skipped ++ tail))).phase = SendPhase.cancelling
      ∨ ∃ r, (sendRun a m (sendInit (skipped ++ tail))).phase = SendPhase.returned r)
    ∧ wireBytes (sendRun a m (sendInit (skipped ++ tail))).output = List.replicate 8 0x18
    ∧ (sendRun a 30000 (sendInit (skipped ++ tail))).phase = SendPhase.cancelling := by
  have h0 := sendRun_handshake_timeout_exact a (skipped.take 30000)
    (skipped.drop 30000 ++ tail)
    (by rw [List.length_take]; omega)
    (fun e he => hskip e (List.mem_of_mem_take he))
  rw [← List.append_assoc, List.take_append_drop] at h0
  obtain ⟨j, rfl⟩ : ∃ j, m = 30000 + j := ⟨m - 30000, by omega⟩
  obtain ⟨h1, h2⟩ := sendRun_cancelled a j (sendRun a 30000 (sendInit (skipped ++ tail)))
    (Or.inl (by rw [h0]))
  rw [sendRun_add]
  refine ⟨h1, ?_, by rw [h0]⟩
  rw [h2, h0]
  show wireBytes (handshakeDumps a _ ++ _) = _
  rw [wireBytes_append, wireBytes_handshakeDumps]
  rfl

/-! ## The claims -/

set_option maxRecDepth 100000


/-- C2.  Frame rejection.  At every point of every run of `xmodem_receive` where
a frame is being read (any `sizeReceived`, `packetNumber`, input and clock): if
the deadline has passed before the frame is complete, or the frame is complete
and its block byte differs from `packetNumber mod 256`, or its complement byte
differs from 255 minus the block byte, or its trailer differs from the integrity
value of its 128 payload bytes, then the next step writes exactly one NAK,
leaves the output buffer, `sizeReceived` and `packetNumber` as they were, and
goes back to waiting for a frame. -/
theorem recv_frame_rejected (a : RecvCall) (mem : Nat → Byte) (input : List (Option Byte))
    (fuel t cks : Nat) (esc : Bool) (buf : List Byte)
    (hphase : (xmodem_receive a mem input fuel).phase = RecvPhase.reading t cks esc buf)
    (hbad : (buf.length < frameLength a.config.useCrc
              ∧ t < a.clock (xmodem_receive a mem input fuel).ticks)
          ∨ (buf.length = frameLength a.config.useCrc
              ∧ ((buf.getD 0 0).val ≠ (xmodem_receive a mem input fuel).packetNumber % 256
                 ∨ (buf.getD 1 0).val ≠ 255 - (buf.getD 0 0).val
                 ∨ frameTrailer buf ≠ trailerOf a.config.useCrc (framePayload buf)))) :
    (xmodem_receive a mem input (fuel + 1)).output
        = (xmodem_receive a mem input fuel).output ++ [Out.putchar 0x15]
    ∧ (xmodem_receive a mem input (fuel + 1)).outputBuffer
        = (xmodem_receive a mem input fuel).outputBuffer
    ∧ (xmodem_receive a mem input (fuel + 1)).sizeReceived
        = (xmodem_receive a mem input fuel).sizeReceived
    ∧ (xmodem_receive a mem input (fuel + 1)).packetNumber
        = (xmodem_receive a mem input fuel).packetNumber
    ∧ ∃ t', (xmodem_receive a mem input (fuel + 1)).phase = RecvPhase.waiting t' := by
  have hinv := xmodem_receive_inv a mem input fuel
  have hstep : xmodem_receive a mem input (fuel + 1)
      = recvStep a (xmodem_receive a mem input fuel) := recvRun_succ a fuel _
  rw [hstep]
  generalize xmodem_receive a mem input fuel = s at hphase hbad hinv ⊢
  obtain ⟨_, _, _, h4⟩ := hinv
  rw [hphase] at h4
  obtain ⟨_, _, hcks, _⟩ := h4
  have hnak : ∀ s1 : RecvState, ∀ timeout : Bool, recvRejects a s1.packetNumber timeout cks buf = true →
      recvValidate a s1 timeout cks buf
        = { s1 with output := s1.output ++ [Out.putchar (toUChar XMODEM_NAK)],
                    ticks := s1.ticks + 1,
                    phase := RecvPhase.waiting (a.clock s1.ticks) } := by
    intro s1 timeout h
    unfold recvValidate
    rw [if_pos h]
  unfold recvStep
  rw [hphase]
  simp only
  unfold recvReadStep
  rcases hbad with ⟨hlt, hclk⟩ | ⟨hlen, hchk⟩
  · rw [if_pos hlt]
    simp only [gt_iff_lt, hclk, if_true]
    rw [hnak _ true (by simp [recvRejects])]
    exact ⟨rfl, rfl, rfl, rfl, _, rfl⟩
  · rw [if_neg (by omega)]
    have hrej : recvRejects a s.packetNumber false cks buf = true := by
      rw [hcks]
      apply (recvRejects_iff a s.packetNumber buf hlen).mpr
      rcases hchk with h | h | h
      · left
        intro e
        apply h
        rw [e, toChar_val]
      · exact Or.inr (Or.inl h)
      · exact Or.inr (Or.inr h)
    rw [hnak _ false hrej]
    exact ⟨rfl, rfl, rfl, rfl, _, rfl⟩


/-- Witness of C2: a checksum-mode frame of 128 zero bytes with trailer 1 is answered by NAK. -/
theorem recv_frame_rejected_witness :
    (xmodem_receive wRecvSum (fun _ => 0) wBadFrame 132).phase
        = RecvPhase.reading 1000000 0 false ([1, 254] ++ List.replicate 128 0 ++ [1])
    ∧ frameTrailer ([1, 254] ++ List.replicate 128 0 ++ [1])
        ≠ trailerOf false (framePayload ([1, 254] ++ List.replicate 128 0 ++ [1]))
    ∧ (xmodem_receive wRecvSum (fun _ => 0) wBadFrame 133).output
        = (xmodem_receive wRecvSum (fun _ => 0) wBadFrame 132).output ++ [Out.putchar 0x15]
    ∧ (xmodem_receive wRecvSum (fun _ => 0) wBadFrame 133).sizeReceived
        = (xmodem_receive wRecvSum (fun _ => 0) wBadFrame 132).sizeReceived :=
  have h := recv_frame_rejected wRecvSum (fun _ => 0) wBadFrame 132 1000000 0 false
    ([1, 254] ++ List.replicate 128 0 ++ [1]) (by decide)
    (Or.inr ⟨by decide, Or.inr (Or.inr (by decide))⟩)
  ⟨by decide, by decide, h.1, h.2.2.1⟩

/-- C3.  Frame acceptance.  At every point of every run of `xmodem_receive` where
a complete frame has been read before the deadline, with the block byte equal to
`packetNumber mod 256`, the complement byte equal to 255 minus the block byte
and the trailer equal to the integrity value of the 128 payload bytes: there is
room for 128 more bytes, and the next step writes ACK, stores the 128 payload
bytes at offsets `sizeReceived .. sizeReceived + 127`, leaves every other byte
of the output buffer unchanged, adds 128 to `sizeReceived` and 1 to
`packetNumber`. -/
theorem recv_frame_accepted (a : RecvCall) (mem : Nat → Byte) (input : List (Option Byte))
    (fuel t cks : Nat) (esc : Bool) (buf : List Byte)
    (hphase : (xmodem_receive a mem input fuel).phase = RecvPhase.reading t cks esc buf)
    (hlen : buf.length = frameLength a.config.useCrc)
    (hblock : (buf.getD 0 0).val = (xmodem_receive a mem input fuel).packetNumber % 256)
    (hcompl : (buf.getD 1 0).val = 255 - (buf.getD 0 0).val)
    (htrailer : frameTrailer buf = trailerOf a.config.useCrc (framePayload buf)) :
    (xmodem_receive a mem input fuel).sizeReceived + 128 ≤ a.bufferSize
    ∧ (xmodem_receive a mem input (fuel + 1)).output
        = (xmodem_receive a mem input fuel).output ++ [Out.putchar 0x06]
    ∧ (∀ i, i < 128 →
        (xmodem_receive a mem input (fuel + 1)).outputBuffer
            ((xmodem_receive a mem input fuel).sizeReceived + i)
          = (framePayload buf).getD i 0)
    ∧ (∀ j, (j < (xmodem_receive a mem input fuel).sizeReceived
              ∨ (xmodem_receive a mem input fuel).sizeReceived + 128 ≤ j) →
        (xmodem_receive a mem input (fuel + 1)).outputBuffer j
          = (xmodem_receive a mem input fuel).outputBuffer j)
    ∧ (xmodem_receive a mem input (fuel + 1)).sizeReceived
        = (xmodem_receive a mem input fuel).sizeReceived + 128
    ∧ (xmodem_receive a mem input (fuel + 1)).packetNumber
        = (xmodem_receive a mem input fuel).packetNumber + 1
    ∧ ∃ t', (xmodem_receive a mem input (fuel + 1)).phase = RecvPhase.waiting t' := by
  have hinv := xmodem_receive_inv a mem input fuel
  have hstep : xmodem_receive a mem input (fuel + 1)
      = recvStep a (xmodem_receive a mem input fuel) := recvRun_succ a fuel _
  rw [hstep]
  generalize xmodem_receive a mem input fuel = s at hphase hblock hinv ⊢
  obtain ⟨_, _, _, h4⟩ := hinv
  rw [hphase] at h4
  obtain ⟨hroom, _, hcks, _⟩ := h4
  have hrej : recvRejects a s.packetNumber false cks buf = false := by
    rw [hcks]
    apply Bool.eq_false_iff.mpr
    intro h
    rcases (recvRejects_iff a s.packetNumber buf hlen).mp h with h | h | h
    · apply h
      apply Fin.ext
      rw [hblock, toChar_val]
    · exact h hcompl
    · exact h htrailer
  have hval : recvStep a s
      = { s with output := s.output ++ [Out.putchar (toUChar XMODEM_ACK)],
                 outputBuffer := memcpy s.outputBuffer s.sizeReceived (buf.drop 2) XMODEM_BLOCKSIZE,
                 sizeReceived := s.sizeReceived + XMODEM_BLOCKSIZE,
                 packetNumber := s.packetNumber + 1,
                 ticks := s.ticks + 1,
                 phase := RecvPhase.waiting (a.clock s.ticks) } := by
    unfold recvStep
    rw [hphase]
    simp only
    unfold recvReadStep
    rw [if_neg (by omega)]
    unfold recvValidate
    rw [hrej]
    simp
  rw [hval]
  refine ⟨hroom, rfl, ?_, ?_, rfl, rfl, _, rfl⟩
  · intro i hi
    show memcpy s.outputBuffer s.sizeReceived (buf.drop 2) XMODEM_BLOCKSIZE (s.sizeReceived + i) = _
    unfold memcpy framePayload XMODEM_BLOCKSIZE
    rw [if_pos ⟨by omega, by omega⟩, getD_take_lt _ _ _ hi]
    congr 1
    omega
  · intro j hj
    show memcpy s.outputBuffer s.sizeReceived (buf.drop 2) XMODEM_BLOCKSIZE j = _
    unfold memcpy XMODEM_BLOCKSIZE
    rw [if_neg (by omega)]

/-- Witness of C3: a checksum-mode frame of 128 zero bytes with trailer 0 is accepted. -/
theorem recv_frame_accepted_witness :
    (xmodem_receive wRecvSum (fun _ => 0) wGoodFrame 132).phase
        = RecvPhase.reading 1000000 0 false ([1, 254] ++ List.replicate 128 0 ++ [0])
    ∧ (xmodem_receive wRecvSum (fun _ => 0) wGoodFrame 133).output
        = (xmodem_receive wRecvSum (fun _ => 0) wGoodFrame 132).output ++ [Out.putchar 0x06]
    ∧ (xmodem_receive wRecvSum (fun _ => 0) wGoodFrame 133).sizeReceived
        = (xmodem_receive wRecvSum (fun _ => 0) wGoodFrame 132).sizeReceived + 128 :=
  have h := recv_frame_accepted wRecvSum (fun _ => 0) wGoodFrame 132 1000000 0 false
    ([1, 254] ++ List.replicate 128 0 ++ [0]) (by decide) (by decide) (by decide) (by decide)
    (by decide)
  ⟨by decide, h.2.1, h.2.2.2.2.1⟩

/-- C4.  Capacity guard.  For every capacity, input and clock: at every point of
the run `sizeReceived` is at most the capacity and every byte of the output
buffer at an offset from `sizeReceived` on (so every offset from the capacity
on) still has its initial value; and when an SOH arrives while
`sizeReceived + 128` exceeds the capacity, the receiver writes exactly eight CAN
bytes, reads the input up to and including the first read that times out,
leaves the output buffer as it was and returns -1. -/
theorem recv_capacity_guard (a : RecvCall) (mem : Nat → Byte) (input : List (Option Byte))
    (fuel : Nat) :
    ((xmodem_receive a mem input fuel).sizeReceived ≤ a.bufferSize
      ∧ ∀ i, (xmodem_receive a mem input fuel).sizeReceived ≤ i →
          (xmodem_receive a mem input fuel).outputBuffer i = mem i)
    ∧ ∀ (t : Nat) (residue : List Byte) (tail : List (Option Byte)),
        (xmodem_receive a mem input fuel).phase = RecvPhase.waiting t →
        (xmodem_receive a mem input fuel).input = some 1 :: (residue.map some ++ tail) →
        (∀ b, tail.head? ≠ some (some b)) →
        a.bufferSize < (xmodem_receive a mem input fuel).sizeReceived + 128 →
        (xmodem_receive a mem input (fuel + (1 + (residue.length + 1)))).output
            = (recvSolicit a (xmodem_receive a mem input fuel) t).1.output
                ++ List.replicate 8 (Out.putchar 0x18) ++ [Out.puts [], Out.dumplog]
        ∧ (xmodem_receive a mem input (fuel + (1 + (residue.length + 1)))).input = tail.tail
        ∧ (xmodem_receive a mem input (fuel + (1 + (residue.length + 1)))).outputBuffer
            = (xmodem_receive a mem input fuel).outputBuffer
        ∧ (xmodem_receive a mem input (fuel + (1 + (residue.length + 1)))).returnValue
            = some (-1) := by
  refine ⟨⟨(xmodem_receive_inv a mem input fuel).1, ?_⟩, ?_⟩
  · intro i hi
    exact (recvRun_buffer a fuel (recvInit a mem input)).2 i (Or.inr hi)
  · intro t residue tail hph hin hquiet hfull
    have hrun : xmodem_receive a mem input (fuel + (1 + (residue.length + 1)))
        = recvRun a (residue.length + 1) (recvStep a (xmodem_receive a mem input fuel)) := by
      unfold xmodem_receive
      rw [recvRun_add, recvRun_add]
      rfl
    rw [hrun]
    generalize xmodem_receive a mem input fuel = s at hph hin hfull ⊢
    rw [recvStep_soh_full a s t _ hph hin hfull]
    rw [recvRun_drain a residue tail _ rfl rfl hquiet]
    obtain ⟨_, _, e3, _, _⟩ := recvSolicit_fields a s t
    exact ⟨by simp [recvFinish]; rfl, rfl, e3, rfl⟩

/-- Witness of C4: capacity 200; block 1 is stored, the SOH of block 2 makes the
receiver write eight CAN bytes, drain and return -1, and bytes 128..199 keep
their value. -/
theorem recv_capacity_guard_witness :
    (xmodem_receive wRecvSum200 (fun _ => 0xEE) wTwoBlocks 133).phase = RecvPhase.waiting 0
    ∧ (xmodem_receive wRecvSum200 (fun _ => 0xEE) wTwoBlocks 133).sizeReceived = 128
    ∧ wireBytes (xmodem_receive wRecvSum200 (fun _ => 0xEE) wTwoBlocks 137).output
        = [0x06] ++ List.replicate 8 0x18
    ∧ (xmodem_receive wRecvSum200 (fun _ => 0xEE) wTwoBlocks 137).input = [some 7]
    ∧ (xmodem_receive wRecvSum200 (fun _ => 0xEE) wTwoBlocks 137).returnValue = some (-1)
    ∧ (∀ i, 128 ≤ i →
        (xmodem_receive wRecvSum200 (fun _ => 0xEE) wTwoBlocks 137).outputBuffer i = 0xEE) :=
  have h := recv_capacity_guard wRecvSum200 (fun _ => 0xEE) wTwoBlocks 133
  have hsz : (xmodem_receive wRecvSum200 (fun _ => 0xEE) wTwoBlocks 133).sizeReceived = 128 := by
    decide
  have h2 := h.2 0 [2, 253] [none, some 7] (by decide) (by decide) (by decide) (by decide)
  ⟨by decide, hsz, (congrArg wireBytes h2.1).trans (by decide), h2.2.1, h2.2.2.2,
    fun i hi => (congrFun h2.2.2.1 i).trans (h.1.2 i (by rw [hsz]; exact hi))⟩

/-- C5.  Termination results.  At every point of every run of `xmodem_receive`
where it waits for a frame and the next read returns a byte `b`: if `b` is EOT
it writes ACK and returns 128 times the number of frames accepted so far (the
number of ACK bytes written so far); if `b` is CAN it writes ACK and returns -1;
if `b` is none of SOH, EOT, CAN and the callback is given and returns true on
`b`, it returns 0 and writes nothing after reading `b`. -/
theorem recv_termination (a : RecvCall) (mem : Nat → Byte) (input : List (Option Byte))
    (fuel t : Nat) (b : Byte) (rest : List (Option Byte))
    (hphase : (xmodem_receive a mem input fuel).phase = RecvPhase.waiting t)
    (hin : (xmodem_receive a mem input fuel).input = some b :: rest) :
    (b.val = 4 →
      (xmodem_receive a mem input (fuel + 1)).output
          = (recvSolicit a (xmodem_receive a mem input fuel) t).1.output
              ++ [Out.putchar 0x06, Out.puts [], Out.dumplog]
      ∧ (xmodem_receive a mem input (fuel + 1)).returnValue
          = some ((128 * ackCount (xmodem_receive a mem input fuel).output : Nat) : Int))
    ∧ (b.val = 0x18 →
      (xmodem_receive a mem input (fuel + 1)).output
          = (recvSolicit a (xmodem_receive a mem input fuel) t).1.output
              ++ [Out.putchar 0x06, Out.puts [], Out.dumplog]
      ∧ (xmodem_receive a mem input (fuel + 1)).returnValue = some (-1))
    ∧ (∀ handler, a.inputhandler = some handler →
        b.val ≠ 1 → b.val ≠ 4 → b.val ≠ 0x18 → handler b.val = true →
      (xmodem_receive a mem input (fuel + 1)).output
          = (recvSolicit a (xmodem_receive a mem input fuel) t).1.output
      ∧ (xmodem_receive a mem input (fuel + 1)).returnValue = some 0) := by
  have hinv := xmodem_receive_inv a mem input fuel
  have hack := xmodem_receive_ack a mem input fuel
  have hstep : xmodem_receive a mem input (fuel + 1)
      = recvStep a (xmodem_receive a mem input fuel) := recvRun_succ a fuel _
  rw [hstep]
  generalize xmodem_receive a mem input fuel = s at hphase hin hinv hack ⊢
  obtain ⟨_, hpn, hsize, _⟩ := hinv
  have hcount : s.sizeReceived = 128 * ackCount s.output := by
    have h := hack (by simp [RecvState.returnValue, hphase])
    unfold XMODEM_BLOCKSIZE at hsize
    omega
  obtain ⟨e1, _, _, e4, _⟩ := recvSolicit_fields a s t
  have hwait : recvStep a s = recvWaitStep a s t := by
    unfold recvStep
    rw [hphase]
  rw [hwait]
  unfold recvWaitStep
  simp only
  rw [e4, hin]
  simp only [e1]
  refine ⟨?_, ?_, ?_⟩
  · intro hb
    have h1 : (b.val = XMODEM_EOT) = True := by simp [XMODEM_EOT, hb]
    simp only [h1, if_true]
    refine ⟨by simp [recvFinish]; rfl, ?_⟩
    simp [recvFinish, RecvState.returnValue, hcount]
  · intro hb
    have h1 : (b.val = XMODEM_EOT) = False := by simp [XMODEM_EOT, hb]
    have h2 : (b.val = XMODEM_CAN) = True := by simp [XMODEM_CAN, hb]
    simp only [h1, h2, if_true, if_false]
    exact ⟨by simp [recvFinish]; rfl, rfl⟩
  · intro handler hh b1 b4 b18 hret
    have h1 : (b.val = XMODEM_EOT) = False := by simp [XMODEM_EOT, b4]
    have h2 : (b.val = XMODEM_CAN) = False := by simp [XMODEM_CAN, b18]
    have h3 : (b.val = XMODEM_SOH) = False := by simp [XMODEM_SOH, b1]
    simp only [h1, h2, h3, if_false, hh, hret, if_true]
    simp [RecvState.returnValue]

/-- Witness of C5: one accepted frame followed by EOT; the receiver returns 128. -/
theorem recv_termination_witness :
    (xmodem_receive wRecvSum (fun _ => 0) wFrameThenEot 133).phase = RecvPhase.waiting 0
    ∧ (xmodem_receive wRecvSum (fun _ => 0) wFrameThenEot 133).input = [some 4]
    ∧ wireBytes (xmodem_receive wRecvSum (fun _ => 0) wFrameThenEot 134).output = [0x06, 0x06]
    ∧ (xmodem_receive wRecvSum (fun _ => 0) wFrameThenEot 134).returnValue = some 128 :=
  have h := (recv_termination wRecvSum (fun _ => 0) wFrameThenEot 133 0 4 []
    (by decide) (by decide)).1 (by decide)
  ⟨by decide, by decide, (congrArg wireBytes h.1).trans (by decide), h.2.trans (by decide)⟩

/-- C7.  Sender frame format.  At every point of every run of `xmodem_send`
(every buffer content, either signedness of `char`, every input): when the
sender is in its block loop, about to send block `n` in the mode `useCrc`, its
next step writes, after what it had written, exactly SOH, the byte `n mod 256`,
the byte `255 - n mod 256`, 128 payload bytes and the integrity value of those
128 bytes (one byte of sum modulo 256, or the two CRC-16 bytes, high then low),
followed by nothing, by EOT or by the eight CAN bytes; the payload byte `i` is
the buffer byte at offset `n * 128 + i`, or SUB from the end of the buffer on;
and a receiver in the same mode with escape off that is waiting for block `n`
(modulo 256), has room for 128 bytes and meets no deadline, answers these bytes
with ACK and stores the 128 payload bytes.  When the sender is not in its block
loop, a step writes no byte other than EOT and CAN, so every frame is written
this way. -/
theorem send_frame_format (sa : SendCall) (input : List (Option Byte)) (m : Nat) :
    (∀ (useCrc : Bool) (n bufpos tries : Nat),
        (xmodem_send sa input m).phase = SendPhase.sending useCrc n bufpos tries →
        ∃ payload : List Byte, payload.length = 128
          ∧ (∀ i, i < 128 →
              payload.getD i 0
                = if n * 128 + i < sa.bufferSize then sa.inputBuffer (n * 128 + i) else 0x1A)
          ∧ (∃ more, (xmodem_send sa input (m + 1)).output
                = (xmodem_send sa input m).output
                  ++ ([0x01, toChar n, toChar (255 - n % 256)] ++ payload
                        ++ trailerOf useCrc payload).map Out.putchar
                  ++ more
              ∧ (more = [] ∨ more = [Out.putchar 0x04]
                  ∨ more = List.replicate 8 (Out.putchar 0x18)))
          ∧ ∀ (ra : RecvCall) (mem : Nat → Byte) (rin : List (Option Byte)) (fuel t : Nat)
              (rest : List (Option Byte)),
              ra.config.useCrc = useCrc → ra.config.useEscape = false →
              (xmodem_receive ra mem rin fuel).phase = RecvPhase.waiting t →
              (xmodem_receive ra mem rin fuel).input
                = ([0x01, toChar n, toChar (255 - n % 256)] ++ payload
                    ++ trailerOf useCrc payload).map some ++ rest →
              (xmodem_receive ra mem rin fuel).packetNumber % 256 = n % 256 →
              (xmodem_receive ra mem rin fuel).sizeReceived + 128 ≤ ra.bufferSize →
              (∀ j k, ra.clock k ≤ ra.clock j + 1000000) →
              (xmodem_receive ra mem rin (fuel + (1 + (frameLength useCrc + 1)))).output
                  = (recvSolicit ra (xmodem_receive ra mem rin fuel) t).1.output
                      ++ [Out.putchar 0x06]
              ∧ (xmodem_receive ra mem rin (fuel + (1 + (frameLength useCrc + 1)))).input = rest
              ∧ (∀ i, i < 128 →
                  (xmodem_receive ra mem rin (fuel + (1 + (frameLength useCrc + 1)))).outputBuffer
                      ((xmodem_receive ra mem rin fuel).sizeReceived + i)
                    = payload.getD i 0)
              ∧ (xmodem_receive ra mem rin (fuel + (1 + (frameLength useCrc + 1)))).sizeReceived
                  = (xmodem_receive ra mem rin fuel).sizeReceived + 128
              ∧ (xmodem_receive ra mem rin (fuel + (1 + (frameLength useCrc + 1)))).packetNumber
                  = (xmodem_receive ra mem rin fuel).packetNumber + 1)
    ∧ ((∀ (useCrc : Bool) (n bufpos tries : Nat),
          (xmodem_send sa input m).phase ≠ SendPhase.sending useCrc n bufpos tries) →
        ∃ ctl, (xmodem_send sa input (m + 1)).output = (xmodem_send sa input m).output ++ ctl
          ∧ ∀ b ∈ wireBytes ctl, b = 0x04 ∨ b = 0x18) := by
  have hstep : xmodem_send sa input (m + 1) = sendStep sa (xmodem_send sa input m) :=
    sendRun_succ sa m _
  constructor
  · intro useCrc n bufpos tries hphase
    refine ⟨paddedChunk sa.inputBuffer sa.bufferSize (n * XMODEM_BLOCKSIZE),
      paddedChunk_length _ _ _, fun i hi => paddedChunk_getD _ _ _ i hi, ?_, ?_⟩
    · rw [hstep]
      exact sendStep_frame sa _ useCrc n bufpos tries hphase
    · intro ra mem rin fuel t rest hmode hesc hph hin hexpect hroom hclk
      have hinv := xmodem_receive_inv ra mem rin fuel
      have hrun : xmodem_receive ra mem rin (fuel + (1 + (frameLength useCrc + 1)))
          = recvRun ra (1 + (frameLength ra.config.useCrc + 1)) (xmodem_receive ra mem rin fuel) := by
        unfold xmodem_receive
        rw [recvRun_add, hmode]
      rw [hrun]
      generalize xmodem_receive ra mem rin fuel = s at hph hin hexpect hroom hinv ⊢
      rw [← hmode] at hin
      have h := recvRun_good_frame ra s t (toChar n) (toChar (255 - n % 256))
        (paddedChunk sa.inputBuffer sa.bufferSize (n * XMODEM_BLOCKSIZE)) rest hinv hph
        (by rw [hin]; rfl) (paddedChunk_length _ _ _)
        (by rw [toChar_val, hexpect])
        (by rw [toChar_val, toChar_val]; omega)
        hesc hroom hclk
      exact ⟨h.1, h.2.1, h.2.2.1, h.2.2.2.2.1, h.2.2.2.2.2.1⟩
  · intro hnot
    rw [hstep]
    exact sendStep_control sa _ hnot

/-- Witness of C7: a signed-`char` sender of a 200-byte buffer (the byte `i` at
offset `i`) that reads 'C' is about to send block 1 in CRC mode; its next step
writes the frame of block 1, whose payload starts with the byte 0x80 and ends
in SUB, and an unsigned-`char` CRC receiver accepts these bytes; its first step,
taken in the handshake loop, writes no byte other than EOT and CAN. -/
theorem send_frame_format_witness :
    (xmodem_send wSend200 [some 67, some 6] 1).phase = SendPhase.sending true 1 0 1
    ∧ ∃ payload : List Byte, payload.length = 128
      ∧ payload.getD 0 0 = 0x80 ∧ payload.getD 127 0 = 0x1A
      ∧ (∃ more, (xmodem_send wSend200 [some 67, some 6] 2).output
            = (xmodem_send wSend200 [some 67, some 6] 1).output
              ++ ([0x01, toChar 1, toChar (255 - 1 % 256)] ++ payload
                    ++ trailerOf true payload).map Out.putchar
              ++ more
          ∧ (more = [] ∨ more = [Out.putchar 0x04] ∨ more = List.replicate 8 (Out.putchar 0x18)))
      ∧ (xmodem_receive wRecvCrc (fun _ => 0)
            (([0x01, toChar 1, toChar (255 - 1 % 256)] ++ payload
                ++ trailerOf true payload).map some ++ []) 134).sizeReceived = 128
      ∧ ∃ ctl, (xmodem_send wSend200 [some 67, some 6] (0 + 1)).output
          = (xmodem_send wSend200 [some 67, some 6] 0).output ++ ctl
        ∧ ∀ b ∈ wireBytes ctl, b = 0x04 ∨ b = 0x18 :=
  have hphase : (xmodem_send wSend200 [some 67, some 6] 1).phase
      = SendPhase.sending true 1 0 1 := by decide
  have hphase0 : (xmodem_send wSend200 [some 67, some 6] 0).phase
      = SendPhase.handshake 1 := by decide
  Exists.elim ((send_frame_format wSend200 [some 67, some 6] 1).1 true 1 0 1 hphase)
    fun payload h =>
      ⟨hphase, payload, h.1, (h.2.1 0 (by decide)).trans (by decide),
        (h.2.1 127 (by decide)).trans (by decide), h.2.2.1,
        (h.2.2.2 wRecvCrc (fun _ => 0) _ 0 0 [] rfl rfl rfl rfl rfl
          (show (0 : Nat) + 128 ≤ 256 by decide)
          (fun _ _ => show (0 : Nat) ≤ 0 + 1000000 by decide)).2.2.2.1,
        (send_frame_format wSend200 [some 67, some 6] 0).2
          (fun _ _ _ _ hs => SendPhase.noConfusion (hphase0.symm.trans hs))⟩

/-- C8.  CRC codec.  The per-byte CRC update inlined in `xmodem_receive` and in
`xmodem_send` (an unmasked `int` accumulator), folded from 0 over any byte
sequence and truncated to its low 16 bits, is CRC-16/XMODEM of that sequence,
whether the sender reads its bytes through a signed or an unsigned `char`; and
CRC-16/XMODEM of the ASCII sequence 123456789 is 0x31C3. -/
theorem crc_inline_is_crc16_xmodem (charSigned : Bool) (data : List Byte) :
    (data.foldl (fun checksum b => recvUpdate true checksum b.val) 0) % 0x10000
        = crc16_xmodem data
    ∧ (data.foldl
        (fun checksum b => sendUpdate charSigned true checksum (charToInt charSigned b)) 0)
          % 0x10000
        = crc16_xmodem data
    ∧ crc16_xmodem [0x31, 0x32, 0x33, 0x34, 0x35, 0x36, 0x37, 0x38, 0x39] = 0x31C3 := by
  refine ⟨?_, ?_, by decide⟩
  · have h := crc_fold_low (fun b : Byte => b.val) id
      (fun b => Nat.mod_eq_of_lt b.isLt) data 0
    simp only [List.map_id, Nat.zero_mod] at h
    simpa [recvUpdate, crc16_xmodem] using h
  · have h := crc_fold_low (fun b : Byte => charToInt charSigned b) id
      (fun b => charToInt_mod charSigned b) data 0
    simp only [List.map_id, Nat.zero_mod] at h
    simpa [sendUpdate, crc16_xmodem] using h

/-- C9.  Additive checksum.  At every point of every run of `xmodem_send` with a
signed or an unsigned `char`: when the sender is in its block loop in checksum
mode, its next step writes the header, the 128 payload bytes (the buffer bytes
from offset `block * 128` on, SUB past the end) and then one trailer byte, which
is the sum of those 128 bytes, each taken as its value 0..255, modulo 256.  The
accumulators of both functions, converted to `char`, are the sum of the bytes
folded modulo 256.  At every point of every run of `xmodem_receive` in checksum
mode where a frame is being read, the accumulator converted to `char` is the sum
modulo 256 of the payload bytes stored so far; and once the 131 bytes are
stored, with the block number and its complement right, the receiver answers ACK
when the trailer byte equals the sum of the 128 payload bytes modulo 256, and
NAK when it does not.  The checksum of 128 bytes 0xFF is 0x80. -/
theorem additive_checksum (sa : SendCall) (payload : List Byte) :
    (∀ (input : List (Option Byte)) (m block bufpos tries : Nat),
        (xmodem_send sa input m).phase = SendPhase.sending false block bufpos tries →
        ∃ sent : List Byte, sent.length = 128
          ∧ (∀ i, i < 128 →
              sent.getD i 0
                = if block * 128 + i < sa.bufferSize then sa.inputBuffer (block * 128 + i)
                  else 0x1A)
          ∧ ∃ more, (xmodem_send sa input (m + 1)).output
                = (xmodem_send sa input m).output
                  ++ ([0x01, toChar block, toChar (255 - block % 256)] ++ sent
                        ++ [toChar (checksum8 sent)]).map Out.putchar
                  ++ more
              ∧ (more = [] ∨ more = [Out.putchar 0x04]
                  ∨ more = List.replicate 8 (Out.putchar 0x18)))
    ∧ (toChar (payload.foldl (fun checksum b => recvUpdate false checksum b.val) 0)).val
        = checksum8 payload
    ∧ (toChar (payload.foldl
          (fun checksum b => sendUpdate sa.charSigned false checksum (charToInt sa.charSigned b))
          0)).val
        = checksum8 payload
    ∧ (∀ (ra : RecvCall) (mem : Nat → Byte) (input : List (Option Byte)) (fuel t cks : Nat)
          (esc : Bool) (buf : List Byte),
          ra.config.useCrc = false →
          (xmodem_receive ra mem input fuel).phase = RecvPhase.reading t cks esc buf →
          (toChar cks).val = checksum8 (framePayload buf)
          ∧ (buf.length = 131 →
              (buf.getD 0 0).val = (xmodem_receive ra mem input fuel).packetNumber % 256 →
              (buf.getD 1 0).val = 255 - (buf.getD 0 0).val →
              (xmodem_receive ra mem input (fuel + 1)).output
                = (xmodem_receive ra mem input fuel).output
                  ++ [Out.putchar
                        (if (buf.getD 130 0).val = checksum8 (framePayload buf) then 0x06
                         else 0x15)]))
    ∧ checksum8 (List.replicate 128 0xFF) = 0x80 := by
  have hrecv : ∀ p : List Byte,
      (toChar (p.foldl (fun checksum b => recvUpdate false checksum b.val) 0)).val
        = checksum8 p := by
    intro p
    have h := sum_fold_low (fun b : Byte => b.val) id (fun b => Nat.mod_eq_of_lt b.isLt) p 0
    simp only [List.map_id, Nat.zero_add] at h
    rw [toChar_val]
    simpa [recvUpdate, sumUpdate, checksum8] using h
  refine ⟨?_, hrecv payload, ?_, ?_, by decide⟩
  · intro input m block bufpos tries hphase
    refine ⟨paddedChunk sa.inputBuffer sa.bufferSize (block * XMODEM_BLOCKSIZE),
      paddedChunk_length _ _ _, fun i hi => paddedChunk_getD _ _ _ i hi, ?_⟩
    have hstep : xmodem_send sa input (m + 1) = sendStep sa (xmodem_send sa input m) :=
      sendRun_succ sa m _
    rw [hstep]
    exact sendStep_frame sa _ false block bufpos tries hphase
  · have h := sum_fold_low (fun b : Byte => charToInt sa.charSigned (toChar (charToInt sa.charSigned b)))
      id (fun b => by
        show charToInt sa.charSigned (toChar (charToInt sa.charSigned b)) % 256 = b.val
        rw [toChar_charToInt, charToInt_mod]) payload 0
    simp only [List.map_id, Nat.zero_add] at h
    rw [toChar_val]
    simpa [sendUpdate, checksum8] using h
  · intro ra mem input fuel t cks esc buf hmode hphase
    have hinv := xmodem_receive_inv ra mem input fuel
    constructor
    · obtain ⟨_, _, _, h4⟩ := hinv
      rw [hphase] at h4
      rw [h4.2.2.1, hmode]
      exact hrecv _
    · intro hlen hblock hcompl
      have hstep : xmodem_receive ra mem input (fuel + 1)
          = recvStep ra (xmodem_receive ra mem input fuel) := recvRun_succ ra fuel _
      rw [hstep]
      exact recvStep_sum_decision ra _ t cks esc buf hinv hmode hphase hlen hblock hcompl

/-- Witness of C9: a signed-`char` sender whose buffer holds 256 bytes 0xFF
writes, after 128 bytes 0xFF, the trailer byte 0x80; a receiver that has stored
the 131 bytes of this frame holds 128 × 255 in its accumulator, which as a
`char` is the checksum 0x80, and answers ACK. -/
theorem additive_checksum_witness :
    (xmodem_send wSendFF [some 0x15, some 6] 1).phase = SendPhase.sending false 1 0 1
    ∧ wireBytes (xmodem_send wSendFF [some 0x15, some 6] 2).output
        = [0x01, 0x01, 0xFE] ++ List.replicate 128 0xFF ++ [0x80, 0x04]
    ∧ (∃ sent : List Byte, sent.length = 128 ∧ sent.getD 0 0 = 0xFF
        ∧ ∃ more, (xmodem_send wSendFF [some 0x15, some 6] 2).output
            = (xmodem_send wSendFF [some 0x15, some 6] 1).output
              ++ ([0x01, toChar 1, toChar (255 - 1 % 256)] ++ sent
                    ++ [toChar (checksum8 sent)]).map Out.putchar
              ++ more)
    ∧ (xmodem_receive wRecvSum (fun _ => 0) wFrameFF 132).phase
        = RecvPhase.reading 1000000 32640 false ([1, 254] ++ List.replicate 128 0xFF ++ [0x80])
    ∧ (toChar 32640).val
        = checksum8 (framePayload ([1, 254] ++ List.replicate 128 0xFF ++ [0x80]))
    ∧ wireBytes (xmodem_receive wRecvSum (fun _ => 0) wFrameFF 133).output = [0x06] :=
  have hsend : (xmodem_send wSendFF [some 0x15, some 6] 1).phase
      = SendPhase.sending false 1 0 1 := by decide
  have hrecv : (xmodem_receive wRecvSum (fun _ => 0) wFrameFF 132).phase
      = RecvPhase.reading 1000000 32640 false ([1, 254] ++ List.replicate 128 0xFF ++ [0x80]) := by
    decide
  have h := additive_checksum wSendFF []
  have hr := h.2.2.2.1 wRecvSum (fun _ => 0) wFrameFF 132 1000000 32640 false
    ([1, 254] ++ List.replicate 128 0xFF ++ [0x80]) rfl hrecv
  ⟨hsend, by decide,
    Exists.elim (h.1 [some 0x15, some 6] 1 1 0 1 hsend) fun sent hs =>
      ⟨sent, hs.1, (hs.2.1 0 (by decide)).trans (by decide),
        Exists.elim hs.2.2 fun more hm => ⟨more, hm.1⟩⟩,
    hrecv, hr.1,
    (congrArg wireBytes (hr.2 (by decide) (by decide) (by decide))).trans (by decide)⟩

/-- C10, the claim as stated fails.  A sender of 300 bytes whose first 29999
polls time out and whose 30000th poll returns 'C' enters its block loop in CRC
mode; when the peer sends BS before the 'C' (as `xmodem_receive` itself does in
CRC mode), the BS is the 30000th poll and ends the handshake: the 'C' is never
taken as a handshake byte, eight CAN bytes are written and no frame, and the
function returns false. -/
theorem send_bs_takes_last_handshake_poll :
    (xmodem_send wSendSum (List.replicate 29999 none ++ [some 67, some 6, some 6]) 30000).phase
        = SendPhase.sending true 1 0 30000
    ∧ (xmodem_send wSendSum
          (List.replicate 29999 none ++ [some 8, some 67, some 6, some 6]) 30000).phase
        = SendPhase.cancelling
    ∧ wireBytes (xmodem_send wSendSum
          (List.replicate 29999 none ++ [some 8, some 67, some 6, some 6]) 30004).output
        = List.replicate 8 0x18
    ∧ (xmodem_send wSendSum
          (List.replicate 29999 none ++ [some 8, some 67, some 6, some 6]) 30004).returnValue
        = some false := by
  have hnone : ∀ e ∈ List.replicate 29999 (none : Option Byte), e ≠ some 67 ∧ e ≠ some 0x15 := by
    intro e he
    rw [List.eq_of_mem_replicate he]
    decide
  have hbs : ∀ e ∈ List.replicate 29999 (none : Option Byte) ++ [some 8],
      e ≠ some 67 ∧ e ≠ some 0x15 := by
    intro e he
    rcases List.mem_append.mp he with h | h
    · exact hnone e h
    · rw [List.mem_singleton.mp h]
      decide
  have hlen : (List.replicate 29999 (none : Option Byte) ++ [some 8]).length = 30000 := by
    rw [List.length_append, List.length_replicate]
    rfl
  have hin : List.replicate 29999 (none : Option Byte) ++ [some 8, some 67, some 6, some 6]
      = (List.replicate 29999 none ++ [some 8]) ++ ([67, 6, 6].map some ++ []) := by
    rw [List.append_assoc]
    rfl
  have h1 := sendRun_skip_exact wSendSum (List.replicate 29999 none) [some 67, some 6, some 6]
    (sendInit (List.replicate 29999 none ++ [some 67, some 6, some 6])) 1 rfl rfl hnone
    (by rw [List.length_replicate])
  rw [List.length_replicate] at h1
  have h2 := sendRun_handshake_timeout_exact wSendSum
    (List.replicate 29999 none ++ [some 8]) ([67, 6, 6].map some ++ []) hlen hbs
  rw [← hin] at h2
  have h3 : xmodem_send wSendSum
        (List.replicate 29999 none ++ [some 8, some 67, some 6, some 6]) 30004
      = sendRun wSendSum (([67, 6, 6] : List Byte).length + 1) (sendRun wSendSum 30000
          (sendInit (List.replicate 29999 none ++ [some 8, some 67, some 6, some 6]))) :=
    sendRun_add wSendSum 30000 4 _
  have h4 := sendRun_cancel wSendSum [67, 6, 6] []
    (sendRun wSendSum 30000
      (sendInit (List.replicate 29999 none ++ [some 8, some 67, some 6, some 6])))
    (by rw [h2]) (by rw [h2]) (fun b => by simp)
  refine ⟨?_, ?_, ?_, ?_⟩
  · show (sendRun wSendSum (29999 + 1) _).phase = _
    rw [sendRun_succ, h1,
      sendStep_handshake wSendSum _ (1 + 29999) 67 [some 6, some 6] rfl rfl (Or.inl rfl)]
    rfl
  · show (sendRun wSendSum 30000 _).phase = _
    rw [h2]
  · rw [h3, h4, h2]
    show wireBytes ((handshakeDumps wSendSum _ ++ _) ++ _) = _
    rw [wireBytes_append, wireBytes_append, wireBytes_handshakeDumps]
    rfl
  · rw [h3, h4]
    rfl

/-- C10, amended.  Sender mode negotiation.  For every configuration (whatever
`useCrc` is configured) and every input that starts with polls answered by a
timeout, BS or any byte other than 'C' and NAK, followed by 'C' or NAK: each of
these polls among the first 29999 leaves the sender in its handshake loop
without a byte written; when there are fewer than 30000 of them, the handshake
byte starts the block loop in the mode it chose; when there are 30000 or more,
the 30000th poll ends the handshake, whatever it read, and from then on the
eight CAN bytes are all that is written.  Whenever the sender is in its block
loop, fewer than 30000 polls were skipped, the mode is the one the handshake
byte chose, and the next step writes a frame whose trailer is the two CRC bytes
after 'C' and the one checksum byte after NAK, followed by nothing, EOT or the
eight CAN bytes; a step taken outside the block loop writes no byte other than
EOT and CAN, so these are all the frames. -/
theorem send_mode_negotiation (a : SendCall) (skipped : List (Option Byte)) (h : Byte)
    (rest : List (Option Byte))
    (hskip : ∀ e ∈ skipped, e ≠ some 67 ∧ e ≠ some 0x15)
    (hh : h = 67 ∨ h = 0x15) :
    (∀ k, k ≤ skipped.length → k < 30000 →
        (xmodem_send a (skipped ++ some h :: rest) k).phase = SendPhase.handshake (1 + k)
        ∧ wireBytes (xmodem_send a (skipped ++ some h :: rest) k).output = [])
    ∧ (skipped.length < 30000 → 0 < a.bufferSize →
        (xmodem_send a (skipped ++ some h :: rest) (skipped.length + 1)).phase
          = SendPhase.sending (decide (h = 67)) 1 0 (1 + skipped.length))
    ∧ (30000 ≤ skipped.length →
        (xmodem_send a (skipped ++ some h :: rest) 30000).phase = SendPhase.cancelling
        ∧ ∀ m, 30000 ≤ m →
            wireBytes (xmodem_send a (skipped ++ some h :: rest) m).output
              = List.replicate 8 0x18)
    ∧ (∀ (m : Nat) (u : Bool) (block bufpos tries : Nat),
        (xmodem_send a (skipped ++ some h :: rest) m).phase
          = SendPhase.sending u block bufpos tries →
        skipped.length < 30000 ∧ skipped.length < m ∧ u = decide (h = 67)
        ∧ ∃ payload more, payload.length = 128
          ∧ (trailerOf (decide (h = 67)) payload).length = (if h = 67 then 2 else 1)
          ∧ (xmodem_send a (skipped ++ some h :: rest) (m + 1)).output
              = (xmodem_send a (skipped ++ some h :: rest) m).output
                ++ ([0x01, toChar block, toChar (255 - block % 256)] ++ payload
                      ++ trailerOf (decide (h = 67)) payload).map Out.putchar
                ++ more
          ∧ (more = [] ∨ more = [Out.putchar 0x04]
              ∨ more = List.replicate 8 (Out.putchar 0x18)))
    ∧ ∀ m : Nat,
        (∀ (u : Bool) (block bufpos tries : Nat),
          (xmodem_send a (skipped ++ some h :: rest) m).phase
            ≠ SendPhase.sending u block bufpos tries) →
        ∃ ctl, (xmodem_send a (skipped ++ some h :: rest) (m + 1)).output
            = (xmodem_send a (skipped ++ some h :: rest) m).output ++ ctl
          ∧ ∀ b ∈ wireBytes ctl, b = 0x04 ∨ b = 0x18 := by
  have hpre : ∀ k, k ≤ skipped.length → k < 30000 →
      xmodem_send a (skipped ++ some h :: rest) k
        = { input := skipped.drop k ++ some h :: rest,
            output := handshakeDumps a (skipped.take k),
            phase := SendPhase.handshake (1 + k) } :=
    fun k hk hk2 => sendRun_handshake_prefix a skipped (some h :: rest) k hskip hk hk2
  have hk1 : skipped.length < 30000 →
      xmodem_send a (skipped ++ some h :: rest) (skipped.length + 1)
        = sendNext a
            { input := rest, output := handshakeDumps a skipped,
              phase := SendPhase.handshake (1 + skipped.length) }
            (decide (h = 67)) 1 0 (1 + skipped.length) := by
    intro hlen
    have h1 := hpre skipped.length (Nat.le_refl _) hlen
    rw [List.drop_length, List.take_length] at h1
    unfold xmodem_send at h1 ⊢
    rw [sendRun_succ, h1]
    exact sendStep_handshake a _ _ h rest rfl rfl hh
  refine ⟨?_, ?_, ?_, ?_, ?_⟩
  · intro k hk hk2
    rw [hpre k hk hk2]
    exact ⟨rfl, wireBytes_handshakeDumps a _⟩
  · intro hlen hpos
    rw [hk1 hlen]
    unfold sendNext
    rw [if_pos hpos]
  · intro hlen
    refine ⟨(sendRun_handshake_expired a skipped (some h :: rest) 30000 hskip hlen
      (Nat.le_refl _)).2.2, ?_⟩
    intro m hm
    exact (sendRun_handshake_expired a skipped (some h :: rest) m hskip hlen hm).2.1
  · intro m u block bufpos tries hphase
    have hlen : skipped.length < 30000 := by
      by_contra hcon
      have hge : 30000 ≤ skipped.length := by omega
      by_cases hm : m < 30000
      · rw [hpre m (by omega) hm] at hphase
        cases hphase
      · have hx := (sendRun_handshake_expired a skipped (some h :: rest) m hskip hge
          (by omega)).1
        have hphase2 : (sendRun a m (sendInit (skipped ++ some h :: rest))).phase
            = SendPhase.sending u block bufpos tries := hphase
        rw [hphase2] at hx
        rcases hx with hx | ⟨r, hx⟩
        · cases hx
        · cases hx
    have hm : skipped.length < m := by
      by_contra hcon
      rw [hpre m (by omega) (by omega)] at hphase
      cases hphase
    have hmode : ModeInv (decide (h = 67)) (xmodem_send a (skipped ++ some h :: rest) m) := by
      obtain ⟨j, hj⟩ : ∃ j, m = (skipped.length + 1) + j := ⟨m - (skipped.length + 1), by omega⟩
      have hsplit : xmodem_send a (skipped ++ some h :: rest) m
          = sendRun a j (xmodem_send a (skipped ++ some h :: rest) (skipped.length + 1)) := by
        unfold xmodem_send
        rw [hj, sendRun_add]
      rw [hsplit]
      apply sendRun_mode
      rw [hk1 hlen]
      exact sendNext_mode _ _ _ _ _ _
    have hu : u = decide (h = 67) := by
      unfold ModeInv at hmode
      rw [hphase] at hmode
      exact hmode
    refine ⟨hlen, hm, hu, ?_⟩
    have hstep : xmodem_send a (skipped ++ some h :: rest) (m + 1)
        = sendStep a (xmodem_send a (skipped ++ some h :: rest) m) := sendRun_succ a m _
    obtain ⟨more, hmore, hshape⟩ := sendStep_frame a _ u block bufpos tries hphase
    rw [hstep, hmore, hu]
    refine ⟨_, more, paddedChunk_length _ _ _, ?_, rfl, hshape⟩
    rw [trailerOf_length]
    simp
  · intro m hnot
    have hstep : xmodem_send a (skipped ++ some h :: rest) (m + 1)
        = sendStep a (xmodem_send a (skipped ++ some h :: rest) m) := sendRun_succ a m _
    rw [hstep]
    exact sendStep_control a _ hnot

/-- Witness of C10: a sender configured for checksum mode that reads a timeout,
BS, a stray byte and then 'C' is still in its handshake loop after the three
skipped polls, enters its block loop in CRC mode, and its first frame ends in
the two CRC bytes. -/
theorem send_mode_negotiation_witness :
    (∀ e ∈ [none, some (8 : Byte), some 0x55], e ≠ some 67 ∧ e ≠ some 0x15)
    ∧ (xmodem_send wSendSum ([none, some 8, some 0x55] ++ some 67 :: [some 6]) 3).phase
        = SendPhase.handshake (1 + 3)
    ∧ (xmodem_send wSendSum ([none, some 8, some 0x55] ++ some 67 :: [some 6]) 4).phase
        = SendPhase.sending true 1 0 4
    ∧ ∃ payload more, payload.length = 128
      ∧ (trailerOf (decide ((67 : Byte) = 67)) payload).length = (if (67 : Byte) = 67 then 2 else 1)
      ∧ (xmodem_send wSendSum ([none, some 8, some 0x55] ++ some 67 :: [some 6]) (4 + 1)).output
          = (xmodem_send wSendSum ([none, some 8, some 0x55] ++ some 67 :: [some 6]) 4).output
            ++ ([0x01, toChar 1, toChar (255 - 1 % 256)] ++ payload
                  ++ trailerOf (decide ((67 : Byte) = 67)) payload).map Out.putchar
            ++ more :=
  have hs : ∀ e ∈ [none, some (8 : Byte), some 0x55], e ≠ some 67 ∧ e ≠ some 0x15 := by decide
  have h := send_mode_negotiation wSendSum [none, some 8, some 0x55] 67 [some 6] hs (Or.inl rfl)
  have hsending := h.2.1 (by decide) (by decide)
  ⟨hs, (h.1 3 (by decide) (by decide)).1, hsending,
    Exists.elim (h.2.2.2.1 4 true 1 0 4 hsending).2.2.2 fun payload hp =>
      Exists.elim hp fun more hm => ⟨payload, more, hm.1, hm.2.1, hm.2.2.1⟩⟩

/-- C6 (the code at the failing input).  A 200-byte buffer holding the byte `i`
at offset `i`, a peer that sends NAK and then ACKs: `xmodem_send` returns true
after writing a single frame, numbered 1, whose payload is the buffer bytes at
offsets 128..199 followed by 56 SUB bytes, and then EOT; the bytes at offsets
0..127 are never written, although the buffer has two blocks.  In general the
payload of the frame numbered `n` is read from offset `n * 128` on. -/
theorem send_200_bytes_single_frame :
    (xmodem_send wSend200 [some 0x15, some 6, some 6] 3).returnValue = some true
    ∧ wireBytes (xmodem_send wSend200 [some 0x15, some 6, some 6] 3).output
        = [0x01, 0x01, 0xFE]
          ++ ((List.range 72).map fun i => wSend200.inputBuffer (128 + i))
          ++ List.replicate 56 0x1A
          ++ trailerOf false
              (((List.range 72).map fun i => wSend200.inputBuffer (128 + i))
                ++ List.replicate 56 0x1A)
          ++ [0x04]
    ∧ (wireBytes (xmodem_send wSend200 [some 0x15, some 6, some 6] 3).output).length = 133
    ∧ blockCount 200 = 2
    ∧ ∀ (a : SendCall) (useCrc : Bool) (n : Nat),
        ((sendFrame a useCrc n).drop 3).take 128
          = paddedChunk a.inputBuffer a.bufferSize (n * 128) := by
  refine ⟨by decide, by decide, by decide, by decide, ?_⟩
  intro a useCrc n
  rw [sendFrame_eq]
  have hlen := paddedChunk_length a.inputBuffer a.bufferSize (n * XMODEM_BLOCKSIZE)
  simp only [List.append_assoc, List.cons_append, List.nil_append, List.drop_succ_cons,
    List.drop_zero]
  rw [List.take_append_of_le_length (by omega), List.take_of_length_le (by omega)]
  rfl

/-- C1 (the code at the failing input).  A one-byte buffer holding 0x41 is sent
in checksum mode to a receiver with a 128-byte buffer over a lossless link (each
side reads exactly the bytes the other wrote and no read times out):
`xmodem_send` returns true and `xmodem_receive` returns 128, but the received
buffer holds SUB (0x1A) at offset 0, not 0x41. -/
theorem roundtrip_one_byte_lost :
    (xmodem_send wSendOne wPeerReplies 3).returnValue = some true
    ∧ (xmodem_send wSendOne wPeerReplies 3).input = []
    ∧ (wireBytes (xmodem_receive wRecvSumTick (fun _ => 0)
          ((wireBytes (xmodem_send wSendOne wPeerReplies 3).output).map some) 134).output).map some
        = wPeerReplies
    ∧ (xmodem_receive wRecvSumTick (fun _ => 0)
          ((wireBytes (xmodem_send wSendOne wPeerReplies 3).output).map some) 134).input = []
    ∧ (xmodem_receive wRecvSumTick (fun _ => 0)
          ((wireBytes (xmodem_send wSendOne wPeerReplies 3).output).map some) 134).returnValue
        = some 128
    ∧ (xmodem_receive wRecvSumTick (fun _ => 0)
          ((wireBytes (xmodem_send wSendOne wPeerReplies 3).output).map some) 134).outputBuffer 0
        = 0x1A
    ∧ wSendOne.inputBuffer 0 = 0x41 := by
  decide

/-- C11, the claim as stated fails.  A 400-byte buffer, a peer that sends NAK as
handshake, ACKs block 1, answers block 2 with ten NAKs and then with ACK: the
tenth NAK already ends the transfer; `xmodem_send` writes block 1 once, block 2
ten times, then eight CAN bytes, drains the ACK and returns false. -/
theorem send_ten_naks_then_ack_fails :
    (xmodem_send wSend400 wTenNaksThenAck 14).returnValue = some false
    ∧ (xmodem_send wSend400 wTenNaksThenAck 14).input = []
    ∧ (wireBytes (xmodem_send wSend400 wTenNaksThenAck 14).output).length = 11 * 132 + 8
    ∧ (wireBytes (xmodem_send wSend400 wTenNaksThenAck 14).output).drop (11 * 132)
        = List.replicate 8 0x18 := by
  decide

/-- C11, amended.  `xmodem_send` gives a block at most ten attempts.  From any
point of a run where a block that is followed by more data is about to be sent
with the counter at 1 (its value after every ACK): up to nine consecutive
answers that are neither ACK nor CAN (NAK, another byte, a timeout) make it send
the same frame again, and an ACK then moves it to the next block with the
counter back at 1; the tenth such answer in a row makes it write eight CAN
bytes, drain the input up to the first read that times out and return false. -/
theorem send_retry_budget (a : SendCall) (input : List (Option Byte)) (fuel : Nat) (u : Bool)
    (block bufpos : Nat) (naks rest : List (Option Byte))
    (hphase : (xmodem_send a input fuel).phase = SendPhase.sending u block bufpos 1)
    (hmore : (block + 1) * 128 < a.bufferSize)
    (hin : (xmodem_send a input fuel).input = naks ++ rest)
    (hnak : ∀ e ∈ naks, e ≠ some 6 ∧ e ≠ some 0x18) :
    (naks.length ≤ 9 →
      (xmodem_send a input (fuel + naks.length)).output
          = (xmodem_send a input fuel).output
            ++ (List.replicate naks.length ((sendFrame a u block).map Out.putchar)).flatten
      ∧ (xmodem_send a input (fuel + naks.length)).input = rest
      ∧ (∃ bp, (xmodem_send a input (fuel + naks.length)).phase
            = SendPhase.sending u block bp (1 + naks.length))
      ∧ ∀ rest1, rest = some 6 :: rest1 →
          (xmodem_send a input (fuel + naks.length + 1)).output
              = (xmodem_send a input fuel).output
                ++ (List.replicate (naks.length + 1)
                      ((sendFrame a u block).map Out.putchar)).flatten
          ∧ (xmodem_send a input (fuel + naks.length + 1)).input = rest1
          ∧ (xmodem_send a input (fuel + naks.length + 1)).phase
              = SendPhase.sending u (block + 1) ((block + 1) * 128) 1)
    ∧ (naks.length = 10 →
      ∀ (residue : List Byte) (tail : List (Option Byte)),
        rest = residue.map some ++ tail → (∀ b, tail.head? ≠ some (some b)) →
        (xmodem_send a input (fuel + 10 + (residue.length + 1))).output
            = (xmodem_send a input fuel).output
              ++ (List.replicate 10 ((sendFrame a u block).map Out.putchar)).flatten
              ++ List.replicate 8 (Out.putchar 0x18) ++ [Out.puts [], Out.dumplog]
        ∧ (xmodem_send a input (fuel + 10 + (residue.length + 1))).input = tail.tail
        ∧ (xmodem_send a input (fuel + 10 + (residue.length + 1))).returnValue
            = some false) := by
  have hsplit : ∀ k, xmodem_send a input (fuel + k)
      = sendRun a k (xmodem_send a input fuel) := by
    intro k
    unfold xmodem_send
    rw [sendRun_add]
  constructor
  · intro hlen
    obtain ⟨bp, h1⟩ := sendRun_nonacks a naks rest _ u block bufpos 1 hphase hmore hin hnak
      (by omega)
    rw [hsplit]
    refine ⟨by rw [h1], by rw [h1], ⟨bp, by rw [h1]⟩, ?_⟩
    intro rest1 hrest
    have h2 : xmodem_send a input (fuel + naks.length + 1)
        = sendStep a (sendRun a naks.length (xmodem_send a input fuel)) := by
      rw [← hsplit]
      exact sendRun_succ a _ _
    rw [h2, sendStep_ack a _ u block bp (1 + naks.length) rest1 (by rw [h1])
      (by rw [h1, hrest]), h1]
    unfold sendNext
    rw [if_pos (by simpa [XMODEM_BLOCKSIZE] using hmore)]
    refine ⟨?_, rfl, rfl⟩
    show _ ++ _ ++ _ = _
    rw [flatten_replicate_succ, List.append_assoc]
  · intro hlen residue tail hrest hquiet
    have hne : naks ≠ [] := by
      intro h
      rw [h] at hlen
      cases hlen
    have hlast := List.dropLast_concat_getLast hne
    have hl9 : naks.dropLast.length + 1 = 10 := by
      rw [List.length_dropLast]
      omega
    have h2 := sendRun_nonacks_fail a naks.dropLast (naks.getLast hne) rest _ u block bufpos 1
      hphase hmore
      (by
        have e1 : naks.dropLast ++ naks.getLast hne :: rest
            = (naks.dropLast ++ [naks.getLast hne]) ++ rest := by simp
        rw [e1, hlast]
        exact hin)
      (fun x hx => hnak x (List.mem_of_mem_dropLast hx))
      (hnak _ (List.getLast_mem hne)) (by omega)
    rw [hl9] at h2
    have h4 : xmodem_send a input (fuel + 10 + (residue.length + 1))
        = sendRun a (residue.length + 1) (sendRun a 10 (xmodem_send a input fuel)) := by
      rw [Nat.add_assoc, hsplit, sendRun_add]
    rw [h4, h2, sendRun_cancel a residue tail _ rfl hrest hquiet]
    exact ⟨by simp [sendFinish]; rfl, rfl, rfl⟩

/-- Witness of C11: block 2 of a 400-byte buffer is answered by nine NAKs and then
ACK; the sender moves on to block 3. -/
theorem send_retry_budget_witness :
    (xmodem_send wSend400 wNineNaksThenAck 2).phase = SendPhase.sending false 2 256 1
    ∧ (∀ e ∈ List.replicate 9 (some (0x15 : Byte)), e ≠ some 6 ∧ e ≠ some 0x18)
    ∧ (xmodem_send wSend400 wNineNaksThenAck (2 + 9 + 1)).phase
        = SendPhase.sending false 3 384 1 :=
  have hn : ∀ e ∈ List.replicate 9 (some (0x15 : Byte)), e ≠ some 6 ∧ e ≠ some 0x18 := by
    decide
  have h := (send_retry_budget wSend400 wNineNaksThenAck 2 false 2 256
    (List.replicate 9 (some 0x15)) [some 6] (by decide) (by decide) (by decide) hn).1
    (by decide)
  ⟨by decide, hn, (h.2.2.2 [] rfl).2.2⟩

/-- C12, the claim as stated fails.  With 30000 polls that all time out,
`xmodem_send` does write CAN bytes: eight of them, and nothing else, before it
returns false. -/
theorem handshake_timeout_writes_can :
    wireBytes (xmodem_send wSend400 (List.replicate 30000 none ++ []) 30001).output
        = List.replicate 8 0x18
    ∧ (xmodem_send wSend400 (List.replicate 30000 none ++ []) 30001).returnValue
        = some false := by
  obtain ⟨out, hout, h1⟩ := sendRun_handshake_timeout wSend400 (List.replicate 30000 none) []
    (List.length_replicate _ _)
    (fun e he => by rw [List.eq_of_mem_replicate he]; decide)
  have h2 : xmodem_send wSend400 (List.replicate 30000 none ++ []) 30001
      = sendStep wSend400
          (sendRun wSend400 30000 (sendInit (List.replicate 30000 none ++ []))) :=
    sendRun_succ wSend400 30000 _
  rw [h2, h1, sendStep_cancel_quiet wSend400 _ rfl (fun b => by simp)]
  constructor
  · show wireBytes ((out ++ _) ++ _) = _
    rw [wireBytes_append, wireBytes_append, hout]
    rfl
  · rfl

/-- C12, amended.  `xmodem_send` polls for the handshake exactly 30000 times: when
the first 30000 reads return neither 'C' nor NAK, it is still in the handshake
loop after each of the first 29999, and after the 30000th it writes eight CAN
bytes, drains the input up to the first read that times out, calls `puts("")`
and `xmodem_dumplog()` and returns false.  All it writes is, in this order: one
dump of the log for every byte read during the handshake that is not BS, when
`logLevel ≥ 1` (none otherwise); the eight CAN bytes; the newline of `puts("")`
and the final dump of the log.  The eight CAN bytes are all it writes with
`putchar`, so it writes no frame byte. -/
theorem send_handshake_timeout (a : SendCall) (skipped : List (Option Byte))
    (residue : List Byte) (tail : List (Option Byte))
    (hlen : skipped.length = 30000)
    (hskip : ∀ e ∈ skipped, e ≠ some 67 ∧ e ≠ some 0x15)
    (hquiet : ∀ b, tail.head? ≠ some (some b)) :
    (∀ m, m < 30000 →
      (xmodem_send a (skipped ++ (residue.map some ++ tail)) m).phase
        = SendPhase.handshake (1 + m)
      ∧ (xmodem_send a (skipped ++ (residue.map some ++ tail)) m).output
        = handshakeDumps a (skipped.take m))
    ∧ (xmodem_send a (skipped ++ (residue.map some ++ tail)) 30000).phase
        = SendPhase.cancelling
    ∧ (xmodem_send a (skipped ++ (residue.map some ++ tail)) 30000).input
        = residue.map some ++ tail
    ∧ (xmodem_send a (skipped ++ (residue.map some ++ tail)) 30000).output
        = handshakeDumps a skipped ++ List.replicate 8 (Out.putchar 0x18)
    ∧ wireBytes (xmodem_send a (skipped ++ (residue.map some ++ tail)) 30000).output
        = List.replicate 8 0x18
    ∧ (∀ k, k ≤ residue.length →
        (xmodem_send a (skipped ++ (residue.map some ++ tail)) (30000 + k)).phase
          = SendPhase.cancelling
        ∧ (xmodem_send a (skipped ++ (residue.map some ++ tail)) (30000 + k)).output
          = handshakeDumps a skipped ++ List.replicate 8 (Out.putchar 0x18))
    ∧ (xmodem_send a (skipped ++ (residue.map some ++ tail))
          (30000 + (residue.length + 1))).returnValue = some false
    ∧ (xmodem_send a (skipped ++ (residue.map some ++ tail))
          (30000 + (residue.length + 1))).input = tail.tail
    ∧ (xmodem_send a (skipped ++ (residue.map some ++ tail))
          (30000 + (residue.length + 1))).output
        = handshakeDumps a skipped ++ List.replicate 8 (Out.putchar 0x18)
            ++ [Out.puts [], Out.dumplog]
    ∧ wireBytes (xmodem_send a (skipped ++ (residue.map some ++ tail))
          (30000 + (residue.length + 1))).output = List.replicate 8 0x18
    ∧ (a.config.logLevel = 0 →
        (xmodem_send a (skipped ++ (residue.map some ++ tail))
          (30000 + (residue.length + 1))).output
        = List.replicate 8 (Out.putchar 0x18) ++ [Out.puts [], Out.dumplog]) := by
  have h0 : xmodem_send a (skipped ++ (residue.map some ++ tail)) 30000
      = { input := residue.map some ++ tail,
          output := handshakeDumps a skipped
            ++ List.replicate 8 (Out.putchar (toUChar XMODEM_CAN)),
          phase := SendPhase.cancelling } :=
    sendRun_handshake_timeout_exact a skipped (residue.map some ++ tail) hlen hskip
  have hwire : wireBytes (handshakeDumps a skipped
        ++ List.replicate 8 (Out.putchar (toUChar XMODEM_CAN)))
      = List.replicate 8 0x18 := by
    rw [wireBytes_append, wireBytes_handshakeDumps]
    rfl
  have hsplit : ∀ k, xmodem_send a (skipped ++ (residue.map some ++ tail)) (30000 + k)
      = sendRun a k (xmodem_send a (skipped ++ (residue.map some ++ tail)) 30000) := by
    intro k
    unfold xmodem_send
    rw [sendRun_add]
  have hend : xmodem_send a (skipped ++ (residue.map some ++ tail))
        (30000 + (residue.length + 1))
      = sendFinish
          { input := tail.tail,
            output := handshakeDumps a skipped
              ++ List.replicate 8 (Out.putchar (toUChar XMODEM_CAN)),
            phase := SendPhase.cancelling } false := by
    rw [hsplit, h0, sendRun_cancel a residue tail _ rfl rfl hquiet]
  have hdrain : ∀ k, k ≤ residue.length →
      sendRun a k
          { input := residue.map some ++ tail,
            output := handshakeDumps a skipped
              ++ List.replicate 8 (Out.putchar (toUChar XMODEM_CAN)),
            phase := SendPhase.cancelling }
        = { input := (residue.drop k).map some ++ tail,
            output := handshakeDumps a skipped
              ++ List.replicate 8 (Out.putchar (toUChar XMODEM_CAN)),
            phase := SendPhase.cancelling } := by
    intro k
    induction k with
    | zero => intro _; rfl
    | succ k ih =>
      intro hk
      rw [sendRun_succ, ih (by omega)]
      have hd : residue.drop k = residue.get ⟨k, by omega⟩ :: residue.drop (k + 1) := by
        simp
      rw [sendStep_cancel_byte a _ (residue.get ⟨k, by omega⟩)
        ((residue.drop (k + 1)).map some ++ tail) rfl (by rw [hd]; rfl)]
  have hlog0 : a.config.logLevel = 0 → handshakeDumps a skipped = [] := by
    intro hl
    have hz : ∀ e, strayDump a e = [] := by
      intro e
      unfold strayDump
      split
      · rfl
      · split
        · rfl
        · rw [if_neg (by omega)]
    unfold handshakeDumps
    simp [hz]
  refine ⟨?_, by rw [h0], by rw [h0], by rw [h0]; rfl, by rw [h0]; exact hwire, ?_, ?_, ?_, ?_,
    ?_, ?_⟩
  · intro m hm
    have h3 := sendRun_handshake_prefix a skipped (residue.map some ++ tail) m hskip
      (by omega) hm
    unfold xmodem_send
    rw [h3]
    exact ⟨rfl, rfl⟩
  · intro k hk
    rw [hsplit, h0, hdrain k hk]
    exact ⟨rfl, rfl⟩
  · rw [hend]
    rfl
  · rw [hend]
    rfl
  · rw [hend]
    rfl
  · rw [hend]
    show wireBytes ((handshakeDumps a skipped ++ _) ++ _) = _
    rw [wireBytes_append, hwire]
    rfl
  · intro hl
    rw [hend]
    show (handshakeDumps a skipped ++ _) ++ _ = _
    rw [hlog0 hl]
    rfl

/-- Witness of C12: 30000 polls answered by BS, then two stray bytes and silence;
the log is off, so the eight CAN bytes, the newline and the (empty) dump of the
log are all that is written. -/
theorem send_handshake_timeout_witness :
    (List.replicate 30000 (some (8 : Byte))).length = 30000
    ∧ (xmodem_send wSend400 (List.replicate 30000 (some 8) ++ ([1, 2].map some ++ []))
          (30000 + (2 + 1))).returnValue = some false
    ∧ wireBytes (xmodem_send wSend400 (List.replicate 30000 (some 8) ++ ([1, 2].map some ++ []))
          (30000 + (2 + 1))).output = List.replicate 8 0x18
    ∧ (xmodem_send wSend400 (List.replicate 30000 (some 8) ++ ([1, 2].map some ++ []))
          (30000 + (2 + 1))).output
        = List.replicate 8 (Out.putchar 0x18) ++ [Out.puts [], Out.dumplog] :=
  have h := send_handshake_timeout wSend400 (List.replicate 30000 (some 8)) [1, 2] []
    (List.length_replicate _ _)
    (fun e he => by rw [List.eq_of_mem_replicate he]; decide)
    (fun b => by simp)
  ⟨List.length_replicate _ _, h.2.2.2.2.2.2.1, h.2.2.2.2.2.2.2.2.2.1, h.2.2.2.2.2.2.2.2.2.2 rfl⟩

/-- C13, the claim as stated fails.  CRC mode, escape off, capacity 256, no
timeouts: the frame SOH, 0x01, 0xFE, 128 bytes 0x41, 0x96, 0x0A is answered by
NAK, not ACK, because the CRC-16/XMODEM of 128 bytes 0x41 is 0x1CCE; after EOT
the receiver writes ACK and returns 0 with the buffer untouched. -/
theorem recv_scenario_960A_rejected :
    wireBytes (xmodem_receive wRecvCrc (fun _ => 0) (scenarioInput 0x96 0x0A) 135).output
        = [0x15, 0x06]
    ∧ (xmodem_receive wRecvCrc (fun _ => 0) (scenarioInput 0x96 0x0A) 135).returnValue
        = some 0
    ∧ (xmodem_receive wRecvCrc (fun _ => 0) (scenarioInput 0x96 0x0A) 135).outputBuffer
        = (fun _ => 0)
    ∧ crc16_xmodem (List.replicate 128 0x41) ≠ 0x960A := by
  have hcrc := crc16_xmodem_128_A
  have hreg := frame_regions 1 0xFE (List.replicate 128 0x41) [0x96, 0x0A]
    (List.length_replicate _ _)
  have h1 := recvRun_bad_frame wRecvCrc (recvInit wRecvCrc (fun _ => 0) (scenarioInput 0x96 0x0A))
    0 (1 :: 0xFE :: (List.replicate 128 0x41 ++ [0x96, 0x0A])) [some 4]
    (recvInit_inv _ _ _) rfl rfl (by decide)
    (Or.inr (Or.inr (by
      rw [hreg.1, hreg.2]
      show _ ≠ trailerOf true _
      unfold trailerOf
      rw [if_pos rfl, hcrc]
      decide)))
    rfl (by decide) (fun _ _ => show (0 : Nat) ≤ 0 + 1000000 by decide)
  obtain ⟨ho, hi, hb, hs, _, k, hp⟩ := h1
  have hrun : xmodem_receive wRecvCrc (fun _ => 0) (scenarioInput 0x96 0x0A) 135
      = recvStep wRecvCrc (recvRun wRecvCrc (1 + frameLength wRecvCrc.config.useCrc + 1)
          (recvInit wRecvCrc (fun _ => 0) (scenarioInput 0x96 0x0A))) :=
    recvRun_succ wRecvCrc 134 _
  obtain ⟨g1, g2, g3, _⟩ := recvStep_eot_fields wRecvCrc _ _ [] hp hi
  rw [hrun]
  refine ⟨?_, ?_, ?_, by rw [hcrc]; decide⟩
  · rw [g1, recvSolicit_quiet wRecvCrc _ (wRecvCrc.clock k) (fun _ => Nat.le_refl 0), ho,
      recvSolicit_quiet wRecvCrc _ 0 (fun _ => Nat.le_refl 0)]
    rfl
  · rw [g2, hs]
    rfl
  · rw [g3, hb]
    rfl

/-- C13, amended.  Scenario "CRC receive, single block" with the trailer 0x1C,
0xCE: `xmodem_receive` in CRC mode with escape off and a capacity of at least
128, fed SOH, 0x01, 0xFE, 128 bytes 0x41, 0x1C, 0xCE, EOT with no timeout,
writes ACK after the frame and ACK after EOT, returns 128 and leaves the buffer
bytes 0..127 all equal to 0x41 and the others unchanged; 0x1CCE is the
CRC-16/XMODEM of 128 bytes 0x41. -/
theorem recv_scenario_crc_single_block (a : RecvCall) (mem : Nat → Byte)
    (hcrc : a.config.useCrc = true) (hesc : a.config.useEscape = false)
    (hcap : 128 ≤ a.bufferSize)
    (hclk : ∀ j k, a.clock k ≤ a.clock j + 1000000) :
    (xmodem_receive a mem (scenarioInput 0x1C 0xCE) 135).output
        = (recvSolicit a (recvInit a mem (scenarioInput 0x1C 0xCE)) (a.clock 0)).1.output
            ++ [Out.putchar 0x06] ++ [Out.putchar 0x06, Out.puts [], Out.dumplog]
    ∧ (xmodem_receive a mem (scenarioInput 0x1C 0xCE) 135).returnValue = some 128
    ∧ (∀ i, i < 128 → (xmodem_receive a mem (scenarioInput 0x1C 0xCE) 135).outputBuffer i = 0x41)
    ∧ (∀ i, 128 ≤ i → (xmodem_receive a mem (scenarioInput 0x1C 0xCE) 135).outputBuffer i = mem i)
    ∧ (xmodem_receive a mem (scenarioInput 0x1C 0xCE) 135).input = []
    ∧ crc16_xmodem (List.replicate 128 0x41) = 0x1CCE := by
  have hval := crc16_xmodem_128_A
  have htr : trailerOf a.config.useCrc (List.replicate 128 (0x41 : Byte)) = [0x1C, 0xCE] := by
    rw [hcrc]
    unfold trailerOf
    rw [if_pos rfl, hval]
    decide
  have hfl : frameLength a.config.useCrc = 132 := by
    rw [hcrc]
    rfl
  have h1 := recvRun_good_frame a (recvInit a mem (scenarioInput 0x1C 0xCE)) (a.clock 0) 1 0xFE
    (List.replicate 128 0x41) [some 4] (recvInit_inv _ _ _) rfl (by rw [htr]; rfl)
    (List.length_replicate _ _) rfl rfl hesc
    (by show 0 + 128 ≤ a.bufferSize; omega) hclk
  rw [hfl] at h1
  obtain ⟨ho, hi, hb, hb2, hs, _, t1, hp⟩ := h1
  have hrun : xmodem_receive a mem (scenarioInput 0x1C 0xCE) 135
      = recvStep a (recvRun a (1 + (132 + 1)) (recvInit a mem (scenarioInput 0x1C 0xCE))) :=
    recvRun_succ a 134 _
  obtain ⟨g1, g2, g3, g4⟩ := recvStep_eot_fields a _ t1 [] hp hi
  have hsz : (recvRun a (1 + (132 + 1)) (recvInit a mem (scenarioInput 0x1C 0xCE))).sizeReceived
      = 128 := by
    rw [hs]
    rfl
  rw [hrun]
  refine ⟨?_, ?_, ?_, ?_, g4, hval⟩
  · rw [g1, recvSolicit_nonzero a _ t1 (by rw [hsz]; decide), ho]
  · rw [g2, hsz]
    rfl
  · intro i hi128
    rw [g3]
    have h := hb i hi128
    rw [show (recvInit a mem (scenarioInput 0x1C 0xCE)).sizeReceived + i = i from Nat.zero_add i]
      at h
    rw [h, List.getD_eq_getElem?_getD, List.getElem?_replicate, if_pos hi128]
    rfl
  · intro i hi128
    rw [g3, hb2 i (Or.inr (by show 0 + 128 ≤ i; omega))]
    rfl

/-- Witness of C13: a CRC receiver with a 256-byte buffer and a constant clock. -/
theorem recv_scenario_crc_single_block_witness :
    wRecvCrc.config.useCrc = true
    ∧ wireBytes (xmodem_receive wRecvCrc (fun _ => 0) (scenarioInput 0x1C 0xCE) 135).output
        = [0x06, 0x06]
    ∧ (xmodem_receive wRecvCrc (fun _ => 0) (scenarioInput 0x1C 0xCE) 135).returnValue
        = some 128 :=
  have h := recv_scenario_crc_single_block wRecvCrc (fun _ => 0) rfl rfl (by decide)
    (fun _ _ => show (0 : Nat) ≤ 0 + 1000000 by decide)
  ⟨rfl, (congrArg wireBytes h.1).trans (by decide), h.2.1⟩

/-- C14 (the code at the failing input).  A 200-byte buffer, a peer that sends NAK
as handshake, answers block 1 with NAK and then sends ACK: `xmodem_send` does
not send the frame again; it writes the frame once, then EOT, and returns
true. -/
theorem send_final_block_nak_not_resent :
    (xmodem_send wSend200 [some 0x15, some 0x15, some 6] 3).returnValue = some true
    ∧ wireBytes (xmodem_send wSend200 [some 0x15, some 0x15, some 6] 3).output
        = sendFrame wSend200 false 1 ++ [0x04]
    ∧ (xmodem_send wSend200 [some 0x15, some 0x15, some 6] 2).phase = SendPhase.eot 0 := by
  decide

/-- C15 (the code at the failing input).  A one-byte buffer, a peer that sends NAK
as handshake, ACKs block 1 and answers EOT with CAN, CAN: `xmodem_send` returns
false having written the frame and EOT only, without any CAN byte and without
draining; and when EOT is answered by 2000 timeouts it returns false in the
same way, leaving the rest of the input unread. -/
theorem send_eot_failure_without_can :
    (xmodem_send wSendOne [some 0x15, some 6, some 0x18, some 0x18, some 7] 3).returnValue
        = some false
    ∧ wireBytes (xmodem_send wSendOne [some 0x15, some 6, some 0x18, some 0x18, some 7] 3).output
        = sendFrame wSendOne false 1 ++ [0x04]
    ∧ (xmodem_send wSendOne [some 0x15, some 6, some 0x18, some 0x18, some 7] 3).input
        = [some 7]
    ∧ (xmodem_send wSendOne ([some 0x15, some 6] ++ (List.replicate 1999 none ++ [none, some 7]))
          2002).returnValue = some false
    ∧ wireBytes
        (xmodem_send wSendOne ([some 0x15, some 6] ++ (List.replicate 1999 none ++ [none, some 7]))
          2002).output
        = sendFrame wSendOne false 1 ++ [0x04]
    ∧ (xmodem_send wSendOne ([some 0x15, some 6] ++ (List.replicate 1999 none ++ [none, some 7]))
          2002).input = [some 7] := by
  have h2 : xmodem_send wSendOne
        ([some 0x15, some 6] ++ (List.replicate 1999 none ++ [none, some 7])) 2
      = { input := List.replicate 1999 none ++ [none, some 7],
          output := (sendFrame wSendOne false 1).map Out.putchar ++ [Out.putchar 0x04],
          phase := SendPhase.eot 0 } := rfl
  have h3 := sendRun_eot_timeouts wSendOne 1999 [none, some 7]
    { input := List.replicate 1999 none ++ [none, some 7],
      output := (sendFrame wSendOne false 1).map Out.putchar ++ [Out.putchar 0x04],
      phase := SendPhase.eot 0 } 0 rfl rfl (by decide)
  have h4 : xmodem_send wSendOne
        ([some 0x15, some 6] ++ (List.replicate 1999 none ++ [none, some 7])) 2002
      = sendStep wSendOne (sendRun wSendOne 1999 (xmodem_send wSendOne
          ([some 0x15, some 6] ++ (List.replicate 1999 none ++ [none, some 7])) 2)) := by
    unfold xmodem_send
    rw [← sendRun_succ, ← sendRun_add]
  rw [h2] at h4
  rw [h3] at h4
  rw [h4]
  refine ⟨by decide, by decide, by decide, by decide, ?_, by decide⟩
  show wireBytes ((sendFrame wSendOne false 1).map Out.putchar
    ++ [Out.putchar 0x04] ++ [Out.puts [], Out.dumplog]) = _
  decide

/-- C16 (the code at the failing input).  A 300-byte buffer and a peer that sends
NAK as handshake, answers block 1 with NAK once and then ACKs everything: when
the handshake byte is read by the first poll `xmodem_send` returns true; when
nine timed-out polls precede it, the single NAK on block 1 already ends the
transfer with eight CAN bytes and the result false. -/
theorem send_first_block_budget_depends_on_handshake :
    (xmodem_send wSend300 wNakOnFirstBlock 5).returnValue = some true
    ∧ (xmodem_send wSend300 (List.replicate 9 none ++ wNakOnFirstBlock) 18).returnValue
        = some false
    ∧ wireBytes (xmodem_send wSend300 (List.replicate 9 none ++ wNakOnFirstBlock) 18).output
        = sendFrame wSend300 false 1 ++ List.replicate 8 0x18
    ∧ wireBytes (xmodem_send wSend300 wNakOnFirstBlock 5).output
        = sendFrame wSend300 false 1 ++ sendFrame wSend300 false 1
          ++ sendFrame wSend300 false 2 ++ [0x04] := by
  decide

/-- C17, the claim as stated fails.  With `useEscape` active, a DLE that arrives
right after a DLE in the payload region is not stored as 0x10 XOR 0x40 = 0x50:
it is dropped like the first one and the escape stays pending, so after SOH,
0x01, 0xFE, DLE, DLE the buffer still holds the two header bytes only, and the
byte 0x01 that follows is the one stored as 0x41. -/
theorem recv_dle_after_dle_dropped :
    (xmodem_receive wRecvEsc (fun _ => 0) [some 1, some 1, some 0xFE, some 0x10, some 0x10] 5).phase
        = RecvPhase.reading 1000000 0 true [1, 0xFE]
    ∧ (xmodem_receive wRecvEsc (fun _ => 0)
          [some 1, some 1, some 0xFE, some 0x10, some 0x10, some 1] 6).phase
        = RecvPhase.reading 1000000 0x41 false [1, 0xFE, 0x41] := by
  decide

/-- C17, amended.  At every point of every run of `xmodem_receive` with
`useEscape` active where a frame is being read, is not complete and its deadline
has not passed, and the next read returns a byte `b`: in the payload region a
DLE is not stored, does not advance the position or the accumulator, and leaves
an escape pending (also when one was pending already); in the payload region
with an escape pending a byte `b` other than DLE is stored as `b XOR 0x40`, and
`b XOR 0x40` is what the checksum or CRC accumulator is fed; at a header or
trailer position no escape is pending and `b` is stored unmodified, DLE
included, without touching the accumulator. -/
theorem recv_dle_escape (a : RecvCall) (mem : Nat → Byte) (input : List (Option Byte))
    (fuel t cks : Nat) (esc : Bool) (buf : List Byte) (b : Byte) (rest : List (Option Byte))
    (huse : a.config.useEscape = true)
    (hphase : (xmodem_receive a mem input fuel).phase = RecvPhase.reading t cks esc buf)
    (hin : (xmodem_receive a mem input fuel).input = some b :: rest)
    (hlen : buf.length < frameLength a.config.useCrc)
    (hclk : a.clock (xmodem_receive a mem input fuel).ticks ≤ t) :
    (2 ≤ buf.length → buf.length < 130 → b = 0x10 →
      (xmodem_receive a mem input (fuel + 1)).phase = RecvPhase.reading t cks true buf)
    ∧ (2 ≤ buf.length → buf.length < 130 → esc = true → b ≠ 0x10 →
      (xmodem_receive a mem input (fuel + 1)).phase
        = RecvPhase.reading t (recvUpdate a.config.useCrc cks (b.val ^^^ 0x40)) false
            (buf ++ [toChar (b.val ^^^ 0x40)]))
    ∧ (2 ≤ buf.length → buf.length < 130 → esc = false → b ≠ 0x10 →
      (xmodem_receive a mem input (fuel + 1)).phase
        = RecvPhase.reading t (recvUpdate a.config.useCrc cks b.val) false (buf ++ [b]))
    ∧ ((buf.length < 2 ∨ 130 ≤ buf.length) →
      esc = false
      ∧ (xmodem_receive a mem input (fuel + 1)).phase
          = RecvPhase.reading t cks false (buf ++ [b]))
    ∧ (xmodem_receive a mem input (fuel + 1)).input = rest
    ∧ (xmodem_receive a mem input (fuel + 1)).output = (xmodem_receive a mem input fuel).output
    ∧ (xmodem_receive a mem input (fuel + 1)).outputBuffer
        = (xmodem_receive a mem input fuel).outputBuffer := by
  have hinv := xmodem_receive_inv a mem input fuel
  have hstep : xmodem_receive a mem input (fuel + 1)
      = recvStep a (xmodem_receive a mem input fuel) := recvRun_succ a fuel _
  rw [hstep]
  generalize xmodem_receive a mem input fuel = s at hphase hin hclk hinv ⊢
  obtain ⟨_, _, _, h4⟩ := hinv
  rw [hphase] at h4
  obtain ⟨_, _, _, hesc⟩ := h4
  have hread : recvStep a s
      = (if (decide (2 ≤ buf.length) && decide (buf.length < 2 + XMODEM_BLOCKSIZE))
            && decide (b.val = XMODEM_DLE) then
          { s with input := rest, ticks := s.ticks + 1,
                   phase := RecvPhase.reading t cks true buf }
        else
          { s with input := rest, ticks := s.ticks + 1,
                   phase := RecvPhase.reading t
                     (if decide (2 ≤ buf.length) && decide (buf.length < 2 + XMODEM_BLOCKSIZE)
                       then recvUpdate a.config.useCrc cks
                         (if esc then b.val ^^^ 0x40 else b.val)
                       else cks)
                     false (buf ++ [toChar (if esc then b.val ^^^ 0x40 else b.val)]) }) := by
    unfold recvStep
    rw [hphase]
    simp only
    unfold recvReadStep
    rw [if_pos hlen]
    simp only [hin, huse, Bool.true_and, if_neg (Nat.not_lt.mpr hclk)]
  rw [hread]
  have hdle : (b.val = XMODEM_DLE) ↔ b = 0x10 := by
    constructor
    · intro h
      exact Fin.ext h
    · intro h
      rw [h]
      rfl
  refine ⟨?_, ?_, ?_, ?_, ?_, ?_, ?_⟩
  · intro h2 h130 hb
    have hd : ((decide (2 ≤ buf.length) && decide (buf.length < 2 + XMODEM_BLOCKSIZE))
        && decide (b.val = XMODEM_DLE)) = true := by
      simp [h2, XMODEM_BLOCKSIZE, h130, hdle.mpr hb]
    rw [if_pos hd]
  · intro h2 h130 he hb
    have hd : ¬ ((decide (2 ≤ buf.length) && decide (buf.length < 2 + XMODEM_BLOCKSIZE))
        && decide (b.val = XMODEM_DLE)) = true := by
      have hnd : ¬ b.val = XMODEM_DLE := fun h => hb (hdle.mp h)
      simp [hnd]
    have hdata : (decide (2 ≤ buf.length) && decide (buf.length < 2 + XMODEM_BLOCKSIZE))
        = true := by
      simp [h2, XMODEM_BLOCKSIZE, h130]
    rw [if_neg hd]
    simp only [hdata, he, if_true]
  · intro h2 h130 he hb
    have hd : ¬ ((decide (2 ≤ buf.length) && decide (buf.length < 2 + XMODEM_BLOCKSIZE))
        && decide (b.val = XMODEM_DLE)) = true := by
      have hnd : ¬ b.val = XMODEM_DLE := fun h => hb (hdle.mp h)
      simp [hnd]
    have hdata : (decide (2 ≤ buf.length) && decide (buf.length < 2 + XMODEM_BLOCKSIZE))
        = true := by
      simp [h2, XMODEM_BLOCKSIZE, h130]
    rw [if_neg hd]
    simp only [hdata, he, if_true, Bool.false_eq_true, if_false, toChar_byte]
  · intro hpos
    have he : esc = false := by
      cases hes : esc with
      | false => rfl
      | true =>
        have h := hesc hes
        unfold XMODEM_BLOCKSIZE at h
        omega
    have hdata : (decide (2 ≤ buf.length) && decide (buf.length < 2 + XMODEM_BLOCKSIZE))
        = false := by
      rcases hpos with h | h
      · simp [Nat.not_le.mpr h]
      · simp [XMODEM_BLOCKSIZE]
        omega
    refine ⟨he, ?_⟩
    simp only [hdata, he, Bool.false_and, Bool.false_eq_true, if_false, toChar_byte]
  · split <;> rfl
  · split <;> rfl
  · split <;> rfl

/-- Witness of C17: checksum mode with `useEscape`; after SOH, 0x01, 0xFE, DLE the
byte 0x01 is stored as 0x41 and the accumulator is fed 0x41. -/
theorem recv_dle_escape_witness :
    (xmodem_receive wRecvEsc (fun _ => 0) [some 1, some 1, some 0xFE, some 0x10, some 1] 4).phase
        = RecvPhase.reading 1000000 0 true [1, 0xFE]
    ∧ (xmodem_receive wRecvEsc (fun _ => 0) [some 1, some 1, some 0xFE, some 0x10, some 1] 5).phase
        = RecvPhase.reading 1000000 (recvUpdate false 0 (1 ^^^ 0x40)) false
            ([1, 0xFE] ++ [toChar (1 ^^^ 0x40)]) :=
  have h := recv_dle_escape wRecvEsc (fun _ => 0) [some 1, some 1, some 0xFE, some 0x10, some 1]
    4 1000000 0 true [1, 0xFE] 1 [] rfl (by decide) (by decide) (by decide) (by decide)
  ⟨by decide, h.2.1 (by decide) (by decide) rfl (by decide)⟩

/-- C18, the claim as stated fails.  CRC mode, a banner, a clock that advances by
one microsecond per reading (so it is monotonic) and no timed-out read: the
first frame arrives complete but with block number 2, and is answered by NAK;
`sizeReceived` is still 0, so the very next pass of the waiting loop flushes the
log and writes the banner, BS and 'C' again, although an SOH has been
received. -/
theorem recv_solicits_again_after_rejected_frame :
    (xmodem_receive wRecvCrcTick (fun _ => 0) wWrongBlockFrame 134).output
        = [Out.dumplog, Out.puts [0x3E], Out.putchar 8, Out.putchar 67, Out.putchar 0x15]
    ∧ (xmodem_receive wRecvCrcTick (fun _ => 0) wWrongBlockFrame 135).output
        = [Out.dumplog, Out.puts [0x3E], Out.putchar 8, Out.putchar 67, Out.putchar 0x15,
           Out.dumplog, Out.puts [0x3E], Out.putchar 8, Out.putchar 67]
    ∧ (∀ j k, j ≤ k → wRecvCrcTick.clock j ≤ wRecvCrcTick.clock k) := by
  refine ⟨by decide, by decide, fun j k h => h⟩

/-- C18, amended.  Solicitation stops at the first accepted frame: for every
input and every clock, from any point of a run of `xmodem_receive` where
`sizeReceived` is not 0, `sizeReceived` stays not 0, the periodic branch of the
waiting loop is never taken again (no log flush, no banner, no BS and 'C', no
solicitation NAK), and a step writes nothing else than: in the waiting loop,
nothing, or ACK with the final newline and log flush, or eight CAN bytes; while
a frame is read, nothing, or the ACK or NAK that answers it; while draining,
nothing or the final newline and log flush. -/
theorem recv_no_solicitation_after_first_block (a : RecvCall) (mem : Nat → Byte)
    (input : List (Option Byte)) (fuel : Nat)
    (hpos : (xmodem_receive a mem input fuel).sizeReceived ≠ 0) (k : Nat) :
    (xmodem_receive a mem input (fuel + k)).sizeReceived ≠ 0
    ∧ (∀ t, recvSolicit a (xmodem_receive a mem input (fuel + k)) t
        = (xmodem_receive a mem input (fuel + k), t))
    ∧ ∃ more, (xmodem_receive a mem input (fuel + k + 1)).output
          = (xmodem_receive a mem input (fuel + k)).output ++ more
        ∧ (match (xmodem_receive a mem input (fuel + k)).phase with
          | RecvPhase.waiting _ =>
            more = [] ∨ more = [Out.putchar 0x06, Out.puts [], Out.dumplog]
              ∨ more = List.replicate 8 (Out.putchar 0x18)
          | RecvPhase.reading _ _ _ _ =>
            more = [] ∨ more = [Out.putchar 0x06] ∨ more = [Out.putchar 0x15]
          | RecvPhase.draining => more = [] ∨ more = [Out.puts [], Out.dumplog]
          | RecvPhase.returned _ => more = []) := by
  have hk : xmodem_receive a mem input (fuel + k)
      = recvRun a k (xmodem_receive a mem input fuel) := by
    unfold xmodem_receive
    rw [recvRun_add]
  have hmono := (recvRun_buffer a k (xmodem_receive a mem input fuel)).1
  have hnz : (xmodem_receive a mem input (fuel + k)).sizeReceived ≠ 0 := by
    rw [hk]
    omega
  have hstep : xmodem_receive a mem input (fuel + k + 1)
      = recvStep a (xmodem_receive a mem input (fuel + k)) := recvRun_succ a (fuel + k) _
  refine ⟨hnz, fun t => recvSolicit_nonzero a _ t hnz, ?_⟩
  rw [hstep]
  exact recvStep_output_nonzero a _ hnz

/-- Witness of C18: after one accepted frame the next step of the waiting loop, which
reads EOT, writes ACK and the final flush only. -/
theorem recv_no_solicitation_after_first_block_witness :
    (xmodem_receive wRecvSumTick (fun _ => 0) wFrameThenEot 133).sizeReceived ≠ 0
    ∧ (xmodem_receive wRecvSumTick (fun _ => 0) wFrameThenEot (133 + 0)).sizeReceived ≠ 0
    ∧ (xmodem_receive wRecvSumTick (fun _ => 0) wFrameThenEot (133 + 0 + 1)).output
        = (xmodem_receive wRecvSumTick (fun _ => 0) wFrameThenEot (133 + 0)).output
            ++ [Out.putchar 0x06, Out.puts [], Out.dumplog] :=
  have h := recv_no_solicitation_after_first_block wRecvSumTick (fun _ => 0) wFrameThenEot 133
    (by decide) 0
  ⟨by decide, h.1, by decide⟩

/-- C19.  Diagnostic log latch.  For every state of the two globals and every
sequence of `xmodem_log` calls after `xmodem_clearlog`: no byte at an index from
65536 on is changed; the buffer holds, NUL-terminated and free of NUL, the text
made of the lines kept (every line up to the first that would overflow), each
followed by CR LF, and `gLogPos` is the length of that text or the latch value
65536; and once an append is dropped because `gLogPos + strlen(s) + 3` reaches
65536, it and every later append leave the buffer as it was, with `gLogPos` at
65536. -/
theorem log_latch (st0 : LogState) (calls : List (List Byte)) :
    (∀ i, 65536 ≤ i →
      (logCalls (xmodem_clearlog st0) calls).gLogBuffer i = st0.gLogBuffer i)
    ∧ (logText (keptLines 0 calls)).length < 65536
    ∧ (∀ i, i < (logText (keptLines 0 calls)).length →
        (logCalls (xmodem_clearlog st0) calls).gLogBuffer i
          = (logText (keptLines 0 calls)).getD i 0)
    ∧ (logCalls (xmodem_clearlog st0) calls).gLogBuffer (logText (keptLines 0 calls)).length = 0
    ∧ (∀ c ∈ logText (keptLines 0 calls), c ≠ 0)
    ∧ ((logCalls (xmodem_clearlog st0) calls).gLogPos = (logText (keptLines 0 calls)).length
        ∨ (logCalls (xmodem_clearlog st0) calls).gLogPos = 65536)
    ∧ ∀ (pre : List (List Byte)) (s : List Byte) (post : List (List Byte)),
        calls = pre ++ s :: post →
        (logCalls (xmodem_clearlog st0) pre).gLogPos + strlen s + 3 ≥ 65536 →
        (logCalls (xmodem_clearlog st0) calls).gLogBuffer
            = (logCalls (xmodem_clearlog st0) pre).gLogBuffer
        ∧ (logCalls (xmodem_clearlog st0) (pre ++ [s])).gLogBuffer
            = (logCalls (xmodem_clearlog st0) pre).gLogBuffer
        ∧ (logCalls (xmodem_clearlog st0) calls).gLogPos = 65536 := by
  have hclear : LogInv (xmodem_clearlog st0) [] :=
    ⟨by decide, Or.inl rfl, fun i hi => absurd hi (Nat.not_lt_zero i),
      poke_same st0.gLogBuffer 0 0, fun c hc => absurd hc (List.not_mem_nil c)⟩
  have h := logCalls_inv calls (xmodem_clearlog st0) [] hclear rfl
  simp only [List.nil_append, List.length_nil] at h
  obtain ⟨h1, h2, h3, h4, h5⟩ := h
  refine ⟨?_, h1, h3, h4, h5, h2, ?_⟩
  · intro i hi
    rw [logCalls_beyond _ _ i hi]
    show poke st0.gLogBuffer 0 0 i = _
    rw [poke_other _ _ _ _ (by omega)]
  · intro pre s post hcalls hover
    have hdrop := xmodem_log_drop (logCalls (xmodem_clearlog st0) pre) s hover
    have hsplit : logCalls (xmodem_clearlog st0) calls
        = logCalls (xmodem_log (logCalls (xmodem_clearlog st0) pre) s) post := by
      rw [hcalls]
      unfold logCalls
      rw [List.foldl_append]
      rfl
    have hone : logCalls (xmodem_clearlog st0) (pre ++ [s])
        = xmodem_log (logCalls (xmodem_clearlog st0) pre) s := by
      unfold logCalls
      rw [List.foldl_append]
      rfl
    rw [hsplit, hone, hdrop, logCalls_latched _ post rfl]
    exact ⟨rfl, rfl, rfl⟩

/-- Witness of C19: two short lines are kept; a line of 65534 characters is dropped
and latches the log. -/
theorem log_latch_witness :
    (logCalls (xmodem_clearlog ⟨fun _ => 0xEE, 7⟩) [[0x4E, 0x41, 0x4B], [0x41, 0x43, 0x4B]]).gLogPos
        = 10
    ∧ logText (keptLines 0 [[0x4E, 0x41, 0x4B], [0x41, 0x43, 0x4B]])
        = [0x4E, 0x41, 0x4B, 13, 10, 0x41, 0x43, 0x4B, 13, 10]
    ∧ (logCalls (xmodem_clearlog ⟨fun _ => 0xEE, 7⟩)
          ([[0x4E, 0x41, 0x4B]] ++ List.replicate 65534 0x41 :: [[0x41]])).gLogPos = 65536 :=
  have h1 := log_latch ⟨fun _ => 0xEE, 7⟩ [[0x4E, 0x41, 0x4B], [0x41, 0x43, 0x4B]]
  have h2 := (log_latch ⟨fun _ => 0xEE, 7⟩
    ([[0x4E, 0x41, 0x4B]] ++ List.replicate 65534 0x41 :: [[0x41]])).2.2.2.2.2.2
    [[0x4E, 0x41, 0x4B]] (List.replicate 65534 0x41) [[0x41]] rfl
    (by
      have hs : strlen (List.replicate 65534 (0x41 : Byte)) = 65534 := by
        unfold strlen cstr
        rw [List.takeWhile_replicate, if_pos (by decide), List.length_replicate]
      rw [hs]
      exact Nat.le_add_left _ _)
  ⟨(h1.2.2.2.2.2.1.resolve_right (by decide)).trans (by decide), by decide, h2.2.2⟩

end Xmodem
